import Mathlib

/-!
The notes data source of `src/App.js`.

A shallow embedding of `notesDataSource` (`getMany`, `getOne`, `createOne`,
`updateOne`, `deleteOne`, `validate`) and of the module state `notesStore`,
followed by the properties proved of it.

* JavaScript values are the primitives that a note or a query model can hold.
  Numbers are the integers together with `NaN`, an integer standing for the
  double of that value: the code only applies `Math.max`, `+ 1`, `*`, `+`, `<`
  and `>` to numbers, and `NaN` is what the conversion of a non-numeric value
  gives. The sum `+ 1` of `createOne` is rounded to the nearest double, so that
  `2 ^ 53 + 1` is `2 ^ 53`, and `String(n)` prints the shortest digits that are
  read back as `n`, in exponent notation from `10 ^ 21` on.
* A string is compared by its UTF-16 code units, as JavaScript does. A string
  here is a sequence of Unicode characters, on which the code unit tests
  `includes`, `startsWith` and `endsWith` are the same tests on characters.
* A note is an object: a list of key/value pairs in insertion order. Objects are
  values here, so the copy `[...notesStore]` is the list itself and the copy
  `{ ...n }` is the note itself. The read `note[field]` of `getMany` finds the
  own property of that name and, without one, what a note inherits from
  `Object.prototype` (`constructor`, `toString` and the like).
* What the JavaScript engine supplies (`Array.prototype.sort`,
  `String.prototype.toLowerCase`, the string-to-number conversion, the text of
  the objects of `Object.prototype`) is a `Host`, described by what ECMAScript
  guarantees of it. Three engines are given,
  sorting by insertion, by merging and by binary insertion.
* The module state is the variable `notesStore` and the `notes` entry of
  `localStorage`; every method maps a state to a result and a state. The
  methods are asynchronous only through the delay they start with, which has
  no part in the result.
-/

namespace App

/-! ## Values -/

/-- A JavaScript primitive value. -/
inductive JSVal where
  | undefined
  | null
  | bool (b : Bool)
  | num (n : Int)
  | nan
  | str (s : String)
  deriving DecidableEq, Repr

/-- A note: a JavaScript object as its own properties in insertion order. -/
abbrev Note := List (String × JSVal)

/-- The object has an own property named `key`. -/
def hasKey (o : Note) (key : String) : Prop := key ∈ o.map Prod.fst

instance (o : Note) (key : String) : Decidable (hasKey o key) :=
  inferInstanceAs (Decidable (key ∈ o.map Prod.fst))

/-- Read of an own property: its value, `undefined` when the object has no own
property of that name. This is the read `o.id`, `o.title` and `o.text`, names
that `Object.prototype` does not have; the read `o[key]` of any name is
`readProp`. -/
def getProp : Note → String → JSVal
  | [], _ => JSVal.undefined
  | (k, v) :: rest, key => if k = key then v else getProp rest key

/-- Property write as done by an object literal or a spread: an existing key
keeps its position and takes the new value, a new key is appended. -/
def setProp : Note → String → JSVal → Note
  | [], key, v => [(key, v)]
  | (k, w) :: rest, key, v => if k = key then (k, v) :: rest else (k, w) :: setProp rest key v

/-- Spread `...src` into an object under construction: the properties of `src`
are written in order, later ones overriding. -/
def spread (target src : Note) : Note :=
  src.foldl (fun o kv => setProp o kv.1 kv.2) target

/-- Truthiness (`ToBoolean`). -/
def truthy : JSVal → Bool
  | JSVal.undefined => false
  | JSVal.null => false
  | JSVal.bool b => b
  | JSVal.num n => decide (n ≠ 0)
  | JSVal.nan => false
  | JSVal.str s => decide (s ≠ "")

/-- The test `v == null`: true of `null` and `undefined` only. -/
def looseEqNull : JSVal → Bool
  | JSVal.undefined => true
  | JSVal.null => true
  | _ => false

/-- Strict equality `a === b`: same type and same value, and `NaN` equals nothing. -/
def strictEq : JSVal → JSVal → Bool
  | JSVal.nan, _ => false
  | _, JSVal.nan => false
  | a, b => decide (a = b)

/-- The binary exponent of the spacing of the doubles around `a`: 0 below `2^53`,
and one more each time `a` doubles. -/
def spacingExponent : Nat → Nat → Nat
  | 0, _ => 0
  | fuel + 1, a => if a < 2 ^ 53 then 0 else spacingExponent fuel (a / 2) + 1

/-- The double nearest to an integer, a tie going to the even significand. -/
def roundToDouble (n : Int) : Int :=
  if n.natAbs ≤ 2 ^ 53 then n
  else
    let e := spacingExponent n.natAbs n.natAbs
    let q := n.natAbs / 2 ^ e
    let r := n.natAbs % 2 ^ e
    let q2 := if 2 * r < 2 ^ e then q else if 2 ^ e < 2 * r then q + 1
      else if q % 2 = 0 then q else q + 1
    if n < 0 then -((q2 * 2 ^ e : Nat) : Int) else ((q2 * 2 ^ e : Nat) : Int)

/-- The shortest significand `s` of `k` digits, with the power of ten it is
scaled by, such that `s` scaled is read back as the double `x`. -/
def shortestDigits (x : Nat) (digits : Nat) : Nat → Nat → Nat × Nat
  | 0, _ => (x, 0)
  | fuel + 1, k =>
    let scale := 10 ^ (digits - k)
    let lo := x / scale
    let okLo := decide (roundToDouble ((lo * scale : Nat) : Int) = (x : Int))
    let okHi := decide (roundToDouble (((lo + 1) * scale : Nat) : Int) = (x : Int))
    if okLo && okHi then
      (if x - lo * scale < (lo + 1) * scale - x then (lo, digits - k)
       else if (lo + 1) * scale - x < x - lo * scale then (lo + 1, digits - k)
       else if lo % 2 = 0 then (lo, digits - k) else (lo + 1, digits - k))
    else if okLo then (lo, digits - k)
    else if okHi then (lo + 1, digits - k)
    else shortestDigits x digits fuel (k + 1)

/-- Exponent notation of a significand `s` scaled by `10 ^ p`. -/
def exponentNotation (s p : Nat) : String :=
  let ds := (Nat.toDigits 10 s)
  let ds := ds.reverse.dropWhile (fun c => c = '0') |>.reverse
  let point := if ds.length ≤ 1 then ds else ds.take 1 ++ '.' :: ds.drop 1
  String.mk (point ++ 'e' :: '+' :: Nat.toDigits 10 (p + (Nat.toDigits 10 s).length - 1))

/-- Conversion `String(n)` of a number. Up to `2 ^ 53` every digit counts and
the text is the decimal digits. Beyond, the text is made of the shortest
significand that is read back as the number: followed by zeros while the number
has at most 21 digits, and in exponent notation from `10 ^ 21` on. -/
def numberToString (n : Int) : String :=
  if n.natAbs ≤ 2 ^ 53 then toString n
  else
    let d := (Nat.toDigits 10 n.natAbs).length
    let sp := shortestDigits n.natAbs d d 1
    (if n < 0 then "-" else "") ++
      (if d ≤ 21 then String.mk (Nat.toDigits 10 sp.1 ++ List.replicate sp.2 '0')
        else exponentNotation sp.1 sp.2)

/-- Conversion to text, `String(v)`. -/
def jsToString : JSVal → String
  | JSVal.undefined => "undefined"
  | JSVal.null => "null"
  | JSVal.bool true => "true"
  | JSVal.bool false => "false"
  | JSVal.num n => numberToString n
  | JSVal.nan => "NaN"
  | JSVal.str s => s

/-- The key used by `note[field]`: the text of `field`. -/
def toPropertyKey (field : JSVal) : String := jsToString field

/-- A JavaScript number of the model: an integer, or `none` for `NaN`. -/
abbrev JSNum := Option Int

/-- A number as a value. -/
def ofNumber : JSNum → JSVal
  | some n => JSVal.num n
  | none => JSVal.nan

/-- UTF-16 code units of one character. -/
def charUnits (c : Char) : List Nat :=
  if c.toNat < 65536 then [c.toNat]
  else [55296 + (c.toNat - 65536) / 1024, 56320 + (c.toNat - 65536) % 1024]

/-- UTF-16 code units of a list of characters. -/
def unitsOf : List Char → List Nat
  | [] => []
  | c :: cs => charUnits c ++ unitsOf cs

/-- A JavaScript string is its sequence of UTF-16 code units. -/
def utf16Units (s : String) : List Nat := unitsOf s.data

/-- Lexicographic order on code unit sequences. -/
def lexLt : List Nat → List Nat → Bool
  | _, [] => false
  | [], _ :: _ => true
  | x :: xs, y :: ys => if x < y then true else if y < x then false else lexLt xs ys

/-- Test `s.includes(t)`. -/
def includes (s t : String) : Bool := decide (t.data <:+: s.data)

/-- Test `s.startsWith(t)`. -/
def startsWith (s t : String) : Bool := decide (t.data <+: s.data)

/-- Test `s.endsWith(t)`. -/
def endsWith (s t : String) : Bool := decide (t.data <:+ s.data)

/-- Lower-casing of the letters `A` to `Z`, which is what `toLowerCase` does on
ASCII text. -/
def asciiLower (s : String) : String := ⟨s.data.map Char.toLower⟩

/-! ## The JavaScript engine -/

/-- The conditions under which ECMAScript calls `cmp` a consistent comparator
for the elements of `l`. -/
def ConsistentOn {α : Type} (cmp : α → α → Int) (l : List α) : Prop :=
  (∀ a ∈ l, cmp a a = 0) ∧
  (∀ a ∈ l, ∀ b ∈ l, cmp a b = 0 → cmp b a = 0) ∧
  (∀ a ∈ l, ∀ b ∈ l, ∀ c ∈ l, cmp a b = 0 → cmp b c = 0 → cmp a c = 0) ∧
  (∀ a ∈ l, ∀ b ∈ l, ∀ c ∈ l, cmp a b < 0 → cmp b c < 0 → cmp a c < 0) ∧
  (∀ a ∈ l, ∀ b ∈ l, ∀ c ∈ l, 0 < cmp a b → 0 < cmp b c → 0 < cmp a c)

instance {α : Type} (cmp : α → α → Int) (l : List α) : Decidable (ConsistentOn cmp l) := by
  unfold ConsistentOn
  infer_instance

/-- What the engine supplies. `sort cmp l` is `Array.prototype.sort` with the
comparator `cmp`: always a rearrangement of `l`; when `cmp` is a consistent
comparator for the elements the result is ordered by `cmp` and stable, and
otherwise ECMAScript declares the sort order implementation-defined.
`toLowerCase` is `String.prototype.toLowerCase`, which on ASCII text lower-cases
the letters `A` to `Z`, and `stringToNumber` is the conversion of a string to a
number. `inherited key` tells what an object inherits from `Object.prototype`
under the name `key`: nothing, or an object (a built-in function, or
`Object.prototype` itself for `__proto__`), given by the text that `String`
converts it to, which is left to the engine. -/
structure Host where
  sort : (Note → Note → Int) → List Note → List Note
  toLowerCase : String → String
  stringToNumber : String → JSNum
  inherited : String → Option String
  sort_perm : ∀ cmp l, (sort cmp l).Perm l
  sort_sorted : ∀ cmp l, ConsistentOn cmp l → (sort cmp l).Pairwise (fun a b => cmp a b ≤ 0)
  sort_stable : ∀ cmp l, ConsistentOn cmp l → ∀ e ∈ l,
    (sort cmp l).filter (fun x => decide (cmp e x = 0)) = l.filter (fun x => decide (cmp e x = 0))
  toLowerCase_ascii : ∀ s : String, (∀ c ∈ s.data, c.toNat < 128) → toLowerCase s = asciiLower s

/-- The text of a built-in function of the given name, as V8 prints it. -/
def nativeFunctionText (name : String) : String :=
  "function " ++ name ++ "() \x7b [native code] \x7d"

/-- The properties of `Object.prototype` in V8, each with the text of its
value: the constructor `Object`, the methods, and `__proto__`, which for a
plain object is `Object.prototype`. -/
def objectPrototype (key : String) : Option String :=
  if key = "constructor" then some (nativeFunctionText "Object")
  else if key = "__proto__" then some "[object Object]"
  else if key ∈ ["__defineGetter__", "__defineSetter__", "hasOwnProperty", "__lookupGetter__",
      "__lookupSetter__", "isPrototypeOf", "propertyIsEnumerable", "toString", "valueOf",
      "toLocaleString"] then some (nativeFunctionText key)
  else none

/-- The text of the object that `o[key]` is when `o` has no own property `key`
and inherits one from `Object.prototype`; `none` when `o[key]` is a primitive. -/
def inheritedText (H : Host) (o : Note) (key : String) : Option String :=
  if hasKey o key then none else H.inherited key

/-- Property read `o[key]`, as `String(...)`, `<` and `>` see it: the value of
the own property; without one, the primitive that the inherited object is
converted to, which is its text; and `undefined` when there is neither. -/
def readProp (H : Host) (o : Note) (key : String) : JSVal :=
  match inheritedText H o key with
  | some text => JSVal.str text
  | none => getProp o key

/-- Conversion to a number (`ToNumber`). -/
def toNumber (H : Host) : JSVal → JSNum
  | JSVal.undefined => none
  | JSVal.null => some 0
  | JSVal.bool b => some (if b then 1 else 0)
  | JSVal.num n => some n
  | JSVal.nan => none
  | JSVal.str s => H.stringToNumber s

/-- The comparison `x < y`: by code units when both are strings, otherwise
numeric, and false when a side is `NaN`. -/
def jsLt (H : Host) (x y : JSVal) : Bool :=
  match x, y with
  | JSVal.str a, JSVal.str b => lexLt (utf16Units a) (utf16Units b)
  | _, _ =>
    match toNumber H x, toNumber H y with
    | some m, some n => decide (m < n)
    | _, _ => false

/-- The comparison `x > y`. -/
def jsGt (H : Host) (x y : JSVal) : Bool := jsLt H y x

/-- Function `Math.max` of two arguments. -/
def mathMax (H : Host) (a b : JSVal) : JSNum :=
  match toNumber H a, toNumber H b with
  | some m, some n => some (max m n)
  | _, _ => none

/-- Array method `slice(start, stop)` for integer arguments: a negative index
counts from the end, and both ends are clipped to the array. -/
def slice {α : Type} (xs : List α) (start stop : Int) : List α :=
  let rel : Int → Nat := fun i => if i < 0 then (xs.length + i).toNat else min i.toNat xs.length
  (xs.drop (rel start)).take (rel stop - rel start)

/-! ## Query models and module state -/

/-- One entry of `filterModel.items`; a property that is absent is `undefined`. -/
structure FilterItem where
  field : JSVal
  value : JSVal
  operator : JSVal
  deriving DecidableEq, Repr

/-- The filter model; `items` may be absent. -/
structure FilterModel where
  items : Option (List FilterItem)
  deriving DecidableEq, Repr

/-- One entry of `sortModel`. -/
structure SortItem where
  field : JSVal
  sort : JSVal
  deriving DecidableEq, Repr

/-- The pagination model. -/
structure PaginationModel where
  page : Int
  pageSize : Int
  deriving DecidableEq, Repr

/-- The argument of `getMany`; `filterModel` and `sortModel` may be absent. -/
structure GetManyParams where
  paginationModel : PaginationModel
  filterModel : Option FilterModel
  sortModel : Option (List SortItem)
  deriving DecidableEq, Repr

/-- The value `getMany` resolves to. -/
structure GetManyResult where
  items : List Note
  itemCount : Nat
  deriving DecidableEq, Repr

/-- The module state: the variable `notesStore`, and the `notes` entry of
`localStorage` (the notes last serialised into it, `none` while it is unset). -/
structure State where
  notesStore : List Note
  localStorage : Option (List Note)
  deriving DecidableEq, Repr

/-- The two notes used when `localStorage` has no `notes` entry. -/
def defaultNotes : List Note :=
  [[("id", JSVal.num 1), ("title", JSVal.str "Grocery List Item"), ("text", JSVal.str "Buy more coffee.")],
   [("id", JSVal.num 2), ("title", JSVal.str "Personal Goal"), ("text", JSVal.str "Finish reading the book.")]]

/-- Function `getStoredNotes`: the parsed `notes` entry, or the default notes. -/
def getStoredNotes (stored : Option (List Note)) : List Note :=
  match stored with
  | some notes => notes
  | none => defaultNotes

/-- Function `saveNotes`: write the notes into `localStorage`. -/
def saveNotes (st : State) (notes : List Note) : State :=
  { st with localStorage := some notes }

/-- The state after the module is loaded: `notesStore = getStoredNotes()`. -/
def initialState (stored : Option (List Note)) : State :=
  { notesStore := getStoredNotes stored, localStorage := stored }

/-! ## getMany -/

/-- The callback given to `processedNotes.filter` for one filter item: the
`switch` on the operator. The value of an item is a primitive, so an inherited
object is never `===` to it. -/
def filterCallback (H : Host) (field value operator : JSVal) (note : Note) : Bool :=
  let noteValue := readProp H note (toPropertyKey field)
  if operator = JSVal.str "contains" then
    includes (H.toLowerCase (jsToString noteValue)) (H.toLowerCase (jsToString value))
  else if operator = JSVal.str "equals" then
    (inheritedText H note (toPropertyKey field)).isNone && strictEq noteValue value
  else if operator = JSVal.str "startsWith" then
    startsWith (H.toLowerCase (jsToString noteValue)) (H.toLowerCase (jsToString value))
  else if operator = JSVal.str "endsWith" then
    endsWith (H.toLowerCase (jsToString noteValue)) (H.toLowerCase (jsToString value))
  else if operator = JSVal.str ">" then
    jsGt H noteValue value
  else if operator = JSVal.str "<" then
    jsLt H noteValue value
  else
    true

/-- One round of the `forEach` over the filter items: an item with a falsy
`field` or a `null` or `undefined` `value` is skipped. -/
def filterStep (H : Host) (processedNotes : List Note) (item : FilterItem) : List Note :=
  if !truthy item.field || looseEqNull item.value then processedNotes
  else processedNotes.filter (filterCallback H item.field item.value item.operator)

/-- The filter items that `filterModel?.items` yields, none when it is absent. -/
def filterItems (filterModel : Option FilterModel) : List FilterItem :=
  match filterModel with
  | some fm => (match fm.items with | some items => items | none => [])
  | none => []

/-- The filtering block: `processedNotes` after it, starting from a copy of the store. -/
def filterStage (H : Host) (notesStore : List Note) (filterModel : Option FilterModel) : List Note :=
  if (filterItems filterModel).length ≠ 0 then
    (filterItems filterModel).foldl (filterStep H) notesStore
  else notesStore

/-- The comparator given to `processedNotes.sort`: the first sort item at which
the two notes compare with `<` or `>` decides, and a direction other than
`asc` counts as descending. -/
def compareNotes (H : Host) : List SortItem → Note → Note → Int
  | [], _, _ => 0
  | item :: rest, a, b =>
    if jsLt H (readProp H a (toPropertyKey item.field))
        (readProp H b (toPropertyKey item.field)) then
      (if item.sort = JSVal.str "asc" then -1 else 1)
    else if jsGt H (readProp H a (toPropertyKey item.field))
        (readProp H b (toPropertyKey item.field)) then
      (if item.sort = JSVal.str "asc" then 1 else -1)
    else compareNotes H rest a b

/-- The sorting block: `processedNotes` after it. -/
def sortStage (H : Host) (sortModel : Option (List SortItem)) (processedNotes : List Note) : List Note :=
  match sortModel with
  | some (item :: rest) => H.sort (compareNotes H (item :: rest)) processedNotes
  | _ => processedNotes

/-- The list `processedNotes` that `getMany` paginates: the store filtered, then sorted. -/
def processedNotes (H : Host) (st : State) (params : GetManyParams) : List Note :=
  sortStage H params.sortModel (filterStage H st.notesStore params.filterModel)

/-- Method `getMany`: the page and the count, and the state after the call. -/
def getMany (H : Host) (st : State) (params : GetManyParams) : GetManyResult × State :=
  let processed := processedNotes H st params
  let start := params.paginationModel.page * params.paginationModel.pageSize
  let stop := start + params.paginationModel.pageSize
  ({ items := slice processed start stop, itemCount := processed.length }, st)

/-! ## getOne, createOne, updateOne, deleteOne -/

/-- Conversion `Number(noteId)`. -/
def toNumberVal (H : Host) (noteId : JSVal) : JSVal := ofNumber (toNumber H noteId)

/-- Method `getOne`: the first note whose id is `Number(noteId)`, or the error. -/
def getOne (H : Host) (st : State) (noteId : JSVal) : Except String Note × State :=
  match st.notesStore.find? (fun n => strictEq (getProp n "id") (toNumberVal H noteId)) with
  | some note => (Except.ok note, st)
  | none => (Except.error "Note not found", st)

/-- The id that `createOne` computes: the `reduce` with `Math.max` from 0, plus
1, the sum being the double nearest to it. -/
def nextId (H : Host) (notesStore : List Note) : JSVal :=
  ofNumber ((notesStore.foldl (fun m n => mathMax H (ofNumber m) (getProp n "id")) (some 0)).map
    (fun g => roundToDouble (g + 1)))

/-- Method `createOne`: the new note is the computed id followed by the spread
of `data`; it is appended to the store and the store is saved. -/
def createOne (H : Host) (st : State) (data : Note) : Note × State :=
  let newNote := spread [("id", nextId H st.notesStore)] data
  let notes := st.notesStore ++ [newNote]
  (newNote, saveNotes { st with notesStore := notes } notes)

/-- The `map` of `updateOne`: every note whose id is `Number(noteId)` is
replaced by itself with `data` spread over it; `updated` is the last such note. -/
def updateNotes (H : Host) (noteId : JSVal) (data : Note) :
    List Note → Option Note → List Note × Option Note
  | [], updated => ([], updated)
  | n :: rest, updated =>
    if strictEq (getProp n "id") (toNumberVal H noteId) then
      let r := updateNotes H noteId data rest (some (spread n data))
      (spread n data :: r.1, r.2)
    else
      let r := updateNotes H noteId data rest updated
      (n :: r.1, r.2)

/-- Method `updateOne`: the store is replaced by the mapped one; without a
match the error is thrown before the store is saved. -/
def updateOne (H : Host) (st : State) (noteId : JSVal) (data : Note) : Except String Note × State :=
  let r := updateNotes H noteId data st.notesStore none
  let st1 : State := { st with notesStore := r.1 }
  match r.2 with
  | none => (Except.error "Note not found", st1)
  | some updated => (Except.ok updated, saveNotes st1 st1.notesStore)

/-- Method `deleteOne`: the notes whose id is not `Number(noteId)` are kept, and
the store is saved. -/
def deleteOne (H : Host) (st : State) (noteId : JSVal) : State :=
  let notes := st.notesStore.filter (fun n => !strictEq (getProp n "id") (toNumberVal H noteId))
  saveNotes { st with notesStore := notes } notes

/-! ## validate -/

/-- One entry of the `issues` that `validate` returns. -/
structure Issue where
  message : String
  path : List String
  deriving DecidableEq, Repr

/-- Property read `v.length`: the number of code units of a string, and
`undefined` for the other primitives that have properties. -/
def lengthOf : JSVal → JSVal
  | JSVal.str s => JSVal.num (utf16Units s).length
  | _ => JSVal.undefined

/-- Method `validate`: the `issues` of the object it returns. -/
def validate (H : Host) (formValues : Note) : List Issue :=
  let issues : List Issue := []
  let issues :=
    if !truthy (getProp formValues "title") then
      issues ++ [⟨"Title is required", ["title"]⟩]
    else if jsLt H (lengthOf (getProp formValues "title")) (JSVal.num 3) then
      issues ++ [⟨"Title must be at least 3 characters", ["title"]⟩]
    else issues
  let issues :=
    if !truthy (getProp formValues "text") then
      issues ++ [⟨"Text is required", ["text"]⟩]
    else issues
  issues

/-! ## getMany on array references -/

/-- A heap of arrays: an array reference is an index into it. In `State` an
array is a value; here `notesStore` and `processedNotes` are references, so that
`sort`, which rearranges the array it is called on, is seen to act on an array
that is not the store. -/
abbrev Heap := List (List Note)

/-- The array that a reference points to. -/
def deref (heap : Heap) (ref : Nat) : List Note :=
  match heap[ref]? with
  | some a => a
  | none => []

/-- A new array: the heap with it, and the reference to it. -/
def alloc (heap : Heap) (a : List Note) : Heap × Nat := (heap ++ [a], heap.length)

/-- One round of the `forEach` on references: `processedNotes.filter(...)`
makes a new array, to which `processedNotes` is set. -/
def filterStepRef (H : Host) (hp : Heap × Nat) (item : FilterItem) : Heap × Nat :=
  if !truthy item.field || looseEqNull item.value then hp
  else alloc hp.1 ((deref hp.1 hp.2).filter (filterCallback H item.field item.value item.operator))

/-- Method `getMany` on references: `[...notesStore]` makes a new array, each
`filter` makes a new array, `sort` rearranges the array `processedNotes` in
place, and `slice` makes a new array. The result and the heap after the call. -/
def getManyRef (H : Host) (heap : Heap) (notesStore : Nat) (params : GetManyParams) :
    GetManyResult × Heap :=
  let copied := alloc heap (deref heap notesStore)
  let filtered :=
    if (filterItems params.filterModel).length ≠ 0 then
      (filterItems params.filterModel).foldl (filterStepRef H) copied
    else copied
  let sorted : Heap :=
    match params.sortModel with
    | some (item :: rest) =>
      filtered.1.set filtered.2 (H.sort (compareNotes H (item :: rest)) (deref filtered.1 filtered.2))
    | _ => filtered.1
  let start := params.paginationModel.page * params.paginationModel.pageSize
  let stop := start + params.paginationModel.pageSize
  let paginated := alloc sorted (slice (deref sorted filtered.2) start stop)
  ({ items := deref paginated.1 paginated.2, itemCount := (deref sorted filtered.2).length },
    paginated.1)

/-- What the filtering rounds keep true of the heap and of `processedNotes`:
the arrays of the heap before the call are as they were, and `processedNotes` is
a reference made during the call, to the list computed on values. -/
def FrameOk (heap : Heap) (hp : Heap × Nat) (value : List Note) : Prop :=
  heap.length ≤ hp.2 ∧ hp.2 < hp.1.length ∧
    (∀ ref, ref < heap.length → deref hp.1 ref = deref heap ref) ∧ deref hp.1 hp.2 = value

/-! ## Sorting algorithms -/

/-- The order `a` before-or-level-with `b` that a comparator induces. -/
def cmpLe {α : Type} (cmp : α → α → Int) (a b : α) : Prop := cmp a b ≤ 0

instance {α : Type} (cmp : α → α → Int) : DecidableRel (cmpLe cmp) :=
  fun a b => inferInstanceAs (Decidable (cmp a b ≤ 0))

/-- A stable sort: insertion sort by the comparator. -/
def stableSort {α : Type} (cmp : α → α → Int) (l : List α) : List α :=
  List.insertionSort (cmpLe cmp) l

/-- Merge of two runs, the left one first on a tie; `fuel` bounds the steps. -/
def mergeRuns {α : Type} (cmp : α → α → Int) : Nat → List α → List α → List α
  | 0, xs, ys => xs ++ ys
  | _ + 1, [], ys => ys
  | _ + 1, xs, [] => xs
  | fuel + 1, x :: xs, y :: ys =>
    if cmp x y ≤ 0 then x :: mergeRuns cmp fuel xs (y :: ys)
    else y :: mergeRuns cmp fuel (x :: xs) ys

/-- Top-down merge sort: the two halves are sorted and merged. -/
def mergeSortAux {α : Type} (cmp : α → α → Int) : Nat → List α → List α
  | 0, l => l
  | fuel + 1, l =>
    if l.length < 2 then l
    else
      mergeRuns cmp l.length (mergeSortAux cmp fuel (l.take (l.length / 2)))
        (mergeSortAux cmp fuel (l.drop (l.length / 2)))

/-- The sort of the merging engine. Where the comparator is consistent every
conforming sort gives the one ordered and stable result, which is computed by
insertion; where it is not, the list is sorted by merging. -/
def mergingSort {α : Type} (cmp : α → α → Int) (l : List α) : List α :=
  if ConsistentOn cmp l then stableSort cmp l else mergeSortAux cmp l.length l

/-- The number of elements after `prev` that continue a run: in an ascending
run each element is not below the one before it, in a descending run each is
strictly below the one before it. -/
def runLength {α : Type} (cmp : α → α → Int) (descending : Bool) : α → List α → Nat
  | _, [] => 0
  | prev, cur :: rest =>
    if descending then
      (if cmp cur prev < 0 then runLength cmp descending cur rest + 1 else 0)
    else
      (if cmp cur prev < 0 then 0 else runLength cmp descending cur rest + 1)

/-- Binary search of the place of `pivot` in `sorted` between `left` and
`right`: the middle element decides, the pivot going left of it only when it
compares below it; `fuel` bounds the steps. -/
def searchPlace {α : Type} (cmp : α → α → Int) (pivot : α) (sorted : List α) :
    Nat → Nat → Nat → Nat
  | 0, left, _ => left
  | fuel + 1, left, right =>
    if left < right then
      match sorted[left + (right - left) / 2]? with
      | some x =>
        if cmp pivot x < 0 then searchPlace cmp pivot sorted fuel left (left + (right - left) / 2)
        else searchPlace cmp pivot sorted fuel (left + (right - left) / 2 + 1) right
      | none => left
    else left

/-- Insertion of `pivot` into `sorted` at the place found by binary search. -/
def binaryInsert {α : Type} (cmp : α → α → Int) (sorted : List α) (pivot : α) : List α :=
  (sorted.take (searchPlace cmp pivot sorted sorted.length 0 sorted.length)) ++
    pivot :: sorted.drop (searchPlace cmp pivot sorted sorted.length 0 sorted.length)

/-- Binary insertion sort, the way TimSort sorts a short array: the run that
starts the array is taken as it is (reversed when it is descending), and each
later element is inserted into it by binary search. -/
def binaryInsertionSort {α : Type} (cmp : α → α → Int) : List α → List α
  | [] => []
  | [x] => [x]
  | x0 :: x1 :: rest =>
    let descending := decide (cmp x1 x0 < 0)
    let n := runLength cmp descending x1 rest + 2
    ((x0 :: x1 :: rest).drop n).foldl (binaryInsert cmp)
      (if descending then ((x0 :: x1 :: rest).take n).reverse else (x0 :: x1 :: rest).take n)

/-- The sort of the binary insertion engine: as `mergingSort`, with binary
insertion where the comparator is not consistent. -/
def insertingSort {α : Type} (cmp : α → α → Int) (l : List α) : List α :=
  if ConsistentOn cmp l then stableSort cmp l else binaryInsertionSort cmp l

/-! ## Notions used to state the properties -/

/-- A note satisfies a filter item when the item is one that `getMany` skips, or
when the item's callback accepts the note. -/
def satisfies (H : Host) (item : FilterItem) (note : Note) : Bool :=
  if !truthy item.field || looseEqNull item.value then true
  else filterCallback H item.field item.value item.operator note

/-- A note satisfies every item of a list of filter items. -/
def satisfiesAll (H : Host) (items : List FilterItem) (note : Note) : Bool :=
  items.all (fun item => satisfies H item note)

/-- The integer held by a value, if it is one. -/
def asInt : JSVal → Option Int
  | JSVal.num k => some k
  | _ => none

/-- The ids of the notes of a store, in store order. -/
def ids (notesStore : List Note) : List JSVal := notesStore.map (fun n => getProp n "id")

/-- Every note of the store has an integer id, as the data model asks. -/
def IntegerIds (notesStore : List Note) : Prop :=
  ∀ n ∈ notesStore, ∃ k : Int, getProp n "id" = JSVal.num k

/-- Every integer id of the store is below `2 ^ 53`, so that one more is a
number of its own. -/
def IdsBelowLimit (notesStore : List Note) : Prop :=
  ∀ n ∈ notesStore, ∀ k : Int, getProp n "id" = JSVal.num k → k < 9007199254740992

/-- The ids of the notes of the store are pairwise distinct. -/
def UniqueIds (notesStore : List Note) : Prop := (ids notesStore).Nodup

instance (notesStore : List Note) : Decidable (UniqueIds notesStore) :=
  inferInstanceAs (Decidable (ids notesStore).Nodup)

/-- The states reached from `st0` by calls of the data source in which the
field mappings given to `createOne` and `updateOne` have no `id` property and
`createOne` is called on stores whose ids are below `2 ^ 53`. -/
inductive Reachable (H : Host) (st0 : State) : State → Prop
  | start : Reachable H st0 st0
  | getMany {st : State} (params : GetManyParams) :
      Reachable H st0 st → Reachable H st0 (getMany H st params).2
  | getOne {st : State} (noteId : JSVal) :
      Reachable H st0 st → Reachable H st0 (getOne H st noteId).2
  | createOne {st : State} (data : Note) :
      Reachable H st0 st → ¬ hasKey data "id" → IdsBelowLimit st.notesStore →
        Reachable H st0 (createOne H st data).2
  | updateOne {st : State} (noteId : JSVal) (data : Note) :
      Reachable H st0 st → ¬ hasKey data "id" → Reachable H st0 (updateOne H st noteId data).2
  | deleteOne {st : State} (noteId : JSVal) :
      Reachable H st0 st → Reachable H st0 (deleteOne H st noteId)

/-- The order of two values of one comparable type: of integers by size, of
strings by code units. -/
def valueLt : JSVal → JSVal → Prop
  | JSVal.num m, JSVal.num n => m < n
  | JSVal.str s, JSVal.str t => lexLt (utf16Units s) (utf16Units t) = true
  | _, _ => False

/-- The field `key` holds an integer in every note of the list, or a string in
every note of the list. -/
def OneType (key : String) (l : List Note) : Prop :=
  (∀ n ∈ l, ∃ k : Int, getProp n key = JSVal.num k) ∨
    (∀ n ∈ l, ∃ s : String, getProp n key = JSVal.str s)

/-- One round of the loop of the comparator: the verdict of one sort item, 0
when it leaves the two notes level. -/
def keyCompare (H : Host) (item : SortItem) (a b : Note) : Int :=
  if jsLt H (readProp H a (toPropertyKey item.field))
      (readProp H b (toPropertyKey item.field)) then
    (if item.sort = JSVal.str "asc" then -1 else 1)
  else if jsGt H (readProp H a (toPropertyKey item.field))
      (readProp H b (toPropertyKey item.field)) then
    (if item.sort = JSVal.str "asc" then 1 else -1)
  else 0

/-- Two notes have equal values at every sort key. -/
def sameKeys (sortModel : List SortItem) (a b : Note) : Bool :=
  sortModel.all (fun item =>
    decide (getProp a (toPropertyKey item.field) = getProp b (toPropertyKey item.field)))

/-- The order that a sort model asks of a note `a` placed before a note `b`:
equal values at every sort key, or, at the first sort key where the values
differ, the lower value in `a` for the direction `asc` and the higher value in
`a` for the direction `desc`. -/
def InSortOrder : List SortItem → Note → Note → Prop
  | [], _, _ => True
  | item :: rest, a, b =>
    if getProp a (toPropertyKey item.field) = getProp b (toPropertyKey item.field) then
      InSortOrder rest a b
    else
      (item.sort = JSVal.str "asc" →
        valueLt (getProp a (toPropertyKey item.field)) (getProp b (toPropertyKey item.field))) ∧
      (item.sort = JSVal.str "desc" →
        valueLt (getProp b (toPropertyKey item.field)) (getProp a (toPropertyKey item.field)))

/-- Two values of one comparable type: two integers or two strings. -/
def SameType (x y : JSVal) : Prop :=
  (∃ m n : Int, x = JSVal.num m ∧ y = JSVal.num n) ∨
    (∃ s t : String, x = JSVal.str s ∧ y = JSVal.str t)

/-- The text `t` is the text `s` with the case of some of its letters changed:
the two have the same length, and at each place `t` has the character of `s`,
or its upper-case form, or its lower-case form. The forms are those of the
letters `A` to `Z` and `a` to `z`; every other character is its own form. -/
def CaseChange (s t : String) : Prop :=
  s.data.length = t.data.length ∧
    ∀ p ∈ s.data.zip t.data, p.2 = p.1 ∨ p.2 = p.1.toUpper ∨ p.2 = p.1.toLower

instance (s t : String) : Decidable (CaseChange s t) := by
  unfold CaseChange
  infer_instance

/-- A text of ASCII characters only. -/
def IsAscii (s : String) : Prop := ∀ c ∈ s.data, c.toNat < 128

instance (s : String) : Decidable (IsAscii s) := by
  unfold IsAscii
  infer_instance

/-- A store of six notes, one of which has no `rank`; the notes 3 and 4 have the
same `rank`. -/
def rankedNotes : List Note :=
  [[("id", JSVal.num 1), ("rank", JSVal.num 3)],
   [("id", JSVal.num 2)],
   [("id", JSVal.num 3), ("rank", JSVal.num 1)],
   [("id", JSVal.num 4), ("rank", JSVal.num 1)],
   [("id", JSVal.num 5), ("rank", JSVal.num 5)],
   [("id", JSVal.num 6), ("rank", JSVal.num 7)]]

/-- The recognised operators: the cases of the `switch` of the filter callback. -/
def recognisedOperators : List JSVal :=
  [JSVal.str "contains", JSVal.str "equals", JSVal.str "startsWith", JSVal.str "endsWith",
    JSVal.str ">", JSVal.str "<"]

/-- A filter item with a missing or empty field, with a `null` or absent value,
or with an operator that is not a recognised one. -/
def NoOpItem (item : FilterItem) : Prop :=
  item.field = JSVal.undefined ∨ item.field = JSVal.str "" ∨
    item.value = JSVal.null ∨ item.value = JSVal.undefined ∨
    item.operator ∉ recognisedOperators

instance (item : FilterItem) : Decidable (NoOpItem item) := by
  unfold NoOpItem
  infer_instance

/-- The test `n.id === Number(noteId)` of `getOne`, `updateOne` and `deleteOne`. -/
def matchesId (H : Host) (noteId : JSVal) (n : Note) : Bool :=
  strictEq (getProp n "id") (toNumberVal H noteId)

/-- An object has each of its keys once. -/
def WellFormed (o : Note) : Prop := (o.map Prod.fst).Nodup

instance (o : Note) : Decidable (WellFormed o) :=
  inferInstanceAs (Decidable (o.map Prod.fst).Nodup)

/-- The title is present with a `length` of at least 3. -/
def titleOk : JSVal → Bool
  | JSVal.str s => decide (3 ≤ (utf16Units s).length)
  | _ => false

/-- The text is present and not empty. -/
def textOk : JSVal → Bool
  | JSVal.str s => decide (s ≠ "")
  | _ => false

/-- The message of the issue raised for a title: the one for an absent or
empty title, or the one for a title that is too short. -/
def titleMessage (title : JSVal) : String :=
  if title = JSVal.undefined ∨ title = JSVal.str "" then "Title is required"
  else "Title must be at least 3 characters"

/-- A value of a form field that is a string or absent. -/
def StringOrAbsent (v : JSVal) : Prop := v = JSVal.undefined ∨ ∃ s : String, v = JSVal.str s

instance (v : JSVal) : Decidable (StringOrAbsent v) :=
  match v with
  | JSVal.undefined => isTrue (Or.inl rfl)
  | JSVal.str s => isTrue (Or.inr ⟨s, rfl⟩)
  | JSVal.null => isFalse (by rintro (h | ⟨s, h⟩) <;> cases h)
  | JSVal.bool _ => isFalse (by rintro (h | ⟨s, h⟩) <;> cases h)
  | JSVal.num _ => isFalse (by rintro (h | ⟨s, h⟩) <;> cases h)
  | JSVal.nan => isFalse (by rintro (h | ⟨s, h⟩) <;> cases h)

/-- A store of seven notes, three of which have no `rank`; the notes 5 and 7
have the same `rank`. -/
def sparseNotes : List Note :=
  [[("id", JSVal.num 1)],
   [("id", JSVal.num 2)],
   [("id", JSVal.num 3), ("rank", JSVal.num 2)],
   [("id", JSVal.num 4)],
   [("id", JSVal.num 5), ("rank", JSVal.num 1)],
   [("id", JSVal.num 6), ("rank", JSVal.num 0)],
   [("id", JSVal.num 7), ("rank", JSVal.num 1)]]

/-! ## Consistent comparators -/

theorem ConsistentOn.flip_lt {α : Type} {cmp : α → α → Int} {l : List α}
    (h : ConsistentOn cmp l) {a b : α} (ha : a ∈ l) (hb : b ∈ l) (hab : cmp a b < 0) :
    0 < cmp b a := by
  obtain ⟨hrefl, hsymm, -, hlt, -⟩ := h
  rcases lt_trichotomy (cmp b a) 0 with h1 | h1 | h1
  · have := hlt a ha b hb a ha hab h1
    have := hrefl a ha
    omega
  · have := hsymm b hb a ha h1
    omega
  · exact h1

theorem ConsistentOn.flip_gt {α : Type} {cmp : α → α → Int} {l : List α}
    (h : ConsistentOn cmp l) {a b : α} (ha : a ∈ l) (hb : b ∈ l) (hab : 0 < cmp a b) :
    cmp b a < 0 := by
  obtain ⟨hrefl, hsymm, -, -, hgt⟩ := h
  rcases lt_trichotomy (cmp b a) 0 with h1 | h1 | h1
  · exact h1
  · have := hsymm b hb a ha h1
    omega
  · have := hgt a ha b hb a ha hab h1
    have := hrefl a ha
    omega

theorem ConsistentOn.le_total {α : Type} {cmp : α → α → Int} {l : List α}
    (h : ConsistentOn cmp l) {a b : α} (ha : a ∈ l) (hb : b ∈ l) :
    cmp a b ≤ 0 ∨ cmp b a ≤ 0 := by
  by_cases hab : cmp a b ≤ 0
  · exact Or.inl hab
  · exact Or.inr (le_of_lt (h.flip_gt ha hb (by omega)))

theorem ConsistentOn.le_trans {α : Type} {cmp : α → α → Int} {l : List α}
    (h : ConsistentOn cmp l) {a b c : α} (ha : a ∈ l) (hb : b ∈ l) (hc : c ∈ l)
    (hab : cmp a b ≤ 0) (hbc : cmp b c ≤ 0) : cmp a c ≤ 0 := by
  have h0 := h
  obtain ⟨-, hsymm, heq, hlt, -⟩ := h
  by_contra hac
  have hca : cmp c a < 0 := h0.flip_gt ha hc (by omega)
  rcases lt_or_eq_of_le hab with h1 | h1
  · rcases lt_or_eq_of_le hbc with h2 | h2
    · have := hlt a ha b hb c hc h1 h2
      omega
    · have h3 := hlt c hc a ha b hb hca h1
      have := hsymm b hb c hc h2
      omega
  · rcases lt_or_eq_of_le hbc with h2 | h2
    · have h3 := hlt b hb c hc a ha h2 hca
      have := hsymm a ha b hb h1
      omega
    · have := heq a ha b hb c hc h1 h2
      omega

theorem ConsistentOn.mono {α : Type} {cmp : α → α → Int} {l l2 : List α}
    (h : ConsistentOn cmp l) (hsub : ∀ x ∈ l2, x ∈ l) : ConsistentOn cmp l2 := by
  obtain ⟨h1, h2, h3, h4, h5⟩ := h
  exact ⟨fun a ha => h1 a (hsub a ha),
    fun a ha b hb => h2 a (hsub a ha) b (hsub b hb),
    fun a ha b hb c hc => h3 a (hsub a ha) b (hsub b hb) c (hsub c hc),
    fun a ha b hb c hc => h4 a (hsub a ha) b (hsub b hb) c (hsub c hc),
    fun a ha b hb c hc => h5 a (hsub a ha) b (hsub b hb) c (hsub c hc)⟩

/-! ## The reference engine: insertion sort is ordered and stable -/

theorem pairwise_orderedInsert {α : Type} {cmp : α → α → Int} {S : List α}
    (h : ConsistentOn cmp S) {a : α} (ha : a ∈ S) :
    ∀ s : List α, (∀ x ∈ s, x ∈ S) → s.Pairwise (cmpLe cmp) →
      (List.orderedInsert (cmpLe cmp) a s).Pairwise (cmpLe cmp)
  | [], _, _ => by simp
  | b :: t, hs, hp => by
    have hb : b ∈ S := hs b (List.mem_cons_self _ _)
    have ht : ∀ x ∈ t, x ∈ S := fun x hx => hs x (List.mem_cons_of_mem _ hx)
    rw [List.pairwise_cons] at hp
    by_cases hab : cmpLe cmp a b
    · rw [List.orderedInsert_of_le _ _ hab]
      refine List.Pairwise.cons ?_ (List.Pairwise.cons hp.1 hp.2)
      intro x hx
      rcases List.mem_cons.1 hx with rfl | hx
      · exact hab
      · exact h.le_trans ha hb (ht x hx) hab (hp.1 x hx)
    · have hba : cmpLe cmp b a := (h.le_total ha hb).resolve_left hab
      simp only [List.orderedInsert, if_neg hab]
      refine List.Pairwise.cons ?_ (pairwise_orderedInsert h ha t ht hp.2)
      intro x hx
      rcases (List.mem_orderedInsert _).1 hx with rfl | hx
      · exact hba
      · exact hp.1 x hx

theorem stableSort_perm {α : Type} (cmp : α → α → Int) (l : List α) :
    (stableSort cmp l).Perm l :=
  List.perm_insertionSort _ l

theorem stableSort_sorted_aux {α : Type} {cmp : α → α → Int} {S : List α}
    (h : ConsistentOn cmp S) :
    ∀ l : List α, (∀ x ∈ l, x ∈ S) → (stableSort cmp l).Pairwise (cmpLe cmp)
  | [], _ => by simp [stableSort]
  | a :: t, hl => by
    have ht : ∀ x ∈ t, x ∈ S := fun x hx => hl x (List.mem_cons_of_mem _ hx)
    have ih := stableSort_sorted_aux h t ht
    refine pairwise_orderedInsert h (hl a (List.mem_cons_self _ _)) _ ?_ ih
    intro x hx
    exact ht x ((List.mem_insertionSort _).1 hx)

theorem stableSort_sorted {α : Type} (cmp : α → α → Int) (l : List α)
    (h : ConsistentOn cmp l) : (stableSort cmp l).Pairwise (fun a b => cmp a b ≤ 0) :=
  stableSort_sorted_aux h l (fun _ hx => hx)

theorem filter_orderedInsert {α : Type} {cmp : α → α → Int} {S : List α}
    (h : ConsistentOn cmp S) {e a : α} (he : e ∈ S) (ha : a ∈ S) :
    ∀ s : List α, (∀ x ∈ s, x ∈ S) →
      (List.orderedInsert (cmpLe cmp) a s).filter (fun x => decide (cmp e x = 0)) =
        (a :: s).filter (fun x => decide (cmp e x = 0))
  | [], _ => by simp
  | b :: t, hs => by
    have hb : b ∈ S := hs b (List.mem_cons_self _ _)
    have ht : ∀ x ∈ t, x ∈ S := fun x hx => hs x (List.mem_cons_of_mem _ hx)
    by_cases hab : cmpLe cmp a b
    · rw [List.orderedInsert_of_le _ _ hab]
    · have ih := filter_orderedInsert h he ha t ht
      simp only [List.orderedInsert, if_neg hab]
      have hgt : 0 < cmp a b := by
        unfold cmpLe at hab
        omega
      by_cases hea : cmp e a = 0
      · have heb : cmp e b ≠ 0 := by
          intro heb
          obtain ⟨-, hsymm, heq, -, -⟩ := h
          have h1 := hsymm e he a ha hea
          have := heq a ha e he b hb h1 heb
          omega
        rw [List.filter_cons_of_neg (by simpa using heb), ih]
        rw [List.filter_cons_of_pos (by simpa using hea),
          List.filter_cons_of_pos (by simpa using hea),
          List.filter_cons_of_neg (by simpa using heb)]
      · by_cases heb : cmp e b = 0
        · rw [List.filter_cons_of_pos (by simpa using heb), ih,
            List.filter_cons_of_neg (by simpa using hea),
            List.filter_cons_of_neg (by simpa using hea),
            List.filter_cons_of_pos (by simpa using heb)]
        · rw [List.filter_cons_of_neg (by simpa using heb), ih,
            List.filter_cons_of_neg (by simpa using hea),
            List.filter_cons_of_neg (by simpa using hea),
            List.filter_cons_of_neg (by simpa using heb)]

theorem stableSort_stable_aux {α : Type} {cmp : α → α → Int} {S : List α}
    (h : ConsistentOn cmp S) {e : α} (he : e ∈ S) :
    ∀ l : List α, (∀ x ∈ l, x ∈ S) →
      (stableSort cmp l).filter (fun x => decide (cmp e x = 0)) =
        l.filter (fun x => decide (cmp e x = 0))
  | [], _ => by simp [stableSort]
  | a :: t, hl => by
    have ht : ∀ x ∈ t, x ∈ S := fun x hx => hl x (List.mem_cons_of_mem _ hx)
    have ih := stableSort_stable_aux h he t ht
    have hins := filter_orderedInsert h he (hl a (List.mem_cons_self _ _))
      (stableSort cmp t) (fun x hx => ht x ((List.mem_insertionSort _).1 hx))
    unfold stableSort at hins ih ⊢
    rw [List.insertionSort, hins, List.filter_cons, List.filter_cons, ih]

theorem stableSort_stable {α : Type} (cmp : α → α → Int) (l : List α)
    (h : ConsistentOn cmp l) (e : α) (he : e ∈ l) :
    (stableSort cmp l).filter (fun x => decide (cmp e x = 0)) =
      l.filter (fun x => decide (cmp e x = 0)) :=
  stableSort_stable_aux h he l (fun _ hx => hx)

/-- An engine that sorts by insertion, lower-cases `A` to `Z`, and converts a
string of decimal digits to its value (the empty string to 0) and any other
string to `NaN`. -/
def referenceHost : Host where
  sort := stableSort
  toLowerCase := asciiLower
  inherited := objectPrototype
  stringToNumber := fun s =>
    if s.data.all Char.isDigit then
      some (Int.ofNat (s.data.foldl (fun n c => 10 * n + (c.toNat - 48)) 0))
    else none
  sort_perm := stableSort_perm
  sort_sorted := stableSort_sorted
  sort_stable := stableSort_stable
  toLowerCase_ascii := fun _ _ => rfl

/-! ## Engines that sort by merging and by binary insertion -/

theorem mergeRuns_perm {α : Type} (cmp : α → α → Int) :
    ∀ (fuel : Nat) (xs ys : List α), (mergeRuns cmp fuel xs ys).Perm (xs ++ ys)
  | 0, _, _ => List.Perm.refl _
  | _ + 1, [], _ => by simp [mergeRuns]
  | _ + 1, _ :: _, [] => by simp [mergeRuns]
  | fuel + 1, x :: xs, y :: ys => by
    unfold mergeRuns
    split_ifs
    · exact (mergeRuns_perm cmp fuel xs (y :: ys)).cons x
    · have h := (mergeRuns_perm cmp fuel (x :: xs) ys).cons y
      have hmid : (y :: (x :: xs ++ ys)).Perm (x :: xs ++ y :: ys) := List.perm_middle.symm
      exact h.trans hmid

theorem mergeSortAux_perm {α : Type} (cmp : α → α → Int) :
    ∀ (fuel : Nat) (l : List α), (mergeSortAux cmp fuel l).Perm l
  | 0, _ => List.Perm.refl _
  | fuel + 1, l => by
    unfold mergeSortAux
    split_ifs
    · exact List.Perm.refl _
    · refine (mergeRuns_perm cmp _ _ _).trans ?_
      have h := (mergeSortAux_perm cmp fuel (l.take (l.length / 2))).append
        (mergeSortAux_perm cmp fuel (l.drop (l.length / 2)))
      rwa [List.take_append_drop] at h

theorem mergingSort_perm {α : Type} (cmp : α → α → Int) (l : List α) :
    (mergingSort cmp l).Perm l := by
  unfold mergingSort
  split_ifs
  · exact stableSort_perm cmp l
  · exact mergeSortAux_perm cmp _ l

/-- An engine that sorts by merging; the rest is as in the reference engine. -/
def mergingHost : Host where
  sort := mergingSort
  toLowerCase := asciiLower
  inherited := objectPrototype
  stringToNumber := referenceHost.stringToNumber
  sort_perm := mergingSort_perm
  sort_sorted := fun cmp l h => by
    unfold mergingSort
    rw [if_pos h]
    exact stableSort_sorted cmp l h
  sort_stable := fun cmp l h => by
    unfold mergingSort
    rw [if_pos h]
    exact stableSort_stable cmp l h
  toLowerCase_ascii := fun _ _ => rfl

theorem binaryInsert_perm {α : Type} (cmp : α → α → Int) (sorted : List α) (pivot : α) :
    (binaryInsert cmp sorted pivot).Perm (pivot :: sorted) := by
  unfold binaryInsert
  refine List.perm_middle.trans ?_
  rw [List.take_append_drop]

theorem foldl_binaryInsert_perm {α : Type} (cmp : α → α → Int) :
    ∀ (later run : List α), (later.foldl (binaryInsert cmp) run).Perm (run ++ later)
  | [], run => by simp
  | x :: later, run => by
    rw [List.foldl_cons]
    refine (foldl_binaryInsert_perm cmp later (binaryInsert cmp run x)).trans ?_
    refine ((binaryInsert_perm cmp run x).append_right later).trans ?_
    exact List.perm_middle.symm

theorem binaryInsertionSort_perm {α : Type} (cmp : α → α → Int) :
    ∀ l : List α, (binaryInsertionSort cmp l).Perm l
  | [] => List.Perm.refl _
  | [_] => List.Perm.refl _
  | x0 :: x1 :: rest => by
    unfold binaryInsertionSort
    refine (foldl_binaryInsert_perm cmp _ _).trans ?_
    have h := List.take_append_drop (runLength cmp (decide (cmp x1 x0 < 0)) x1 rest + 2)
      (x0 :: x1 :: rest)
    split_ifs
    · refine ((List.reverse_perm _).append_right _).trans ?_
      rw [h]
    · rw [h]

theorem insertingSort_perm {α : Type} (cmp : α → α → Int) (l : List α) :
    (insertingSort cmp l).Perm l := by
  unfold insertingSort
  split_ifs
  · exact stableSort_perm cmp l
  · exact binaryInsertionSort_perm cmp l

/-- An engine that sorts by binary insertion; the rest is as in the reference
engine. -/
def insertingHost : Host where
  sort := insertingSort
  toLowerCase := asciiLower
  inherited := objectPrototype
  stringToNumber := referenceHost.stringToNumber
  sort_perm := insertingSort_perm
  sort_sorted := fun cmp l h => by
    unfold insertingSort
    rw [if_pos h]
    exact stableSort_sorted cmp l h
  sort_stable := fun cmp l h => by
    unfold insertingSort
    rw [if_pos h]
    exact stableSort_stable cmp l h
  toLowerCase_ascii := fun _ _ => rfl

/-! ## Lemmas on the stages of getMany -/

theorem slice_window {α : Type} (xs : List α) (start len : Int) (hs : 0 ≤ start) (hl : 0 ≤ len) :
    slice xs start (start + len) = (xs.drop start.toNat).take len.toNat := by
  unfold slice
  simp only [show ¬ start < 0 by omega, show ¬ start + len < 0 by omega, if_false]
  have hsum : (start + len).toNat = start.toNat + len.toNat := by omega
  rw [hsum]
  by_cases h : xs.length ≤ start.toNat
  · rw [min_eq_right h, List.drop_eq_nil_of_le h, List.drop_eq_nil_of_le (le_refl _)]
    simp
  · rw [min_eq_left (show start.toNat ≤ xs.length by omega), List.take_eq_take,
      List.length_drop]
    omega

theorem filterStep_eq (H : Host) (l : List Note) (item : FilterItem) :
    filterStep H l item = l.filter (satisfies H item) := by
  unfold filterStep
  by_cases h : (!truthy item.field || looseEqNull item.value) = true
  · rw [if_pos h]
    have : satisfies H item = fun _ => true := by
      funext n
      simp only [satisfies, if_pos h]
    rw [this, List.filter_true]
  · rw [if_neg h]
    congr 1
    funext n
    simp only [satisfies, if_neg h]

theorem foldl_filterStep (H : Host) :
    ∀ (items : List FilterItem) (l : List Note),
      items.foldl (filterStep H) l = l.filter (satisfiesAll H items)
  | [], l => by
    have : satisfiesAll H [] = fun _ => true := by
      funext n
      simp [satisfiesAll]
    rw [this, List.filter_true, List.foldl_nil]
  | item :: rest, l => by
    rw [List.foldl_cons, foldl_filterStep H rest, filterStep_eq, List.filter_filter]
    congr 1
    funext n
    simp only [satisfiesAll, List.all_cons, Bool.and_comm]

theorem filterStage_eq (H : Host) (notesStore : List Note) (filterModel : Option FilterModel) :
    filterStage H notesStore filterModel =
      notesStore.filter (satisfiesAll H (filterItems filterModel)) := by
  unfold filterStage
  split_ifs with h
  · exact foldl_filterStep H _ _
  · have h0 : filterItems filterModel = [] := by
      simpa using h
    have : satisfiesAll H [] = fun _ => true := by
      funext n
      simp [satisfiesAll]
    rw [h0, this, List.filter_true]

theorem sortStage_perm (H : Host) (sortModel : Option (List SortItem)) (l : List Note) :
    (sortStage H sortModel l).Perm l := by
  unfold sortStage
  split
  · exact H.sort_perm _ _
  · exact List.Perm.refl _

theorem processedNotes_length (H : Host) (st : State) (params : GetManyParams) :
    (processedNotes H st params).length =
      (st.notesStore.filter (satisfiesAll H (filterItems params.filterModel))).length := by
  unfold processedNotes
  rw [(sortStage_perm H _ _).length_eq, filterStage_eq]

/-! ## Pagination, count and filtering (claims C1 to C3) -/

/-- C1: for a page index `p ≥ 0` and a page size `s > 0`, the items returned by
`getMany` are the filtered and sorted list with `p * s` elements dropped and
then `s` taken; so there are at most `s` items, and none (with a result, not
an error) when `p * s` is at or past the end of that list. -/
theorem getMany_items_window (H : Host) (st : State) (fm : Option FilterModel)
    (sm : Option (List SortItem)) (p s : Int) (hp : 0 ≤ p) (hs : 0 < s) :
    (getMany H st ⟨⟨p, s⟩, fm, sm⟩).1.items =
        ((processedNotes H st ⟨⟨p, s⟩, fm, sm⟩).drop (p * s).toNat).take s.toNat ∧
      ((getMany H st ⟨⟨p, s⟩, fm, sm⟩).1.items.length : Int) ≤ s ∧
      (((processedNotes H st ⟨⟨p, s⟩, fm, sm⟩).length : Int) ≤ p * s →
        (getMany H st ⟨⟨p, s⟩, fm, sm⟩).1.items = []) := by
  have hps : 0 ≤ p * s := Int.mul_nonneg hp (le_of_lt hs)
  have hitems : (getMany H st ⟨⟨p, s⟩, fm, sm⟩).1.items =
      ((processedNotes H st ⟨⟨p, s⟩, fm, sm⟩).drop (p * s).toNat).take s.toNat := by
    simp only [getMany]
    exact slice_window _ _ _ hps (le_of_lt hs)
  refine ⟨hitems, ?_, ?_⟩
  · rw [hitems]
    have := List.length_take_le s.toNat
      ((processedNotes H st ⟨⟨p, s⟩, fm, sm⟩).drop (p * s).toNat)
    omega
  · intro hlen
    rw [hitems, List.drop_eq_nil_of_le (by omega), List.take_nil]

/-- The page 1 of size 1 of the two default notes, unfiltered and unsorted, is
the second note alone. -/
theorem getMany_items_window_witness :
    (0 : Int) ≤ 1 ∧ (0 : Int) < 1 ∧
      (getMany referenceHost (initialState none) ⟨⟨1, 1⟩, none, none⟩).1.items =
        ((processedNotes referenceHost (initialState none) ⟨⟨1, 1⟩, none, none⟩).drop
          ((1 : Int) * 1).toNat).take (1 : Int).toNat :=
  ⟨by decide, by decide,
    (getMany_items_window referenceHost (initialState none) none none 1 1
      (by decide) (by decide)).1⟩

/-- C2: the `itemCount` returned by `getMany` is the number of notes of the
store that satisfy every filter item; it is the same for every pagination
model and every sort model, and it can differ from the number of returned
items. -/
theorem getMany_itemCount (H : Host) (st : State) (fm : Option FilterModel)
    (sm : Option (List SortItem)) (pm : PaginationModel) :
    (getMany H st ⟨pm, fm, sm⟩).1.itemCount =
        st.notesStore.countP (satisfiesAll H (filterItems fm)) ∧
      (∀ (sm2 : Option (List SortItem)) (pm2 : PaginationModel),
        (getMany H st ⟨pm2, fm, sm2⟩).1.itemCount = (getMany H st ⟨pm, fm, sm⟩).1.itemCount) ∧
      (∃ (st0 : State) (pm0 : PaginationModel),
        0 ≤ pm0.page ∧ 0 < pm0.pageSize ∧
        (getMany referenceHost st0 ⟨pm0, none, none⟩).1.itemCount ≠
          (getMany referenceHost st0 ⟨pm0, none, none⟩).1.items.length) := by
  have hcount : ∀ (sm1 : Option (List SortItem)) (pm1 : PaginationModel),
      (getMany H st ⟨pm1, fm, sm1⟩).1.itemCount =
        st.notesStore.countP (satisfiesAll H (filterItems fm)) := by
    intro sm1 pm1
    simp only [getMany]
    rw [processedNotes_length, List.countP_eq_length_filter]
  refine ⟨hcount sm pm, fun sm2 pm2 => by rw [hcount, hcount], ?_⟩
  exact ⟨initialState none, ⟨0, 1⟩, by decide, by decide, by decide⟩

/-- C3: with an empty (or absent) sort model the list that `getMany` paginates
is the store filtered by the conjunction of the filter items, in store order:
a note is in it exactly when it is in the store and satisfies every item, as
often as in the store. It is a sub-sequence of the store, so `itemCount` is at
most the length of the store. -/
theorem getMany_filter_conjunction (H : Host) (st : State) (fm : Option FilterModel)
    (pm : PaginationModel) :
    processedNotes H st ⟨pm, fm, none⟩ =
        st.notesStore.filter (satisfiesAll H (filterItems fm)) ∧
      processedNotes H st ⟨pm, fm, some []⟩ =
        st.notesStore.filter (satisfiesAll H (filterItems fm)) ∧
      (∀ n : Note, n ∈ processedNotes H st ⟨pm, fm, none⟩ ↔
        n ∈ st.notesStore ∧ ∀ item ∈ filterItems fm, satisfies H item n = true) ∧
      (∀ n : Note, (∀ item ∈ filterItems fm, satisfies H item n = true) →
        (processedNotes H st ⟨pm, fm, none⟩).count n = st.notesStore.count n) ∧
      (processedNotes H st ⟨pm, fm, none⟩).Sublist st.notesStore ∧
      (getMany H st ⟨pm, fm, none⟩).1.itemCount ≤ st.notesStore.length ∧
      (getMany H st ⟨pm, fm, some []⟩).1.itemCount ≤ st.notesStore.length := by
  have h1 : processedNotes H st ⟨pm, fm, none⟩ =
      st.notesStore.filter (satisfiesAll H (filterItems fm)) := by
    simp only [processedNotes, sortStage, filterStage_eq]
  have h2 : processedNotes H st ⟨pm, fm, some []⟩ =
      st.notesStore.filter (satisfiesAll H (filterItems fm)) := by
    simp only [processedNotes, sortStage, filterStage_eq]
  refine ⟨h1, h2, ?_, ?_, ?_, ?_, ?_⟩
  · intro n
    rw [h1, List.mem_filter]
    simp only [satisfiesAll, List.all_eq_true]
  · intro n hn
    rw [h1, List.count_filter]
    simp only [satisfiesAll, List.all_eq_true]
    exact hn
  · rw [h1]
    exact List.filter_sublist _
  · simp only [getMany]
    rw [h1]
    exact List.length_filter_le _ _
  · simp only [getMany]
    rw [h2]
    exact List.length_filter_le _ _

/-! ## Ordering operators (claim C4) -/

theorem satisfiesAll_insert (H : Host) (pre post : List FilterItem) (item : FilterItem)
    (n : Note) :
    satisfiesAll H (pre ++ item :: post) n =
      (satisfiesAll H (pre ++ post) n && satisfies H item n) := by
  simp only [satisfiesAll, List.all_append, List.all_cons]
  cases List.all pre (fun item => satisfies H item n) <;>
    cases List.all post (fun item => satisfies H item n) <;>
    cases satisfies H item n <;> rfl

theorem getProp_of_not_hasKey :
    ∀ (o : Note) (key : String), ¬ hasKey o key → getProp o key = JSVal.undefined
  | [], _, _ => rfl
  | (k, v) :: rest, key, h => by
    have hk : k ≠ key := fun hk => h (by simp [hasKey, hk])
    have hrest : ¬ hasKey rest key := fun hr => h (by
      unfold hasKey at hr ⊢
      simp [hr])
    simp only [getProp, if_neg hk]
    exact getProp_of_not_hasKey rest key hrest

theorem hasKey_of_ne_undefined {o : Note} {key : String}
    (h : getProp o key ≠ JSVal.undefined) : hasKey o key := by
  by_contra hno
  exact h (getProp_of_not_hasKey o key hno)

theorem inheritedText_of_hasKey (H : Host) {o : Note} {key : String} (h : hasKey o key) :
    inheritedText H o key = none := by
  simp [inheritedText, h]

theorem readProp_of_hasKey (H : Host) {o : Note} {key : String} (h : hasKey o key) :
    readProp H o key = getProp o key := by
  simp [readProp, inheritedText_of_hasKey H h]

theorem readProp_of_ne_undefined (H : Host) {o : Note} {key : String}
    (h : getProp o key ≠ JSVal.undefined) : readProp H o key = getProp o key :=
  readProp_of_hasKey H (hasKey_of_ne_undefined h)

theorem readProp_of_num (H : Host) {o : Note} {key : String} {k : Int}
    (h : getProp o key = JSVal.num k) : readProp H o key = JSVal.num k := by
  rw [readProp_of_ne_undefined H (by rw [h]; exact fun hh => JSVal.noConfusion hh), h]

theorem readProp_of_str (H : Host) {o : Note} {key : String} {t : String}
    (h : getProp o key = JSVal.str t) : readProp H o key = JSVal.str t := by
  rw [readProp_of_ne_undefined H (by rw [h]; exact fun hh => JSVal.noConfusion hh), h]

theorem filterCallback_gt (H : Host) (field value : JSVal) (n : Note) :
    filterCallback H field value (JSVal.str ">") n =
      jsGt H (readProp H n (toPropertyKey field)) value := by
  simp [filterCallback]

theorem filterCallback_lt (H : Host) (field value : JSVal) (n : Note) :
    filterCallback H field value (JSVal.str "<") n =
      jsLt H (readProp H n (toPropertyKey field)) value := by
  simp [filterCallback]

theorem jsLt_num (H : Host) (m n : Int) :
    jsLt H (JSVal.num m) (JSVal.num n) = decide (m < n) := by
  simp [jsLt, toNumber]

theorem mem_processedNotes (H : Host) (st : State) (pm : PaginationModel)
    (fm : Option FilterModel) (sm : Option (List SortItem)) (n : Note) :
    n ∈ processedNotes H st ⟨pm, fm, sm⟩ ↔
      n ∈ st.notesStore ∧ satisfiesAll H (filterItems fm) n = true := by
  unfold processedNotes
  rw [(sortStage_perm H _ _).mem_iff, filterStage_eq, List.mem_filter]

/-- C4, as the code has it: the ordering operators are named `>` and `<`. For a
filter item with a non-empty field, an integer value `v` and the operator `>`
(respectively `<`), over a store whose notes all hold an integer in that
field, `getMany` retains of the notes that pass the other items exactly those
whose field value is strictly greater than (respectively strictly less than)
`v`. -/
theorem getMany_ordering_operators (H : Host) (st : State) (pm : PaginationModel)
    (sm : Option (List SortItem)) (field : JSVal) (v : Int) (pre post : List FilterItem)
    (hfield : truthy field = true)
    (hint : ∀ n ∈ st.notesStore, ∃ k : Int, getProp n (toPropertyKey field) = JSVal.num k) :
    (∀ n : Note,
      n ∈ processedNotes H st
          ⟨pm, some ⟨some (pre ++ ⟨field, JSVal.num v, JSVal.str ">"⟩ :: post)⟩, sm⟩ ↔
        n ∈ processedNotes H st ⟨pm, some ⟨some (pre ++ post)⟩, sm⟩ ∧
          ∃ k : Int, getProp n (toPropertyKey field) = JSVal.num k ∧ v < k) ∧
    (∀ n : Note,
      n ∈ processedNotes H st
          ⟨pm, some ⟨some (pre ++ ⟨field, JSVal.num v, JSVal.str "<"⟩ :: post)⟩, sm⟩ ↔
        n ∈ processedNotes H st ⟨pm, some ⟨some (pre ++ post)⟩, sm⟩ ∧
          ∃ k : Int, getProp n (toPropertyKey field) = JSVal.num k ∧ k < v) ∧
    processedNotes H st ⟨pm, some ⟨some [⟨field, JSVal.num v, JSVal.str ">"⟩]⟩, none⟩ =
      st.notesStore.filter (fun n =>
        match asInt (getProp n (toPropertyKey field)) with
        | some k => decide (v < k)
        | none => false) ∧
    processedNotes H st ⟨pm, some ⟨some [⟨field, JSVal.num v, JSVal.str "<"⟩]⟩, none⟩ =
      st.notesStore.filter (fun n =>
        match asInt (getProp n (toPropertyKey field)) with
        | some k => decide (k < v)
        | none => false) := by
  have hsat : ∀ (op : JSVal) (n : Note),
      satisfies H ⟨field, JSVal.num v, op⟩ n = filterCallback H field (JSVal.num v) op n := by
    intro op n
    simp [satisfies, hfield, looseEqNull]
  refine ⟨?_, ?_, ?_, ?_⟩
  · intro n
    rw [mem_processedNotes, mem_processedNotes]
    simp only [filterItems, satisfiesAll_insert, Bool.and_eq_true, hsat, filterCallback_gt, jsGt]
    constructor
    · rintro ⟨hn, hall, hgt⟩
      obtain ⟨k, hk⟩ := hint n hn
      rw [readProp_of_num H hk, jsLt_num] at hgt
      exact ⟨⟨hn, hall⟩, k, hk, by simpa using hgt⟩
    · rintro ⟨⟨hn, hall⟩, k, hk, hlt⟩
      refine ⟨hn, hall, ?_⟩
      rw [readProp_of_num H hk, jsLt_num]
      simpa using hlt
  · intro n
    rw [mem_processedNotes, mem_processedNotes]
    simp only [filterItems, satisfiesAll_insert, Bool.and_eq_true, hsat, filterCallback_lt]
    constructor
    · rintro ⟨hn, hall, hgt⟩
      obtain ⟨k, hk⟩ := hint n hn
      rw [readProp_of_num H hk, jsLt_num] at hgt
      exact ⟨⟨hn, hall⟩, k, hk, by simpa using hgt⟩
    · rintro ⟨⟨hn, hall⟩, k, hk, hlt⟩
      refine ⟨hn, hall, ?_⟩
      rw [readProp_of_num H hk, jsLt_num]
      simpa using hlt
  · simp only [processedNotes, sortStage, filterStage_eq, filterItems]
    apply List.filter_congr
    intro n hn
    obtain ⟨k, hk⟩ := hint n hn
    simp [satisfiesAll, hsat, filterCallback_gt, jsGt, readProp_of_num H hk, hk, jsLt_num, asInt]
  · simp only [processedNotes, sortStage, filterStage_eq, filterItems]
    apply List.filter_congr
    intro n hn
    obtain ⟨k, hk⟩ := hint n hn
    simp [satisfiesAll, hsat, filterCallback_lt, readProp_of_num H hk, hk, jsLt_num, asInt]

/-- Over notes with ids 1, 5 and 9, the filter `id > 4` keeps the notes 5 and 9. -/
theorem getMany_ordering_operators_witness :
    truthy (JSVal.str "id") = true ∧
      processedNotes referenceHost
          ⟨[[("id", JSVal.num 1)], [("id", JSVal.num 5)], [("id", JSVal.num 9)]], none⟩
          ⟨⟨0, 10⟩, some ⟨some [⟨JSVal.str "id", JSVal.num 4, JSVal.str ">"⟩]⟩, none⟩ =
        ([[("id", JSVal.num 1)], [("id", JSVal.num 5)], [("id", JSVal.num 9)]] : List Note).filter
          (fun n =>
            match asInt (getProp n (toPropertyKey (JSVal.str "id"))) with
            | some k => decide (4 < k)
            | none => false) :=
  ⟨by decide,
    (getMany_ordering_operators referenceHost
      ⟨[[("id", JSVal.num 1)], [("id", JSVal.num 5)], [("id", JSVal.num 9)]], none⟩
      ⟨0, 10⟩ none (JSVal.str "id") 4 [] [] (by decide) (by
        intro n hn
        simp only [List.mem_cons, List.mem_singleton, List.not_mem_nil, or_false] at hn
        rcases hn with rfl | rfl | rfl
        exacts [⟨1, by decide⟩, ⟨5, by decide⟩, ⟨9, by decide⟩])).2.2.1⟩

/-- C4 as stated fails: the operators `greaterThan` and `lessThan` are not
among the cases of the `switch`, so an item with one of them retains every
note. The note with id 1 is retained by `id greaterThan 5` and by
`id lessThan 0`, although 1 is neither greater than 5 nor less than 0. -/
theorem getMany_greaterThan_counterexample :
    (getMany referenceHost ⟨[[("id", JSVal.num 1)]], none⟩
        ⟨⟨0, 10⟩, some ⟨some [⟨JSVal.str "id", JSVal.num 5, JSVal.str "greaterThan"⟩]⟩,
          none⟩).1.items = [[("id", JSVal.num 1)]] ∧
      ¬ ((5 : Int) < 1) ∧
      (getMany referenceHost ⟨[[("id", JSVal.num 1)]], none⟩
        ⟨⟨0, 10⟩, some ⟨some [⟨JSVal.str "id", JSVal.num 0, JSVal.str "lessThan"⟩]⟩,
          none⟩).1.items = [[("id", JSVal.num 1)]] ∧
      ¬ ((1 : Int) < 0) := by
  decide

/-! ## Ids (claims C5 and C6) -/

theorem getProp_setProp_same (o : Note) (key : String) (v : JSVal) :
    getProp (setProp o key v) key = v := by
  induction o with
  | nil => simp [setProp, getProp]
  | cons kv rest ih =>
    obtain ⟨k, w⟩ := kv
    by_cases h : k = key
    · simp [setProp, getProp, h]
    · simp [setProp, getProp, h, ih]

theorem getProp_setProp_other (o : Note) (key key2 : String) (v : JSVal) (h : key ≠ key2) :
    getProp (setProp o key v) key2 = getProp o key2 := by
  induction o with
  | nil => simp [setProp, getProp, h]
  | cons kv rest ih =>
    obtain ⟨k, w⟩ := kv
    by_cases hk : k = key
    · subst hk
      simp [setProp, getProp, h]
    · by_cases hk2 : k = key2
      · subst hk2
        simp [setProp, getProp, hk]
      · simp [setProp, getProp, hk, hk2, ih]

theorem getProp_spread_of_not_hasKey (key : String) :
    ∀ (src target : Note), ¬ hasKey src key →
      getProp (spread target src) key = getProp target key
  | [], target, _ => rfl
  | (k, v) :: rest, target, h => by
    have hk : k ≠ key := by
      intro hk
      exact h (by simp [hasKey, hk])
    have hrest : ¬ hasKey rest key := by
      intro hr
      exact h (by
        unfold hasKey at hr ⊢
        exact List.mem_cons_of_mem _ hr)
    have ih := getProp_spread_of_not_hasKey key rest (setProp target k v) hrest
    unfold spread at ih ⊢
    rw [List.foldl_cons, ih, getProp_setProp_other _ _ _ _ hk]

theorem foldl_mathMax (H : Host) :
    ∀ (l : List Note) (m : Int), IntegerIds l →
      ∃ g : Int,
        l.foldl (fun m n => mathMax H (ofNumber m) (getProp n "id")) (some m) = some g ∧
          m ≤ g ∧ (∀ n ∈ l, ∀ k : Int, getProp n "id" = JSVal.num k → k ≤ g) ∧
          (g = m ∨ ∃ n ∈ l, getProp n "id" = JSVal.num g)
  | [], m, _ => ⟨m, rfl, le_refl _, by simp, Or.inl rfl⟩
  | n :: rest, m, hint => by
    obtain ⟨k, hk⟩ := hint n (List.mem_cons_self _ _)
    have hrest : IntegerIds rest := fun x hx => hint x (List.mem_cons_of_mem _ hx)
    obtain ⟨g, hg, hle, hall, hatt⟩ := foldl_mathMax H rest (max m k) hrest
    refine ⟨g, ?_, ?_, ?_, ?_⟩
    · rw [List.foldl_cons, hk]
      simpa [mathMax, ofNumber, toNumber] using hg
    · exact le_trans (le_max_left _ _) hle
    · intro x hx j hj
      rcases List.mem_cons.1 hx with rfl | hx
      · rw [hk] at hj
        cases hj
        exact le_trans (le_max_right _ _) hle
      · exact hall x hx j hj
    · rcases hatt with h | ⟨x, hx, hxg⟩
      · rcases le_total m k with hmk | hkm
        · right
          refine ⟨n, List.mem_cons_self _ _, ?_⟩
          rw [hk, h, max_eq_right hmk]
        · left
          rw [h, max_eq_left hkm]
      · exact Or.inr ⟨x, List.mem_cons_of_mem _ hx, hxg⟩

theorem roundToDouble_of_le (n : Int) (h : n.natAbs ≤ 9007199254740992) :
    roundToDouble n = n := by
  unfold roundToDouble
  rw [if_pos (by norm_num; exact h)]

theorem nextId_spec (H : Host) (notesStore : List Note) (hint : IntegerIds notesStore)
    (hbelow : IdsBelowLimit notesStore) :
    ∃ g : Int, nextId H notesStore = JSVal.num (g + 1) ∧ 0 ≤ g ∧
      (∀ n ∈ notesStore, ∀ k : Int, getProp n "id" = JSVal.num k → k ≤ g) ∧
      (g = 0 ∨ ∃ n ∈ notesStore, getProp n "id" = JSVal.num g) := by
  obtain ⟨g, hg, hle, hall, hatt⟩ := foldl_mathMax H notesStore 0 hint
  refine ⟨g, ?_, hle, hall, hatt⟩
  have hlt : g < 9007199254740992 := by
    rcases hatt with h | ⟨n, hn, hng⟩
    · omega
    · exact hbelow n hn g hng
  unfold nextId
  rw [hg]
  simp only [Option.map, ofNumber]
  rw [roundToDouble_of_le (g + 1) (by omega)]

theorem createOne_id_eq (H : Host) (st : State) (data : Note) (hdata : ¬ hasKey data "id") :
    getProp (createOne H st data).1 "id" = nextId H st.notesStore := by
  simp only [createOne]
  rw [getProp_spread_of_not_hasKey "id" data _ hdata]
  simp [getProp]

/-- C5, as the code has it: when `data` has no `id` property and the ids of the
store are integers below `2 ^ 53`, `createOne(data)` returns a note whose id is
one greater than the larger of 0 and the greatest id of the store: 1 for an
empty store (and for one with negative ids only), and the greatest id plus one
when that is not negative. This id differs from the id of every note already in
the store. -/
theorem createOne_id (H : Host) (st : State) (data : Note) (hdata : ¬ hasKey data "id")
    (hint : IntegerIds st.notesStore) (hbelow : IdsBelowLimit st.notesStore) :
    (st.notesStore = [] → getProp (createOne H st data).1 "id" = JSVal.num 1) ∧
    (∀ G : Int, (∃ n ∈ st.notesStore, getProp n "id" = JSVal.num G) →
      (∀ n ∈ st.notesStore, ∀ k : Int, getProp n "id" = JSVal.num k → k ≤ G) → 0 ≤ G →
        getProp (createOne H st data).1 "id" = JSVal.num (G + 1)) ∧
    ((∀ n ∈ st.notesStore, ∀ k : Int, getProp n "id" = JSVal.num k → k < 0) →
      getProp (createOne H st data).1 "id" = JSVal.num 1) ∧
    (∀ n ∈ st.notesStore, getProp n "id" ≠ getProp (createOne H st data).1 "id") := by
  rw [createOne_id_eq H st data hdata]
  obtain ⟨g, hg, hle, hall, hatt⟩ := nextId_spec H st.notesStore hint hbelow
  rw [hg]
  refine ⟨?_, ?_, ?_, ?_⟩
  · intro hnil
    rcases hatt with h | ⟨x, hx, -⟩
    · rw [h]
      rfl
    · rw [hnil] at hx
      cases hx
  · rintro G ⟨x, hx, hxG⟩ hmax hG
    have h1 : G ≤ g := hall x hx G hxG
    have h2 : g ≤ G := by
      rcases hatt with h | ⟨y, hy, hyg⟩
      · omega
      · exact hmax y hy g hyg
    rw [le_antisymm h2 h1]
  · intro hneg
    rcases hatt with h | ⟨y, hy, hyg⟩
    · rw [h]
      rfl
    · have := hneg y hy g hyg
      omega
  · intro n hn heq
    have := hall n hn (g + 1) heq
    omega

theorem idsBelowLimit_defaultNotes : IdsBelowLimit (initialState none).notesStore := by
  intro n hn k hk
  simp only [initialState, getStoredNotes, defaultNotes, List.mem_cons, List.mem_singleton,
    List.not_mem_nil, or_false] at hn
  rcases hn with rfl | rfl
  · have h1 : JSVal.num 1 = JSVal.num k := hk
    cases h1
    decide
  · have h2 : JSVal.num 2 = JSVal.num k := hk
    cases h2
    decide

/-- With the two default notes, whose ids are 1 and 2, the new note gets the id 3. -/
theorem createOne_id_witness :
    ¬ hasKey [("title", JSVal.str "New note")] "id" ∧
      getProp (createOne referenceHost (initialState none) [("title", JSVal.str "New note")]).1 "id" =
        JSVal.num (2 + 1) :=
  ⟨by decide,
    (createOne_id referenceHost (initialState none) [("title", JSVal.str "New note")]
      (by decide)
      (by
        intro n hn
        simp only [initialState, getStoredNotes, defaultNotes, List.mem_cons, List.mem_singleton,
          List.not_mem_nil, or_false] at hn
        rcases hn with rfl | rfl
        exacts [⟨1, by decide⟩, ⟨2, by decide⟩])
      idsBelowLimit_defaultNotes).2.1 2
      ⟨[("id", JSVal.num 2), ("title", JSVal.str "Personal Goal"),
          ("text", JSVal.str "Finish reading the book.")], by decide, by decide⟩
      (by
        intro n hn k hk
        simp only [initialState, getStoredNotes, defaultNotes, List.mem_cons, List.mem_singleton,
          List.not_mem_nil, or_false] at hn
        rcases hn with rfl | rfl
        · have h1 : JSVal.num 1 = JSVal.num k := hk
          cases h1
          decide
        · have h2 : JSVal.num 2 = JSVal.num k := hk
          cases h2
          decide)
      (by decide)⟩

/-- C5 as stated fails. A `data` that has an `id` property overrides the
computed id, since `...data` is spread after it: on a store holding the id 1,
`createOne` of a mapping with the id 1 returns a note with the id 1, which is not 2
and is the id of a note of the store. On a store whose only id is -5 the new
id is 1, not -4, since the maximum is taken from 0. And on a store whose only
id is `2 ^ 53` the new id is `2 ^ 53` again, the double nearest to one more. -/
theorem createOne_id_counterexample :
    getProp (createOne referenceHost ⟨[[("id", JSVal.num 1)]], none⟩
        [("id", JSVal.num 1), ("title", JSVal.str "x")]).1 "id" = JSVal.num 1 ∧
      getProp (createOne referenceHost ⟨[[("id", JSVal.num 1)]], none⟩
        [("id", JSVal.num 1), ("title", JSVal.str "x")]).1 "id" ≠ JSVal.num (1 + 1) ∧
      getProp (createOne referenceHost ⟨[[("id", JSVal.num (-5))]], none⟩ []).1 "id" =
        JSVal.num 1 ∧
      getProp (createOne referenceHost ⟨[[("id", JSVal.num (-5))]], none⟩ []).1 "id" ≠
        JSVal.num (-5 + 1) ∧
      getProp (createOne referenceHost ⟨[[("id", JSVal.num 9007199254740992)]], none⟩
        [("title", JSVal.str "x")]).1 "id" = JSVal.num 9007199254740992 := by
  decide

theorem updateNotes_fst (H : Host) (noteId : JSVal) (data : Note) :
    ∀ (l : List Note) (updated : Option Note),
      (updateNotes H noteId data l updated).1 =
        l.map (fun n =>
          if strictEq (getProp n "id") (toNumberVal H noteId) then spread n data else n)
  | [], _ => rfl
  | n :: rest, updated => by
    unfold updateNotes
    split_ifs with h
    · simp only [List.map_cons, if_pos h, updateNotes_fst H noteId data rest]
    · simp only [List.map_cons, if_neg h, updateNotes_fst H noteId data rest]

theorem updateOne_notesStore (H : Host) (st : State) (noteId : JSVal) (data : Note) :
    (updateOne H st noteId data).2.notesStore =
      st.notesStore.map (fun n =>
        if strictEq (getProp n "id") (toNumberVal H noteId) then spread n data else n) := by
  unfold updateOne
  simp only []
  split <;> simp [saveNotes, updateNotes_fst]

theorem ids_updateOne (H : Host) (st : State) (noteId : JSVal) (data : Note)
    (hdata : ¬ hasKey data "id") :
    ids (updateOne H st noteId data).2.notesStore = ids st.notesStore := by
  rw [updateOne_notesStore]
  unfold ids
  rw [List.map_map]
  apply List.map_congr_left
  intro n _
  simp only [Function.comp]
  split_ifs
  · exact getProp_spread_of_not_hasKey "id" data n hdata
  · rfl

theorem integerIds_iff (notesStore : List Note) :
    IntegerIds notesStore ↔ ∀ v ∈ ids notesStore, ∃ k : Int, v = JSVal.num k := by
  simp [IntegerIds, ids]

theorem ids_createOne (H : Host) (st : State) (data : Note) :
    ids (createOne H st data).2.notesStore =
      ids st.notesStore ++ [getProp (createOne H st data).1 "id"] := by
  simp [createOne, saveNotes, ids]

theorem ids_deleteOne (H : Host) (st : State) (noteId : JSVal) :
    (ids (deleteOne H st noteId).notesStore).Sublist (ids st.notesStore) := by
  simp only [deleteOne, saveNotes, ids]
  exact (List.filter_sublist _).map _

theorem createOne_preserves (H : Host) (st : State) (data : Note) (hdata : ¬ hasKey data "id")
    (hint : IntegerIds st.notesStore) (hbelow : IdsBelowLimit st.notesStore)
    (huniq : UniqueIds st.notesStore) :
    IntegerIds (createOne H st data).2.notesStore ∧
      UniqueIds (createOne H st data).2.notesStore := by
  obtain ⟨g, hg, -, hall, -⟩ := nextId_spec H st.notesStore hint hbelow
  have hid := createOne_id_eq H st data hdata
  constructor
  · rw [integerIds_iff, ids_createOne]
    intro v hv
    rcases List.mem_append.1 hv with hv | hv
    · exact (integerIds_iff _).1 hint v hv
    · rw [List.mem_singleton] at hv
      exact ⟨g + 1, by rw [hv, hid, hg]⟩
  · unfold UniqueIds
    rw [ids_createOne, List.nodup_append]
    refine ⟨huniq, List.nodup_singleton _, ?_⟩
    intro v hv hv2
    rw [List.mem_singleton] at hv2
    unfold ids at hv
    obtain ⟨n, hn, hnv⟩ := List.mem_map.1 hv
    have := hall n hn (g + 1) (by rw [hnv, hv2, hid, hg])
    omega

theorem updateOne_preserves (H : Host) (st : State) (noteId : JSVal) (data : Note)
    (hdata : ¬ hasKey data "id")
    (hint : IntegerIds st.notesStore) (huniq : UniqueIds st.notesStore) :
    IntegerIds (updateOne H st noteId data).2.notesStore ∧
      UniqueIds (updateOne H st noteId data).2.notesStore := by
  constructor
  · rw [integerIds_iff, ids_updateOne H st noteId data hdata]
    exact (integerIds_iff _).1 hint
  · unfold UniqueIds
    rw [ids_updateOne H st noteId data hdata]
    exact huniq

theorem deleteOne_preserves (H : Host) (st : State) (noteId : JSVal)
    (hint : IntegerIds st.notesStore) (huniq : UniqueIds st.notesStore) :
    IntegerIds (deleteOne H st noteId).notesStore ∧
      UniqueIds (deleteOne H st noteId).notesStore := by
  constructor
  · rw [integerIds_iff]
    intro v hv
    exact (integerIds_iff _).1 hint v ((ids_deleteOne H st noteId).subset hv)
  · exact huniq.sublist (ids_deleteOne H st noteId)

theorem reachable_preserves (H : Host) (st0 : State)
    (hint : IntegerIds st0.notesStore) (huniq : UniqueIds st0.notesStore) :
    ∀ st : State, Reachable H st0 st → IntegerIds st.notesStore ∧ UniqueIds st.notesStore := by
  intro st hst
  induction hst with
  | start => exact ⟨hint, huniq⟩
  | getMany params _ ih => exact ih
  | @getOne st1 noteId _ ih =>
    have : (getOne H st1 noteId).2 = st1 := by
      unfold getOne
      split <;> rfl
    rw [this]
    exact ih
  | createOne data _ hdata hbelow ih =>
    exact createOne_preserves H _ data hdata ih.1 hbelow ih.2
  | updateOne noteId data _ hdata ih => exact updateOne_preserves H _ noteId data hdata ih.1 ih.2
  | deleteOne noteId _ ih => exact deleteOne_preserves H _ noteId ih.1 ih.2

/-- C6, as the code has it: when the ids of the store are pairwise distinct
integers, they are still pairwise distinct integers after `createOne(data)`
for every `data` that has no `id` property, provided the ids of the store are
below `2 ^ 53`; after `updateOne(id, data)` for every `data` that has no `id`
property; and after `deleteOne(id)`, for every id. So the ids are pairwise
distinct in every state reached by such calls, `createOne` being called on
stores whose ids are below `2 ^ 53` only. -/
theorem uniqueIds_preserved (H : Host) (st : State)
    (hint : IntegerIds st.notesStore) (huniq : UniqueIds st.notesStore) :
    (∀ data : Note, ¬ hasKey data "id" → IdsBelowLimit st.notesStore →
      IntegerIds (createOne H st data).2.notesStore ∧
        UniqueIds (createOne H st data).2.notesStore) ∧
    (∀ (noteId : JSVal) (data : Note), ¬ hasKey data "id" →
      IntegerIds (updateOne H st noteId data).2.notesStore ∧
        UniqueIds (updateOne H st noteId data).2.notesStore) ∧
    (∀ noteId : JSVal,
      IntegerIds (deleteOne H st noteId).notesStore ∧
        UniqueIds (deleteOne H st noteId).notesStore) ∧
    (∀ st2 : State, Reachable H st st2 →
      IntegerIds st2.notesStore ∧ UniqueIds st2.notesStore) :=
  ⟨fun data hdata hbelow => createOne_preserves H st data hdata hint hbelow huniq,
    fun noteId data hdata => updateOne_preserves H st noteId data hdata hint huniq,
    fun noteId => deleteOne_preserves H st noteId hint huniq,
    reachable_preserves H st hint huniq⟩

theorem integerIds_defaultNotes : IntegerIds (initialState none).notesStore := by
  intro n hn
  simp only [initialState, getStoredNotes, defaultNotes, List.mem_cons, List.mem_singleton,
    List.not_mem_nil, or_false] at hn
  rcases hn with rfl | rfl
  exacts [⟨1, by decide⟩, ⟨2, by decide⟩]

/-- The two default notes have the distinct integer ids 1 and 2, and keep
distinct ids when a note is created next to them. -/
theorem uniqueIds_preserved_witness :
    UniqueIds (initialState none).notesStore ∧
      UniqueIds (createOne referenceHost (initialState none)
        [("title", JSVal.str "New note")]).2.notesStore :=
  ⟨by decide,
    ((uniqueIds_preserved referenceHost (initialState none) integerIds_defaultNotes
      (by decide)).1 [("title", JSVal.str "New note")] (by decide)
      idsBelowLimit_defaultNotes).2⟩

/-- C6 as stated fails: a `data` with an `id` property carries its id into the
store. From the store with the distinct ids 1 and 2, `createOne` of a mapping
with the id 1 and `updateOne(1, data)` with the id 2 in `data` both give a
store in which two notes have the same id. And from the store whose only id is
`2 ^ 53`, `createOne` of a mapping without an id gives a store with two notes
of the id `2 ^ 53`. -/
theorem uniqueIds_counterexample :
    UniqueIds (initialState none).notesStore ∧
      ¬ UniqueIds (createOne referenceHost (initialState none)
        [("id", JSVal.num 1)]).2.notesStore ∧
      ¬ UniqueIds (updateOne referenceHost (initialState none) (JSVal.num 1)
        [("id", JSVal.num 2)]).2.notesStore ∧
      UniqueIds [[("id", JSVal.num 9007199254740992)]] ∧
      ids (createOne referenceHost ⟨[[("id", JSVal.num 9007199254740992)]], none⟩
        [("title", JSVal.str "x")]).2.notesStore =
          [JSVal.num 9007199254740992, JSVal.num 9007199254740992] ∧
      ¬ UniqueIds (createOne referenceHost ⟨[[("id", JSVal.num 9007199254740992)]], none⟩
        [("title", JSVal.str "x")]).2.notesStore := by
  decide

/-! ## The order of strings -/

theorem lexLt_irrefl : ∀ a : List Nat, lexLt a a = false
  | [] => rfl
  | x :: xs => by simp [lexLt, lexLt_irrefl xs]

theorem lexLt_asymm : ∀ a b : List Nat, lexLt a b = true → lexLt b a = false
  | _, [], h => by simp [lexLt] at h
  | [], _ :: _, _ => rfl
  | x :: xs, y :: ys, h => by
    unfold lexLt at h ⊢
    by_cases h1 : x < y
    · have h2 : ¬ y < x := by omega
      simp [h1, h2]
    · by_cases h2 : y < x
      · simp [h1, h2] at h
      · simp only [h1, h2, if_false] at h ⊢
        exact lexLt_asymm xs ys h

theorem lexLt_negtrans :
    ∀ a b c : List Nat, lexLt a b = false → lexLt b c = false → lexLt a c = false
  | a, _, [], _, _ => by
    cases a <;> rfl
  | [], [], _ :: _, _, h2 => by simp [lexLt] at h2
  | [], _ :: _, _ :: _, h1, _ => by simp [lexLt] at h1
  | _ :: _, [], _ :: _, _, h2 => by simp [lexLt] at h2
  | x :: xs, y :: ys, z :: zs, h1, h2 => by
    unfold lexLt at h1 h2 ⊢
    by_cases hxy : x < y
    · simp [hxy] at h1
    · by_cases hyx : y < x
      · by_cases hyz : y < z
        · simp [hyz] at h2
        · have hxz : ¬ x < z := by omega
          have hzx : z < x := by omega
          simp [hxz, hzx]
      · simp only [hxy, hyx, if_false] at h1
        by_cases hyz : y < z
        · simp [hyz] at h2
        · by_cases hzy : z < y
          · have hxz : ¬ x < z := by omega
            have hzx : z < x := by omega
            simp [hxz, hzx]
          · simp only [hyz, hzy, if_false] at h2
            have hxz : ¬ x < z := by omega
            have hzx : ¬ z < x := by omega
            simp only [hxz, hzx, if_false]
            exact lexLt_negtrans xs ys zs h1 h2

theorem lexLt_total : ∀ a b : List Nat, lexLt a b = false → lexLt b a = false → a = b
  | [], [], _, _ => rfl
  | [], _ :: _, h, _ => by simp [lexLt] at h
  | _ :: _, [], _, h => by simp [lexLt] at h
  | x :: xs, y :: ys, h1, h2 => by
    unfold lexLt at h1 h2
    by_cases hxy : x < y
    · simp [hxy] at h1
    · by_cases hyx : y < x
      · simp [hyx] at h2
      · simp only [hxy, hyx, if_false] at h1 h2
        have hx : x = y := by omega
        rw [hx, lexLt_total xs ys h1 h2]

theorem charUnits_append_inj (c d : Char) (u v : List Nat)
    (h : charUnits c ++ u = charUnits d ++ v) : c = d ∧ u = v := by
  have hc := c.valid
  have hd := d.valid
  simp only [UInt32.isValidChar, Nat.isValidChar] at hc hd
  have hcn : c.toNat = c.val.toNat := rfl
  have hdn : d.toNat = d.val.toNat := rfl
  have key : c.toNat = d.toNat ∧ u = v := by
    unfold charUnits at h
    by_cases h1 : c.toNat < 65536
    · by_cases h2 : d.toNat < 65536
      · simp only [h1, h2, if_true, List.singleton_append, List.cons.injEq] at h
        exact h
      · simp only [h1, h2, if_true, if_false, List.singleton_append, List.cons_append,
          List.cons.injEq] at h
        omega
    · by_cases h2 : d.toNat < 65536
      · simp only [h1, h2, if_true, if_false, List.singleton_append, List.cons_append,
          List.cons.injEq] at h
        omega
      · simp only [h1, h2, if_false, List.cons_append, List.nil_append, List.cons.injEq] at h
        obtain ⟨ha, hb, hc⟩ := h
        exact ⟨by omega, hc⟩
  exact ⟨Char.ext (UInt32.ext key.1), key.2⟩

theorem charUnits_ne_nil (c : Char) (u : List Nat) : charUnits c ++ u ≠ [] := by
  unfold charUnits
  split_ifs <;> simp

theorem unitsOf_injective : ∀ a b : List Char, unitsOf a = unitsOf b → a = b
  | [], [], _ => rfl
  | [], d :: ds, h => by
    exact absurd h.symm (charUnits_ne_nil d (unitsOf ds))
  | c :: cs, [], h => by
    exact absurd h (charUnits_ne_nil c (unitsOf cs))
  | c :: cs, d :: ds, h => by
    obtain ⟨h1, h2⟩ := charUnits_append_inj c d _ _ h
    rw [h1, unitsOf_injective cs ds h2]

theorem utf16Units_injective (s t : String) (h : utf16Units s = utf16Units t) : s = t := by
  unfold utf16Units at h
  have := unitsOf_injective _ _ h
  cases s
  cases t
  simp only at this
  rw [this]

/-! ## The comparator of getMany -/

theorem compareNotes_cons (H : Host) (item : SortItem) (rest : List SortItem) (a b : Note) :
    compareNotes H (item :: rest) a b =
      if keyCompare H item a b = 0 then compareNotes H rest a b else keyCompare H item a b := by
  conv_lhs => rw [compareNotes]
  unfold keyCompare
  by_cases h1 : jsLt H (readProp H a (toPropertyKey item.field))
      (readProp H b (toPropertyKey item.field)) = true <;>
    by_cases h2 : jsGt H (readProp H a (toPropertyKey item.field))
      (readProp H b (toPropertyKey item.field)) = true <;>
    by_cases h3 : item.sort = JSVal.str "asc" <;>
    simp [h1, h2, h3]

theorem consistentOn_of_preorder {α : Type} {cmp : α → α → Int} {l : List α}
    (hrefl : ∀ a ∈ l, cmp a a = 0)
    (hflip : ∀ a ∈ l, ∀ b ∈ l, cmp a b < 0 → 0 < cmp b a)
    (hflip2 : ∀ a ∈ l, ∀ b ∈ l, 0 < cmp a b → cmp b a < 0)
    (htrans : ∀ a ∈ l, ∀ b ∈ l, ∀ c ∈ l, cmp a b ≤ 0 → cmp b c ≤ 0 → cmp a c ≤ 0) :
    ConsistentOn cmp l := by
  have hsymm : ∀ a ∈ l, ∀ b ∈ l, cmp a b = 0 → cmp b a = 0 := by
    intro a ha b hb h
    rcases lt_trichotomy (cmp b a) 0 with h1 | h1 | h1
    · have := hflip b hb a ha h1
      omega
    · exact h1
    · have := hflip2 b hb a ha h1
      omega
  have hlt : ∀ a ∈ l, ∀ b ∈ l, ∀ c ∈ l, cmp a b < 0 → cmp b c < 0 → cmp a c < 0 := by
    intro a ha b hb c hc h1 h2
    have h3 := htrans a ha b hb c hc (le_of_lt h1) (le_of_lt h2)
    rcases lt_or_eq_of_le h3 with h4 | h4
    · exact h4
    · have h5 := hsymm a ha c hc h4
      have h6 := htrans c hc a ha b hb (le_of_eq h5) (le_of_lt h1)
      have := hflip b hb c hc h2
      omega
  refine ⟨hrefl, hsymm, ?_, hlt, ?_⟩
  · intro a ha b hb c hc h1 h2
    have h3 := htrans a ha b hb c hc (le_of_eq h1) (le_of_eq h2)
    have h4 := htrans c hc b hb a ha (le_of_eq (hsymm b hb c hc h2)) (le_of_eq (hsymm a ha b hb h1))
    rcases lt_or_eq_of_le h3 with h5 | h5
    · have := hflip a ha c hc h5
      omega
    · exact h5
  · intro a ha b hb c hc h1 h2
    have h3 := hflip2 a ha b hb h1
    have h4 := hflip2 b hb c hc h2
    have h5 := hlt c hc b hb a ha h4 h3
    exact hflip c hc a ha h5

theorem ConsistentOn.lt_of_lt_of_le {α : Type} {cmp : α → α → Int} {l : List α}
    (h : ConsistentOn cmp l) {a b c : α} (ha : a ∈ l) (hb : b ∈ l) (hc : c ∈ l)
    (hab : cmp a b < 0) (hbc : cmp b c ≤ 0) : cmp a c < 0 := by
  by_contra hac
  have hca : cmp c a ≤ 0 := by
    rcases lt_or_eq_of_le (not_lt.1 hac) with h1 | h1
    · exact le_of_lt (h.flip_gt ha hc h1)
    · exact le_of_eq (h.2.1 a ha c hc h1.symm)
  have hba := h.le_trans hb hc ha hbc hca
  have := h.flip_lt ha hb hab
  omega

theorem ConsistentOn.lt_of_le_of_lt {α : Type} {cmp : α → α → Int} {l : List α}
    (h : ConsistentOn cmp l) {a b c : α} (ha : a ∈ l) (hb : b ∈ l) (hc : c ∈ l)
    (hab : cmp a b ≤ 0) (hbc : cmp b c < 0) : cmp a c < 0 := by
  by_contra hac
  have hca : cmp c a ≤ 0 := by
    rcases lt_or_eq_of_le (not_lt.1 hac) with h1 | h1
    · exact le_of_lt (h.flip_gt ha hc h1)
    · exact le_of_eq (h.2.1 a ha c hc h1.symm)
  have hcb := h.le_trans hc ha hb hca hab
  have := h.flip_lt hb hc hbc
  omega

theorem ConsistentOn.lex {α : Type} {c1 c2 : α → α → Int} {l : List α}
    (h1 : ConsistentOn c1 l) (h2 : ConsistentOn c2 l) :
    ConsistentOn (fun a b => if c1 a b = 0 then c2 a b else c1 a b) l := by
  apply consistentOn_of_preorder
  · intro a ha
    simp only [h1.1 a ha, if_true]
    exact h2.1 a ha
  · intro a ha b hb
    by_cases hab : c1 a b = 0
    · have hba := h1.2.1 a ha b hb hab
      simp only [hab, hba, if_true]
      exact h2.flip_lt ha hb
    · have hba : c1 b a ≠ 0 := fun h => hab (h1.2.1 b hb a ha h)
      simp only [hab, hba, if_false]
      exact h1.flip_lt ha hb
  · intro a ha b hb
    by_cases hab : c1 a b = 0
    · have hba := h1.2.1 a ha b hb hab
      simp only [hab, hba, if_true]
      exact h2.flip_gt ha hb
    · have hba : c1 b a ≠ 0 := fun h => hab (h1.2.1 b hb a ha h)
      simp only [hab, hba, if_false]
      exact h1.flip_gt ha hb
  · intro a ha b hb c hc
    by_cases hab : c1 a b = 0
    · by_cases hbc : c1 b c = 0
      · have hac := h1.2.2.1 a ha b hb c hc hab hbc
        simp only [hab, hbc, hac, if_true]
        exact h2.le_trans ha hb hc
      · simp only [hab, hbc, if_true, if_false]
        intro _ hlt
        have hlt2 : c1 b c < 0 := lt_of_le_of_ne hlt hbc
        have hac := h1.lt_of_le_of_lt ha hb hc (le_of_eq hab) hlt2
        have hne : c1 a c ≠ 0 := by omega
        simp only [hne, if_false]
        omega
    · by_cases hbc : c1 b c = 0
      · simp only [hab, hbc, if_true, if_false]
        intro hlt _
        have hlt2 : c1 a b < 0 := lt_of_le_of_ne hlt hab
        have hac := h1.lt_of_lt_of_le ha hb hc hlt2 (le_of_eq hbc)
        have hne : c1 a c ≠ 0 := by omega
        simp only [hne, if_false]
        omega
      · simp only [hab, hbc, if_false]
        intro hlt hlt3
        have hlt2 : c1 a b < 0 := lt_of_le_of_ne hlt hab
        have hac := h1.lt_of_lt_of_le ha hb hc hlt2 hlt3
        have hne : c1 a c ≠ 0 := by omega
        simp only [hne, if_false]
        omega

theorem OneType.sameType {key : String} {l : List Note} (h : OneType key l) {a b : Note}
    (ha : a ∈ l) (hb : b ∈ l) : SameType (getProp a key) (getProp b key) := by
  rcases h with h | h
  · obtain ⟨m, hm⟩ := h a ha
    obtain ⟨n, hn⟩ := h b hb
    exact Or.inl ⟨m, n, hm, hn⟩
  · obtain ⟨s, hs⟩ := h a ha
    obtain ⟨t, ht⟩ := h b hb
    exact Or.inr ⟨s, t, hs, ht⟩

theorem OneType.readProp_eq (H : Host) {key : String} {l : List Note} (h : OneType key l)
    {a : Note} (ha : a ∈ l) : readProp H a key = getProp a key := by
  rcases h with h | h
  · obtain ⟨m, hm⟩ := h a ha
    rw [readProp_of_num H hm, hm]
  · obtain ⟨t, ht⟩ := h a ha
    rw [readProp_of_str H ht, ht]

theorem OneType.sameTypeRead (H : Host) {key : String} {l : List Note} (h : OneType key l)
    {a b : Note} (ha : a ∈ l) (hb : b ∈ l) :
    SameType (readProp H a key) (readProp H b key) := by
  rw [h.readProp_eq H ha, h.readProp_eq H hb]
  exact h.sameType ha hb

theorem jsLt_str (H : Host) (s t : String) :
    jsLt H (JSVal.str s) (JSVal.str t) = lexLt (utf16Units s) (utf16Units t) := by
  simp [jsLt]

theorem jsLt_iff_valueLt (H : Host) {x y : JSVal} (h : SameType x y) :
    jsLt H x y = true ↔ valueLt x y := by
  rcases h with ⟨m, n, rfl, rfl⟩ | ⟨s, t, rfl, rfl⟩
  · simp [jsLt_num, valueLt]
  · simp [jsLt_str, valueLt]

theorem jsLt_irrefl (H : Host) {x : JSVal} (h : SameType x x) : jsLt H x x = false := by
  rcases h with ⟨m, n, rfl, _⟩ | ⟨s, t, rfl, _⟩
  · simp [jsLt_num]
  · simp [jsLt_str, lexLt_irrefl]

theorem jsLt_asymm (H : Host) {x y : JSVal} (h : SameType x y) (hlt : jsLt H x y = true) :
    jsLt H y x = false := by
  rcases h with ⟨m, n, rfl, rfl⟩ | ⟨s, t, rfl, rfl⟩
  · rw [jsLt_num] at hlt ⊢
    simp only [decide_eq_true_eq] at hlt
    simp only [decide_eq_false_iff_not]
    omega
  · rw [jsLt_str] at hlt ⊢
    exact lexLt_asymm _ _ hlt

theorem jsLt_negtrans (H : Host) {x y z : JSVal} (hxy : SameType x y) (hyz : SameType y z)
    (h1 : jsLt H x y = false) (h2 : jsLt H y z = false) : jsLt H x z = false := by
  rcases hxy with ⟨m, n, rfl, rfl⟩ | ⟨s, t, rfl, rfl⟩
  · rcases hyz with ⟨n2, k, hn, rfl⟩ | ⟨s, t, hs, _⟩
    · cases hn
      rw [jsLt_num] at h1 h2 ⊢
      simp only [decide_eq_false_iff_not] at h1 h2 ⊢
      omega
    · cases hs
  · rcases hyz with ⟨n2, k, hn, _⟩ | ⟨t2, u, ht, rfl⟩
    · cases hn
    · cases ht
      rw [jsLt_str] at h1 h2 ⊢
      exact lexLt_negtrans _ _ _ h1 h2

theorem jsLt_total (H : Host) {x y : JSVal} (h : SameType x y)
    (h1 : jsLt H x y = false) (h2 : jsLt H y x = false) : x = y := by
  rcases h with ⟨m, n, rfl, rfl⟩ | ⟨s, t, rfl, rfl⟩
  · rw [jsLt_num] at h1 h2
    simp only [decide_eq_false_iff_not] at h1 h2
    have : m = n := by omega
    rw [this]
  · rw [jsLt_str] at h1 h2
    rw [utf16Units_injective s t (lexLt_total _ _ h1 h2)]

theorem keyCompare_eq_zero_iff (H : Host) (item : SortItem) (a b : Note) :
    keyCompare H item a b = 0 ↔
      jsLt H (readProp H a (toPropertyKey item.field)) (readProp H b (toPropertyKey item.field)) = false ∧
      jsLt H (readProp H b (toPropertyKey item.field)) (readProp H a (toPropertyKey item.field)) = false := by
  unfold keyCompare jsGt
  by_cases h1 : jsLt H (readProp H a (toPropertyKey item.field))
      (readProp H b (toPropertyKey item.field)) = true <;>
    by_cases h2 : jsLt H (readProp H b (toPropertyKey item.field))
      (readProp H a (toPropertyKey item.field)) = true <;>
    by_cases h3 : item.sort = JSVal.str "asc" <;>
    simp [h1, h2, h3]

theorem keyCompare_le_asc (H : Host) (item : SortItem) (a b : Note)
    (hasc : item.sort = JSVal.str "asc")
    (hty : SameType (readProp H a (toPropertyKey item.field)) (readProp H b (toPropertyKey item.field))) :
    keyCompare H item a b ≤ 0 ↔
      jsLt H (readProp H b (toPropertyKey item.field)) (readProp H a (toPropertyKey item.field)) = false := by
  unfold keyCompare jsGt
  by_cases h1 : jsLt H (readProp H a (toPropertyKey item.field))
      (readProp H b (toPropertyKey item.field)) = true
  · have h2 := jsLt_asymm H hty h1
    simp [h1, h2, hasc]
  · by_cases h2 : jsLt H (readProp H b (toPropertyKey item.field))
        (readProp H a (toPropertyKey item.field)) = true <;>
      simp [h1, h2, hasc]

theorem keyCompare_le_desc (H : Host) (item : SortItem) (a b : Note)
    (hasc : item.sort ≠ JSVal.str "asc") :
    keyCompare H item a b ≤ 0 ↔
      jsLt H (readProp H a (toPropertyKey item.field)) (readProp H b (toPropertyKey item.field)) = false := by
  unfold keyCompare jsGt
  by_cases h1 : jsLt H (readProp H a (toPropertyKey item.field))
      (readProp H b (toPropertyKey item.field)) = true
  · simp [h1, hasc]
  · by_cases h2 : jsLt H (readProp H b (toPropertyKey item.field))
        (readProp H a (toPropertyKey item.field)) = true <;>
      simp [h1, h2, hasc]

theorem keyCompare_neg (H : Host) (item : SortItem) (a b : Note)
    (hty : SameType (readProp H a (toPropertyKey item.field)) (readProp H b (toPropertyKey item.field))) :
    keyCompare H item b a = - keyCompare H item a b := by
  unfold keyCompare jsGt
  by_cases h1 : jsLt H (readProp H a (toPropertyKey item.field))
      (readProp H b (toPropertyKey item.field)) = true
  · have h2 := jsLt_asymm H hty h1
    by_cases h3 : item.sort = JSVal.str "asc" <;> simp [h1, h2, h3]
  · by_cases h2 : jsLt H (readProp H b (toPropertyKey item.field))
        (readProp H a (toPropertyKey item.field)) = true <;>
      by_cases h3 : item.sort = JSVal.str "asc" <;>
      simp [h1, h2, h3]

theorem keyCompare_consistent (H : Host) (item : SortItem) (l : List Note)
    (hty : OneType (toPropertyKey item.field) l) : ConsistentOn (keyCompare H item) l := by
  apply consistentOn_of_preorder
  · intro a ha
    rw [keyCompare_eq_zero_iff]
    exact ⟨jsLt_irrefl H (hty.sameTypeRead H ha ha), jsLt_irrefl H (hty.sameTypeRead H ha ha)⟩
  · intro a ha b hb h
    rw [keyCompare_neg H item a b (hty.sameTypeRead H ha hb)]
    omega
  · intro a ha b hb h
    rw [keyCompare_neg H item a b (hty.sameTypeRead H ha hb)]
    omega
  · intro a ha b hb c hc h1 h2
    by_cases hasc : item.sort = JSVal.str "asc"
    · rw [keyCompare_le_asc H item _ _ hasc (hty.sameTypeRead H _ _)] at h1 h2 ⊢ <;>
        try assumption
      exact jsLt_negtrans H (hty.sameTypeRead H hc hb) (hty.sameTypeRead H hb ha) h2 h1
    · rw [keyCompare_le_desc H item _ _ hasc] at h1 h2 ⊢
      exact jsLt_negtrans H (hty.sameTypeRead H ha hb) (hty.sameTypeRead H hb hc) h1 h2

theorem compareNotes_consistent (H : Host) (l : List Note) :
    ∀ sortModel : List SortItem,
      (∀ item ∈ sortModel, OneType (toPropertyKey item.field) l) →
        ConsistentOn (compareNotes H sortModel) l
  | [], _ => by
    apply consistentOn_of_preorder <;> intros <;> simp [compareNotes] at *
  | item :: rest, hty => by
    have h1 := keyCompare_consistent H item l (hty item (List.mem_cons_self _ _))
    have h2 := compareNotes_consistent H l rest
      (fun it hit => hty it (List.mem_cons_of_mem _ hit))
    have h3 := h1.lex h2
    have heq : compareNotes H (item :: rest) =
        fun a b => if keyCompare H item a b = 0 then compareNotes H rest a b
          else keyCompare H item a b := by
      funext a b
      exact compareNotes_cons H item rest a b
    rw [heq]
    exact h3

theorem compareNotes_inSortOrder (H : Host) (l : List Note) {a b : Note} (ha : a ∈ l)
    (hb : b ∈ l) :
    ∀ sortModel : List SortItem,
      (∀ item ∈ sortModel, OneType (toPropertyKey item.field) l) →
        compareNotes H sortModel a b ≤ 0 → InSortOrder sortModel a b
  | [], _, _ => trivial
  | item :: rest, hty, hle => by
    have hst := (hty item (List.mem_cons_self _ _)).sameTypeRead H ha hb
    have hts := (hty item (List.mem_cons_self _ _)).sameTypeRead H hb ha
    have hra := (hty item (List.mem_cons_self _ _)).readProp_eq H ha
    have hrb := (hty item (List.mem_cons_self _ _)).readProp_eq H hb
    rw [compareNotes_cons] at hle
    unfold InSortOrder
    rw [← hra, ← hrb]
    by_cases heq : readProp H a (toPropertyKey item.field) =
        readProp H b (toPropertyKey item.field)
    · rw [if_pos heq]
      have hz : keyCompare H item a b = 0 := by
        rw [keyCompare_eq_zero_iff, ← heq]
        have hsame := (hty item (List.mem_cons_self _ _)).sameTypeRead H ha ha
        exact ⟨jsLt_irrefl H hsame, jsLt_irrefl H hsame⟩
      rw [if_pos hz] at hle
      exact compareNotes_inSortOrder H l ha hb rest
        (fun it hit => hty it (List.mem_cons_of_mem _ hit)) hle
    · rw [if_neg heq]
      have hnz : keyCompare H item a b ≠ 0 := by
        intro hz
        rw [keyCompare_eq_zero_iff] at hz
        exact heq (jsLt_total H hst hz.1 hz.2)
      rw [if_neg hnz] at hle
      constructor
      · intro hasc
        rw [keyCompare_le_asc H item a b hasc hst] at hle
        rw [← jsLt_iff_valueLt H hst]
        by_contra hnot
        exact heq (jsLt_total H hst (by simpa using hnot) hle)
      · intro hdesc
        have hasc : item.sort ≠ JSVal.str "asc" := by
          rw [hdesc]
          decide
        rw [keyCompare_le_desc H item a b hasc] at hle
        rw [← jsLt_iff_valueLt H hts]
        by_contra hnot
        exact heq (jsLt_total H hst hle (by simpa using hnot))

theorem compareNotes_eq_zero_iff (H : Host) (l : List Note) {a b : Note} (ha : a ∈ l)
    (hb : b ∈ l) :
    ∀ sortModel : List SortItem,
      (∀ item ∈ sortModel, OneType (toPropertyKey item.field) l) →
        (compareNotes H sortModel a b = 0 ↔ sameKeys sortModel a b = true)
  | [], _ => by simp [compareNotes, sameKeys]
  | item :: rest, hty => by
    have hst := (hty item (List.mem_cons_self _ _)).sameTypeRead H ha hb
    have hra := (hty item (List.mem_cons_self _ _)).readProp_eq H ha
    have hrb := (hty item (List.mem_cons_self _ _)).readProp_eq H hb
    have ih := compareNotes_eq_zero_iff H l ha hb rest
      (fun it hit => hty it (List.mem_cons_of_mem _ hit))
    have hkey : keyCompare H item a b = 0 ↔
        getProp a (toPropertyKey item.field) = getProp b (toPropertyKey item.field) := by
      rw [keyCompare_eq_zero_iff, ← hra, ← hrb]
      constructor
      · intro hz
        exact jsLt_total H hst hz.1 hz.2
      · intro heq
        rw [← heq]
        have hsame := (hty item (List.mem_cons_self _ _)).sameTypeRead H ha ha
        exact ⟨jsLt_irrefl H hsame, jsLt_irrefl H hsame⟩
    rw [compareNotes_cons]
    unfold sameKeys at ih ⊢
    rw [List.all_cons, Bool.and_eq_true, decide_eq_true_eq, ← ih, ← hkey]
    by_cases hz : keyCompare H item a b = 0
    · simp [hz]
    · simp [hz]

theorem oneType_of_subset {key : String} {l l2 : List Note} (h : OneType key l)
    (hsub : ∀ n ∈ l2, n ∈ l) : OneType key l2 := by
  rcases h with h | h
  · exact Or.inl (fun n hn => h n (hsub n hn))
  · exact Or.inr (fun n hn => h n (hsub n hn))

theorem filterStage_subset (H : Host) (notesStore : List Note) (fm : Option FilterModel) :
    ∀ n ∈ filterStage H notesStore fm, n ∈ notesStore := by
  intro n hn
  rw [filterStage_eq] at hn
  exact (List.mem_filter.1 hn).1

/-! ## Sorting (claims C7 and C8) -/

/-- C7: for a non-empty sort model each of whose fields holds integers in every
note of the store, or strings in every note, the list that `getMany` paginates
is a permutation of the filtered list, and every note `a` placed before a note
`b` in it is in the order of the sort model: equal values at every sort key,
or at the first key where they differ the lower value in `a` for `asc` and the
higher value in `a` for `desc`. -/
theorem getMany_sorted (H : Host) (st : State) (pm : PaginationModel)
    (fm : Option FilterModel) (item : SortItem) (rest : List SortItem)
    (hty : ∀ it ∈ item :: rest, OneType (toPropertyKey it.field) st.notesStore) :
    (processedNotes H st ⟨pm, fm, some (item :: rest)⟩).Perm
        (processedNotes H st ⟨pm, fm, none⟩) ∧
      (processedNotes H st ⟨pm, fm, some (item :: rest)⟩).Pairwise
        (InSortOrder (item :: rest)) := by
  have hsub := filterStage_subset H st.notesStore fm
  have hty2 : ∀ it ∈ item :: rest,
      OneType (toPropertyKey it.field) (filterStage H st.notesStore fm) :=
    fun it hit => oneType_of_subset (hty it hit) hsub
  have hcons := compareNotes_consistent H (filterStage H st.notesStore fm) (item :: rest) hty2
  simp only [processedNotes, sortStage]
  refine ⟨H.sort_perm _ _, ?_⟩
  refine (H.sort_sorted _ _ hcons).imp_of_mem ?_
  intro a b ha hb hle
  rw [(H.sort_perm _ _).mem_iff] at ha hb
  exact compareNotes_inSortOrder H _ ha hb (item :: rest) hty2 hle

theorem oneType_id_defaultNotes :
    ∀ it ∈ [(⟨JSVal.str "id", JSVal.str "desc"⟩ : SortItem)],
      OneType (toPropertyKey it.field) (initialState none).notesStore := by
  intro it hit
  rw [List.mem_singleton] at hit
  subst hit
  exact Or.inl integerIds_defaultNotes

/-- The two default notes sorted by `id`, descending: the note 2 comes first. -/
theorem getMany_sorted_witness :
    processedNotes referenceHost (initialState none)
        ⟨⟨0, 10⟩, none, some [⟨JSVal.str "id", JSVal.str "desc"⟩]⟩ =
      [[("id", JSVal.num 2), ("title", JSVal.str "Personal Goal"),
          ("text", JSVal.str "Finish reading the book.")],
        [("id", JSVal.num 1), ("title", JSVal.str "Grocery List Item"),
          ("text", JSVal.str "Buy more coffee.")]] ∧
      (processedNotes referenceHost (initialState none)
        ⟨⟨0, 10⟩, none, some [⟨JSVal.str "id", JSVal.str "desc"⟩]⟩).Pairwise
          (InSortOrder [⟨JSVal.str "id", JSVal.str "desc"⟩]) :=
  ⟨by decide,
    (getMany_sorted referenceHost (initialState none) ⟨0, 10⟩ none
      ⟨JSVal.str "id", JSVal.str "desc"⟩ [] oneType_id_defaultNotes).2⟩

/-- C8, for a store of one comparable type at each sort key: sorting in
`getMany` is stable. For a non-empty sort model each of whose fields holds
integers in every note of the store, or strings in every note, the notes that
have the values of a note `a` at every sort key are in the sorted list in the
order they have in the filtered list; so two notes with equal values at every
sort key keep their relative order. -/
theorem getMany_sort_stable (H : Host) (st : State) (pm : PaginationModel)
    (fm : Option FilterModel) (item : SortItem) (rest : List SortItem)
    (hty : ∀ it ∈ item :: rest, OneType (toPropertyKey it.field) st.notesStore) :
    (∀ a ∈ processedNotes H st ⟨pm, fm, none⟩,
      (processedNotes H st ⟨pm, fm, some (item :: rest)⟩).filter (sameKeys (item :: rest) a) =
        (processedNotes H st ⟨pm, fm, none⟩).filter (sameKeys (item :: rest) a)) ∧
    (∀ a b : Note, sameKeys (item :: rest) a b = true →
      [a, b].Sublist (processedNotes H st ⟨pm, fm, none⟩) →
        [a, b].Sublist (processedNotes H st ⟨pm, fm, some (item :: rest)⟩)) := by
  have hsub := filterStage_subset H st.notesStore fm
  have hty2 : ∀ it ∈ item :: rest,
      OneType (toPropertyKey it.field) (filterStage H st.notesStore fm) :=
    fun it hit => oneType_of_subset (hty it hit) hsub
  have hcons := compareNotes_consistent H (filterStage H st.notesStore fm) (item :: rest) hty2
  have hmain : ∀ a ∈ processedNotes H st ⟨pm, fm, none⟩,
      (processedNotes H st ⟨pm, fm, some (item :: rest)⟩).filter (sameKeys (item :: rest) a) =
        (processedNotes H st ⟨pm, fm, none⟩).filter (sameKeys (item :: rest) a) := by
    simp only [processedNotes, sortStage]
    intro a ha
    have hstab := H.sort_stable _ _ hcons a ha
    have h1 : (H.sort (compareNotes H (item :: rest)) (filterStage H st.notesStore fm)).filter
          (sameKeys (item :: rest) a) =
        (H.sort (compareNotes H (item :: rest)) (filterStage H st.notesStore fm)).filter
          (fun x => decide (compareNotes H (item :: rest) a x = 0)) := by
      apply List.filter_congr
      intro x hx
      rw [(H.sort_perm _ _).mem_iff] at hx
      have := compareNotes_eq_zero_iff H _ ha hx (item :: rest) hty2
      by_cases hk : sameKeys (item :: rest) a x = true
      · simp [hk, this.2 hk]
      · have hne : compareNotes H (item :: rest) a x ≠ 0 := fun h => hk (this.1 h)
        simp [hk, hne]
    have h2 : (filterStage H st.notesStore fm).filter (sameKeys (item :: rest) a) =
        (filterStage H st.notesStore fm).filter
          (fun x => decide (compareNotes H (item :: rest) a x = 0)) := by
      apply List.filter_congr
      intro x hx
      have := compareNotes_eq_zero_iff H _ ha hx (item :: rest) hty2
      by_cases hk : sameKeys (item :: rest) a x = true
      · simp [hk, this.2 hk]
      · have hne : compareNotes H (item :: rest) a x ≠ 0 := fun h => hk (this.1 h)
        simp [hk, hne]
    rw [h1, h2, hstab]
  refine ⟨hmain, ?_⟩
  intro a b hab hsl
  have ha : a ∈ processedNotes H st ⟨pm, fm, none⟩ := hsl.subset (List.mem_cons_self _ _)
  have haa : sameKeys (item :: rest) a a = true := by
    simp [sameKeys]
  have hf := hsl.filter (sameKeys (item :: rest) a)
  rw [← hmain a ha] at hf
  have hab2 : List.filter (sameKeys (item :: rest) a) [a, b] = [a, b] := by
    simp [List.filter, haa, hab]
  rw [hab2] at hf
  exact hf.trans (List.filter_sublist _)

/-- In the two default notes with the text of the second given to both, sorted
by `text`, the note 1 stays before the note 2. -/
theorem getMany_sort_stable_witness :
    [([("id", JSVal.num 1), ("text", JSVal.str "same")] : Note),
        [("id", JSVal.num 2), ("text", JSVal.str "same")]].Sublist
      (processedNotes referenceHost
        ⟨[[("id", JSVal.num 1), ("text", JSVal.str "same")],
          [("id", JSVal.num 2), ("text", JSVal.str "same")]], none⟩
        ⟨⟨0, 10⟩, none, some [⟨JSVal.str "text", JSVal.str "desc"⟩]⟩) :=
  (getMany_sort_stable referenceHost
      ⟨[[("id", JSVal.num 1), ("text", JSVal.str "same")],
        [("id", JSVal.num 2), ("text", JSVal.str "same")]], none⟩
      ⟨0, 10⟩ none ⟨JSVal.str "text", JSVal.str "desc"⟩ []
      (by
        intro it hit
        rw [List.mem_singleton] at hit
        subst hit
        refine Or.inr ?_
        intro n hn
        simp only [List.mem_cons, List.mem_singleton, List.not_mem_nil, or_false] at hn
        rcases hn with rfl | rfl
        exacts [⟨"same", by decide⟩, ⟨"same", by decide⟩])).2
    _ _ (by decide) (by decide)

/-- C8 as stated fails on a store that is not of one comparable type at the sort
key. Sorted by `rank` ascending, the comparator returns 0 whenever a note
without a `rank` is one of the two notes, so it is not a consistent comparator
and the sort order is left to the engine. In `rankedNotes` the merging engine
places the note 4 before the note 3, and in `sparseNotes` the binary insertion
engine places the note 7 before the note 5, although in each pair both notes
have the `rank` 1 and the first comes first in the store. -/
theorem getMany_sort_stable_counterexample :
    (sameKeys [⟨JSVal.str "rank", JSVal.str "asc"⟩]
        [("id", JSVal.num 3), ("rank", JSVal.num 1)]
        [("id", JSVal.num 4), ("rank", JSVal.num 1)] = true ∧
      [([("id", JSVal.num 3), ("rank", JSVal.num 1)] : Note),
          [("id", JSVal.num 4), ("rank", JSVal.num 1)]].Sublist
        (processedNotes mergingHost ⟨rankedNotes, none⟩ ⟨⟨0, 10⟩, none, none⟩) ∧
      ¬ [([("id", JSVal.num 3), ("rank", JSVal.num 1)] : Note),
          [("id", JSVal.num 4), ("rank", JSVal.num 1)]].Sublist
        (processedNotes mergingHost ⟨rankedNotes, none⟩
          ⟨⟨0, 10⟩, none, some [⟨JSVal.str "rank", JSVal.str "asc"⟩]⟩) ∧
      (getMany mergingHost ⟨rankedNotes, none⟩
          ⟨⟨0, 10⟩, none, some [⟨JSVal.str "rank", JSVal.str "asc"⟩]⟩).1.items =
        [[("id", JSVal.num 4), ("rank", JSVal.num 1)],
          [("id", JSVal.num 1), ("rank", JSVal.num 3)],
          [("id", JSVal.num 2)],
          [("id", JSVal.num 3), ("rank", JSVal.num 1)],
          [("id", JSVal.num 5), ("rank", JSVal.num 5)],
          [("id", JSVal.num 6), ("rank", JSVal.num 7)]]) ∧
    (sameKeys [⟨JSVal.str "rank", JSVal.str "asc"⟩]
        [("id", JSVal.num 5), ("rank", JSVal.num 1)]
        [("id", JSVal.num 7), ("rank", JSVal.num 1)] = true ∧
      [([("id", JSVal.num 5), ("rank", JSVal.num 1)] : Note),
          [("id", JSVal.num 7), ("rank", JSVal.num 1)]].Sublist
        (processedNotes insertingHost ⟨sparseNotes, none⟩ ⟨⟨0, 10⟩, none, none⟩) ∧
      ¬ [([("id", JSVal.num 5), ("rank", JSVal.num 1)] : Note),
          [("id", JSVal.num 7), ("rank", JSVal.num 1)]].Sublist
        (processedNotes insertingHost ⟨sparseNotes, none⟩
          ⟨⟨0, 10⟩, none, some [⟨JSVal.str "rank", JSVal.str "asc"⟩]⟩) ∧
      (getMany insertingHost ⟨sparseNotes, none⟩
          ⟨⟨0, 10⟩, none, some [⟨JSVal.str "rank", JSVal.str "asc"⟩]⟩).1.items =
        [[("id", JSVal.num 1)],
          [("id", JSVal.num 2)],
          [("id", JSVal.num 6), ("rank", JSVal.num 0)],
          [("id", JSVal.num 7), ("rank", JSVal.num 1)],
          [("id", JSVal.num 3), ("rank", JSVal.num 2)],
          [("id", JSVal.num 4)],
          [("id", JSVal.num 5), ("rank", JSVal.num 1)]]) := by
  decide

/-! ## Text operators and equality (claims C9 and C10) -/

theorem satisfies_applied (H : Host) (field value operator : JSVal) (n : Note)
    (hfield : truthy field = true) (hvalue : looseEqNull value = false) :
    satisfies H ⟨field, value, operator⟩ n = filterCallback H field value operator n := by
  simp [satisfies, hfield, hvalue]

theorem mem_processedNotes_insert (H : Host) (st : State) (pm : PaginationModel)
    (sm : Option (List SortItem)) (pre post : List FilterItem) (field value operator : JSVal)
    (hfield : truthy field = true) (hvalue : looseEqNull value = false) (n : Note) :
    n ∈ processedNotes H st ⟨pm, some ⟨some (pre ++ ⟨field, value, operator⟩ :: post)⟩, sm⟩ ↔
      n ∈ processedNotes H st ⟨pm, some ⟨some (pre ++ post)⟩, sm⟩ ∧
        filterCallback H field value operator n = true := by
  rw [mem_processedNotes, mem_processedNotes]
  simp only [filterItems, satisfiesAll_insert, Bool.and_eq_true,
    satisfies_applied H field value operator n hfield hvalue, and_assoc]

theorem filterCallback_contains (H : Host) (field value : JSVal) (n : Note) :
    filterCallback H field value (JSVal.str "contains") n =
      includes (H.toLowerCase (jsToString (readProp H n (toPropertyKey field))))
        (H.toLowerCase (jsToString value)) := by
  simp [filterCallback]

theorem filterCallback_startsWith (H : Host) (field value : JSVal) (n : Note) :
    filterCallback H field value (JSVal.str "startsWith") n =
      startsWith (H.toLowerCase (jsToString (readProp H n (toPropertyKey field))))
        (H.toLowerCase (jsToString value)) := by
  simp [filterCallback]

theorem filterCallback_endsWith (H : Host) (field value : JSVal) (n : Note) :
    filterCallback H field value (JSVal.str "endsWith") n =
      endsWith (H.toLowerCase (jsToString (readProp H n (toPropertyKey field))))
        (H.toLowerCase (jsToString value)) := by
  simp [filterCallback]

theorem filterCallback_equals (H : Host) (field value : JSVal) (n : Note) :
    filterCallback H field value (JSVal.str "equals") n =
      ((inheritedText H n (toPropertyKey field)).isNone &&
        strictEq (readProp H n (toPropertyKey field)) value) := by
  simp [filterCallback]

theorem getMany_title_contains_goal (H : Host) :
    getMany H (initialState none)
        ⟨⟨0, 10⟩, some ⟨some [⟨JSVal.str "title", JSVal.str "goal", JSVal.str "contains"⟩]⟩,
          none⟩ =
      (⟨[[("id", JSVal.num 2), ("title", JSVal.str "Personal Goal"),
          ("text", JSVal.str "Finish reading the book.")]], 1⟩, initialState none) := by
  have h1 : H.toLowerCase "Grocery List Item" = asciiLower "Grocery List Item" :=
    H.toLowerCase_ascii _ (by decide)
  have h2 : H.toLowerCase "Personal Goal" = asciiLower "Personal Goal" :=
    H.toLowerCase_ascii _ (by decide)
  have h3 : H.toLowerCase "goal" = asciiLower "goal" :=
    H.toLowerCase_ascii _ (by decide)
  have hf : filterStage H (initialState none).notesStore
        (some ⟨some [⟨JSVal.str "title", JSVal.str "goal", JSVal.str "contains"⟩]⟩) =
      [[("id", JSVal.num 2), ("title", JSVal.str "Personal Goal"),
          ("text", JSVal.str "Finish reading the book.")]] := by
    rw [filterStage_eq]
    simp only [filterItems, initialState, getStoredNotes, defaultNotes, List.filter, satisfiesAll,
      List.all_cons, List.all_nil, Bool.and_true,
      satisfies_applied H _ _ _ _ (show truthy (JSVal.str "title") = true by decide)
        (show looseEqNull (JSVal.str "goal") = false by decide),
      filterCallback_contains]
    have e1 : readProp H [("id", JSVal.num 1), ("title", JSVal.str "Grocery List Item"),
        ("text", JSVal.str "Buy more coffee.")] (toPropertyKey (JSVal.str "title")) =
        JSVal.str "Grocery List Item" := readProp_of_str H (by decide)
    have e2 : readProp H [("id", JSVal.num 2), ("title", JSVal.str "Personal Goal"),
        ("text", JSVal.str "Finish reading the book.")] (toPropertyKey (JSVal.str "title")) =
        JSVal.str "Personal Goal" := readProp_of_str H (by decide)
    rw [e1, e2]
    simp only [jsToString, h1, h2, h3]
    have e3 : includes (asciiLower "Grocery List Item") (asciiLower "goal") = false := by decide
    have e4 : includes (asciiLower "Personal Goal") (asciiLower "goal") = true := by decide
    rw [e3, e4]
  simp only [getMany, processedNotes, sortStage, hf]
  rfl

/-- The text of a number beyond `2 ^ 53`: zeros after the shortest digits up to
21 digits, exponent notation from `10 ^ 21` on. -/
theorem jsToString_large :
    jsToString (JSVal.num 999999999999999868928) = "999999999999999900000" ∧
      jsToString (JSVal.num 1000000000000000000000) = "1e+21" ∧
      jsToString (JSVal.num (-1180591620717411303424)) = "-1.1805916207174113e+21" ∧
      jsToString (JSVal.num 1152921504606846976) = "1152921504606847000" := by
  decide

/-- A note without a `constructor` of its own reads the function `Object` under
that name, an own property comes first, and a name that `Object.prototype`
does not have reads `undefined`. The text of the inherited `toString` contains
`native`, and the function is not `===` to its text. -/
theorem readProp_inherited :
    readProp referenceHost [("id", JSVal.num 1)] "constructor" =
        JSVal.str "function Object() \x7b [native code] \x7d" ∧
      readProp referenceHost [("id", JSVal.num 1), ("constructor", JSVal.num 7)] "constructor" =
        JSVal.num 7 ∧
      readProp referenceHost [("id", JSVal.num 1)] "title" = JSVal.undefined ∧
      (getMany referenceHost ⟨[[("id", JSVal.num 1)]], none⟩
        ⟨⟨0, 10⟩, some ⟨some [⟨JSVal.str "toString", JSVal.str "NATIVE", JSVal.str "contains"⟩]⟩,
          none⟩).1.items = [[("id", JSVal.num 1)]] ∧
      (getMany referenceHost ⟨[[("id", JSVal.num 1)]], none⟩
        ⟨⟨0, 10⟩, some ⟨some [⟨JSVal.str "toString",
          JSVal.str "function toString() \x7b [native code] \x7d", JSVal.str "equals"⟩]⟩,
          none⟩).1.items = [] := by
  decide

theorem toNat_ofNat_of_lt (m : Nat) (h : m < 55296) : (Char.ofNat m).toNat = m := by
  have hv : m.isValidChar := Or.inl h
  unfold Char.ofNat
  rw [dif_pos hv]
  unfold Char.ofNatAux Char.toNat
  show (BitVec.ofNatLt m _).toNat = m
  simp

theorem toLower_toNat (c : Char) :
    c.toLower.toNat = if 65 ≤ c.toNat ∧ c.toNat ≤ 90 then c.toNat + 32 else c.toNat := by
  unfold Char.toLower
  by_cases h : 65 ≤ c.toNat ∧ c.toNat ≤ 90
  · simp only [ge_iff_le, h, and_self, if_true]
    exact toNat_ofNat_of_lt _ (by omega)
  · simp only [ge_iff_le, h, if_false]

theorem toUpper_toNat (c : Char) :
    c.toUpper.toNat = if 97 ≤ c.toNat ∧ c.toNat ≤ 122 then c.toNat - 32 else c.toNat := by
  unfold Char.toUpper
  by_cases h : 97 ≤ c.toNat ∧ c.toNat ≤ 122
  · simp only [ge_iff_le, h, and_self, if_true]
    exact toNat_ofNat_of_lt _ (by omega)
  · simp only [ge_iff_le, h, if_false]

theorem char_eq_of_toNat {c d : Char} (h : c.toNat = d.toNat) : c = d := by
  apply Char.ext
  apply UInt32.ext
  exact h

theorem toLower_toLower (c : Char) : c.toLower.toLower = c.toLower := by
  apply char_eq_of_toNat
  rw [toLower_toNat c.toLower, toLower_toNat c]
  split_ifs <;> omega

theorem toLower_toUpper (c : Char) : c.toUpper.toLower = c.toLower := by
  apply char_eq_of_toNat
  rw [toLower_toNat c.toUpper, toUpper_toNat c, toLower_toNat c]
  split_ifs <;> omega

theorem map_toLower_of_caseChange : ∀ (a b : List Char), a.length = b.length →
    (∀ p ∈ a.zip b, p.2 = p.1 ∨ p.2 = p.1.toUpper ∨ p.2 = p.1.toLower) →
    b.map Char.toLower = a.map Char.toLower
  | [], [], _, _ => rfl
  | [], _ :: _, h, _ => by simp at h
  | _ :: _, [], h, _ => by simp at h
  | c :: a, d :: b, h, hp => by
    have hcd := hp (c, d) (by simp)
    have ih := map_toLower_of_caseChange a b (by simpa using h) (fun p hp2 => hp p (by
      rw [List.zip_cons_cons]
      exact List.mem_cons_of_mem _ hp2))
    simp only [List.map_cons, ih]
    rcases hcd with h1 | h1 | h1 <;> simp only at h1 <;> rw [h1]
    · rw [toLower_toUpper]
    · rw [toLower_toLower]

theorem ascii_of_caseChange : ∀ (a b : List Char), a.length = b.length →
    (∀ p ∈ a.zip b, p.2 = p.1 ∨ p.2 = p.1.toUpper ∨ p.2 = p.1.toLower) →
    (∀ c ∈ a, c.toNat < 128) → ∀ d ∈ b, d.toNat < 128
  | [], [], _, _, _ => by simp
  | [], _ :: _, h, _, _ => by simp at h
  | _ :: _, [], h, _, _ => by simp at h
  | c :: a, d :: b, h, hp, ha => by
    have hcd := hp (c, d) (by simp)
    have hc := ha c (List.mem_cons_self _ _)
    have ih := ascii_of_caseChange a b (by simpa using h) (fun p hp2 => hp p (by
      rw [List.zip_cons_cons]
      exact List.mem_cons_of_mem _ hp2)) (fun x hx => ha x (List.mem_cons_of_mem _ hx))
    intro x hx
    rcases List.mem_cons.1 hx with rfl | hx
    · rcases hcd with h1 | h1 | h1 <;> simp only at h1 <;> rw [h1]
      · exact hc
      · rw [toUpper_toNat]
        split_ifs <;> omega
      · rw [toLower_toNat]
        split_ifs <;> omega
    · exact ih x hx

theorem toLowerCase_of_caseChange (H : Host) (s t : String) (hs : IsAscii s)
    (hst : CaseChange s t) : H.toLowerCase t = H.toLowerCase s := by
  rw [H.toLowerCase_ascii s hs,
    H.toLowerCase_ascii t (ascii_of_caseChange s.data t.data hst.1 hst.2 hs)]
  unfold asciiLower
  rw [map_toLower_of_caseChange s.data t.data hst.1 hst.2]

theorem processedNotes_congr_item (H : Host) (st : State) (pm : PaginationModel)
    (sm : Option (List SortItem)) (pre post : List FilterItem) (item item2 : FilterItem)
    (h : ∀ n : Note, satisfies H item n = satisfies H item2 n) :
    processedNotes H st ⟨pm, some ⟨some (pre ++ item :: post)⟩, sm⟩ =
      processedNotes H st ⟨pm, some ⟨some (pre ++ item2 :: post)⟩, sm⟩ := by
  simp only [processedNotes, filterStage_eq, filterItems]
  congr 2
  funext n
  rw [satisfiesAll_insert, satisfiesAll_insert, h n]

/-- C9, as the code has it: for a filter item with a non-empty field and a
value that is neither `null` nor `undefined`, and the operator `contains`,
`startsWith` or `endsWith`, `getMany` retains of the notes that pass the other
items exactly those for which the lower-cased text of `note[field]` contains,
starts with, or ends with the lower-cased text of the item value. When the text
of the item value is ASCII, an item value whose text is that text with the case
of some letters changed gives the same list; and of two notes that pass the
other items, the text of `note[field]` being ASCII in the one and the same text
with the case of some letters changed in the other, both are retained or
neither is. Over the two default notes the filter `title contains goal`,
unsorted, page 0 of size 10, returns the note 2 alone with `itemCount` 1. -/
theorem getMany_text_operators (H : Host) (st : State) (pm : PaginationModel)
    (sm : Option (List SortItem)) (pre post : List FilterItem) (field value : JSVal)
    (hfield : truthy field = true) (hvalue : looseEqNull value = false) :
    (∀ n : Note,
      n ∈ processedNotes H st
          ⟨pm, some ⟨some (pre ++ ⟨field, value, JSVal.str "contains"⟩ :: post)⟩, sm⟩ ↔
        n ∈ processedNotes H st ⟨pm, some ⟨some (pre ++ post)⟩, sm⟩ ∧
          (H.toLowerCase (jsToString value)).data <:+:
            (H.toLowerCase (jsToString (readProp H n (toPropertyKey field)))).data) ∧
    (∀ n : Note,
      n ∈ processedNotes H st
          ⟨pm, some ⟨some (pre ++ ⟨field, value, JSVal.str "startsWith"⟩ :: post)⟩, sm⟩ ↔
        n ∈ processedNotes H st ⟨pm, some ⟨some (pre ++ post)⟩, sm⟩ ∧
          (H.toLowerCase (jsToString value)).data <+:
            (H.toLowerCase (jsToString (readProp H n (toPropertyKey field)))).data) ∧
    (∀ n : Note,
      n ∈ processedNotes H st
          ⟨pm, some ⟨some (pre ++ ⟨field, value, JSVal.str "endsWith"⟩ :: post)⟩, sm⟩ ↔
        n ∈ processedNotes H st ⟨pm, some ⟨some (pre ++ post)⟩, sm⟩ ∧
          (H.toLowerCase (jsToString value)).data <:+
            (H.toLowerCase (jsToString (readProp H n (toPropertyKey field)))).data) ∧
    (∀ operator ∈ [JSVal.str "contains", JSVal.str "startsWith", JSVal.str "endsWith"],
      ∀ value2 : JSVal, looseEqNull value2 = false →
        IsAscii (jsToString value) → CaseChange (jsToString value) (jsToString value2) →
          processedNotes H st ⟨pm, some ⟨some (pre ++ ⟨field, value2, operator⟩ :: post)⟩, sm⟩ =
            processedNotes H st ⟨pm, some ⟨some (pre ++ ⟨field, value, operator⟩ :: post)⟩, sm⟩) ∧
    (∀ operator ∈ [JSVal.str "contains", JSVal.str "startsWith", JSVal.str "endsWith"],
      ∀ n n2 : Note,
        IsAscii (jsToString (readProp H n (toPropertyKey field))) →
        CaseChange (jsToString (readProp H n (toPropertyKey field)))
            (jsToString (readProp H n2 (toPropertyKey field))) →
        n ∈ processedNotes H st ⟨pm, some ⟨some (pre ++ post)⟩, sm⟩ →
        n2 ∈ processedNotes H st ⟨pm, some ⟨some (pre ++ post)⟩, sm⟩ →
          (n ∈ processedNotes H st
              ⟨pm, some ⟨some (pre ++ ⟨field, value, operator⟩ :: post)⟩, sm⟩ ↔
            n2 ∈ processedNotes H st
              ⟨pm, some ⟨some (pre ++ ⟨field, value, operator⟩ :: post)⟩, sm⟩)) ∧
    getMany H (initialState none)
        ⟨⟨0, 10⟩, some ⟨some [⟨JSVal.str "title", JSVal.str "goal", JSVal.str "contains"⟩]⟩,
          none⟩ =
      (⟨[[("id", JSVal.num 2), ("title", JSVal.str "Personal Goal"),
          ("text", JSVal.str "Finish reading the book.")]], 1⟩, initialState none) := by
  refine ⟨?_, ?_, ?_, ?_, ?_, getMany_title_contains_goal H⟩
  · intro n
    rw [mem_processedNotes_insert H st pm sm pre post field value _ hfield hvalue,
      filterCallback_contains]
    simp [includes]
  · intro n
    rw [mem_processedNotes_insert H st pm sm pre post field value _ hfield hvalue,
      filterCallback_startsWith]
    simp [startsWith]
  · intro n
    rw [mem_processedNotes_insert H st pm sm pre post field value _ hfield hvalue,
      filterCallback_endsWith]
    simp [endsWith]
  · intro operator hop value2 hvalue2 hascii hcase
    have hlow := toLowerCase_of_caseChange H _ _ hascii hcase
    apply processedNotes_congr_item
    intro n
    rw [satisfies_applied H field value2 operator n hfield hvalue2,
      satisfies_applied H field value operator n hfield hvalue]
    simp only [List.mem_cons, List.mem_singleton, List.not_mem_nil, or_false] at hop
    rcases hop with rfl | rfl | rfl
    · rw [filterCallback_contains, filterCallback_contains, hlow]
    · rw [filterCallback_startsWith, filterCallback_startsWith, hlow]
    · rw [filterCallback_endsWith, filterCallback_endsWith, hlow]
  · intro operator hop n n2 hascii hcase hn hn2
    have hlow := toLowerCase_of_caseChange H _ _ hascii hcase
    rw [mem_processedNotes_insert H st pm sm pre post field value _ hfield hvalue,
      mem_processedNotes_insert H st pm sm pre post field value _ hfield hvalue]
    simp only [List.mem_cons, List.mem_singleton, List.not_mem_nil, or_false] at hop
    rcases hop with rfl | rfl | rfl
    · rw [filterCallback_contains, filterCallback_contains, hlow]
      simp [hn, hn2]
    · rw [filterCallback_startsWith, filterCallback_startsWith, hlow]
      simp [hn, hn2]
    · rw [filterCallback_endsWith, filterCallback_endsWith, hlow]
      simp [hn, hn2]

/-- Over the two default notes, `title contains GOAL` gives the list that
`title contains goal` gives, `GOAL` being `goal` with the case of its letters
changed. -/
theorem getMany_text_operators_witness :
    truthy (JSVal.str "title") = true ∧ looseEqNull (JSVal.str "goal") = false ∧
      looseEqNull (JSVal.str "GOAL") = false ∧
      IsAscii (jsToString (JSVal.str "goal")) ∧
      CaseChange (jsToString (JSVal.str "goal")) (jsToString (JSVal.str "GOAL")) ∧
      processedNotes referenceHost (initialState none)
          ⟨⟨0, 10⟩,
            some ⟨some ([] ++ ⟨JSVal.str "title", JSVal.str "GOAL", JSVal.str "contains"⟩ :: [])⟩,
            none⟩ =
        processedNotes referenceHost (initialState none)
          ⟨⟨0, 10⟩,
            some ⟨some ([] ++ ⟨JSVal.str "title", JSVal.str "goal", JSVal.str "contains"⟩ :: [])⟩,
            none⟩ :=
  ⟨by decide, by decide, by decide, by decide, by decide,
    (getMany_text_operators referenceHost (initialState none) ⟨0, 10⟩ none [] []
      (JSVal.str "title") (JSVal.str "goal") (by decide) (by decide)).2.2.2.1
      (JSVal.str "contains") (by decide) (JSVal.str "GOAL") (by decide) (by decide)
      (by decide)⟩

/-- C9 as stated fails for an item that `getMany` skips: with the value `null`
the item `title contains null` retains both default notes, although the
lower-cased title of neither contains the lower-cased text `null` of the value.
It also fails for a change of case outside ASCII: the note whose title is
`straße` is retained for the value `ß` and not for its upper-case form `SS`,
whose lower-case form `ss` the title does not contain. -/
theorem getMany_text_operators_counterexample :
    (getMany referenceHost (initialState none)
        ⟨⟨0, 10⟩, some ⟨some [⟨JSVal.str "title", JSVal.null, JSVal.str "contains"⟩]⟩,
          none⟩).1.items = defaultNotes ∧
      (∀ n ∈ defaultNotes,
        ¬ (referenceHost.toLowerCase (jsToString JSVal.null)).data <:+:
          (referenceHost.toLowerCase (jsToString (readProp referenceHost n "title"))).data) ∧
      (getMany referenceHost ⟨[[("id", JSVal.num 1), ("title", JSVal.str "straße")]], none⟩
        ⟨⟨0, 10⟩, some ⟨some [⟨JSVal.str "title", JSVal.str "ß", JSVal.str "contains"⟩]⟩,
          none⟩).1.items = [[("id", JSVal.num 1), ("title", JSVal.str "straße")]] ∧
      (getMany referenceHost ⟨[[("id", JSVal.num 1), ("title", JSVal.str "straße")]], none⟩
        ⟨⟨0, 10⟩, some ⟨some [⟨JSVal.str "title", JSVal.str "SS", JSVal.str "contains"⟩]⟩,
          none⟩).1.items = [] := by
  decide

/-- C10, for the filter items that `getMany` applies: for an item with a
non-empty field, the operator `equals` and a value that is not `null`,
`undefined` or `NaN`, `getMany` retains of the notes that pass the other items
exactly those whose stored field value is the item value, the same in type
and in value. A note whose field holds the number 1 is not retained for the
string `1`, nor a note whose field holds the string `1` for the number 1. -/
theorem getMany_equals (H : Host) (st : State) (pm : PaginationModel)
    (sm : Option (List SortItem)) (pre post : List FilterItem) (field value : JSVal)
    (hfield : truthy field = true) (hvalue : looseEqNull value = false)
    (hnan : value ≠ JSVal.nan) :
    (∀ n : Note,
      n ∈ processedNotes H st
          ⟨pm, some ⟨some (pre ++ ⟨field, value, JSVal.str "equals"⟩ :: post)⟩, sm⟩ ↔
        n ∈ processedNotes H st ⟨pm, some ⟨some (pre ++ post)⟩, sm⟩ ∧
          getProp n (toPropertyKey field) = value) ∧
    processedNotes H ⟨[[("id", JSVal.num 1)]], none⟩
        ⟨pm, some ⟨some [⟨JSVal.str "id", JSVal.str "1", JSVal.str "equals"⟩]⟩, sm⟩ = [] ∧
    processedNotes H ⟨[[("id", JSVal.str "1")]], none⟩
        ⟨pm, some ⟨some [⟨JSVal.str "id", JSVal.num 1, JSVal.str "equals"⟩]⟩, sm⟩ = [] := by
  have hstrict : ∀ v : JSVal, strictEq v value = true ↔ v = value := by
    intro v
    cases v <;> cases value <;> simp [strictEq] at hnan ⊢
  have hempty : ∀ (l : List Note) (it : FilterItem),
      (∀ n ∈ l, satisfies H it n = false) →
        processedNotes H ⟨l, none⟩ ⟨pm, some ⟨some [it]⟩, sm⟩ = [] := by
    intro l it hall
    apply List.eq_nil_iff_forall_not_mem.2
    intro n hn
    rw [mem_processedNotes] at hn
    simp only [filterItems, satisfiesAll, List.all_cons, List.all_nil, Bool.and_true] at hn
    rw [hall n hn.1] at hn
    exact absurd hn.2 (by decide)
  refine ⟨?_, ?_, ?_⟩
  · intro n
    rw [mem_processedNotes_insert H st pm sm pre post field value _ hfield hvalue,
      filterCallback_equals]
    have hcb : ((inheritedText H n (toPropertyKey field)).isNone &&
        strictEq (readProp H n (toPropertyKey field)) value) = true ↔
        getProp n (toPropertyKey field) = value := by
      by_cases hkey : hasKey n (toPropertyKey field)
      · rw [inheritedText_of_hasKey H hkey, readProp_of_hasKey H hkey]
        simp [hstrict]
      · have hundef := getProp_of_not_hasKey n _ hkey
        have hne : ¬ JSVal.undefined = value := by
          intro h
          rw [← h] at hvalue
          exact absurd hvalue (by decide)
        rw [hundef]
        cases hinh : H.inherited (toPropertyKey field) with
        | none =>
          have hread : readProp H n (toPropertyKey field) = JSVal.undefined := by
            simp [readProp, inheritedText, hkey, hinh, hundef]
          have hno : strictEq JSVal.undefined value = false := by
            cases hs : strictEq JSVal.undefined value
            · rfl
            · exact absurd ((hstrict _).1 hs) hne
          rw [hread, hno]
          simp [hne]
        | some text =>
          simp [inheritedText, hkey, hinh, hne]
    rw [hcb]
  · apply hempty
    intro n hn
    rw [List.mem_singleton] at hn
    subst hn
    rw [satisfies_applied H _ _ _ _ (by decide) (by decide), filterCallback_equals,
      readProp_of_hasKey H (by decide)]
    simp [getProp, toPropertyKey, jsToString, strictEq]
  · apply hempty
    intro n hn
    rw [List.mem_singleton] at hn
    subst hn
    rw [satisfies_applied H _ _ _ _ (by decide) (by decide), filterCallback_equals,
      readProp_of_hasKey H (by decide)]
    simp [getProp, toPropertyKey, jsToString, strictEq]

/-- Over the two default notes, `id equals 2` retains the note whose id is 2. -/
theorem getMany_equals_witness :
    truthy (JSVal.str "id") = true ∧ looseEqNull (JSVal.num 2) = false ∧
      JSVal.num 2 ≠ JSVal.nan ∧
      ([("id", JSVal.num 2), ("title", JSVal.str "Personal Goal"),
          ("text", JSVal.str "Finish reading the book.")] ∈
        processedNotes referenceHost (initialState none)
          ⟨⟨0, 10⟩,
            some ⟨some ([] ++ ⟨JSVal.str "id", JSVal.num 2, JSVal.str "equals"⟩ :: [])⟩, none⟩ ↔
        [("id", JSVal.num 2), ("title", JSVal.str "Personal Goal"),
          ("text", JSVal.str "Finish reading the book.")] ∈
          processedNotes referenceHost (initialState none) ⟨⟨0, 10⟩, some ⟨some ([] ++ [])⟩, none⟩ ∧
        getProp [("id", JSVal.num 2), ("title", JSVal.str "Personal Goal"),
          ("text", JSVal.str "Finish reading the book.")] (toPropertyKey (JSVal.str "id")) =
            JSVal.num 2) :=
  ⟨by decide, by decide, by decide,
    (getMany_equals referenceHost (initialState none) ⟨0, 10⟩ none [] []
      (JSVal.str "id") (JSVal.num 2) (by decide) (by decide) (by decide)).1 _⟩

/-- C10 as stated fails for an item that `getMany` skips, and for `NaN`: the
item `id equals null` retains the note whose id is 1, which is not `null`; and
the item `n equals NaN` does not retain the note whose `n` is `NaN`, the very
value of the item. -/
theorem getMany_equals_counterexample :
    (getMany referenceHost ⟨[[("id", JSVal.num 1)]], none⟩
        ⟨⟨0, 10⟩, some ⟨some [⟨JSVal.str "id", JSVal.null, JSVal.str "equals"⟩]⟩,
          none⟩).1.items = [[("id", JSVal.num 1)]] ∧
      getProp [("id", JSVal.num 1)] "id" ≠ JSVal.null ∧
      (getMany referenceHost ⟨[[("n", JSVal.nan)]], none⟩
        ⟨⟨0, 10⟩, some ⟨some [⟨JSVal.str "n", JSVal.nan, JSVal.str "equals"⟩]⟩,
          none⟩).1.items = [] ∧
      getProp [("n", JSVal.nan)] "n" = JSVal.nan := by
  decide

/-! ## Items that filter nothing (claim C11) -/

theorem satisfies_of_noOp (H : Host) (item : FilterItem) (h : NoOpItem item) (n : Note) :
    satisfies H item n = true := by
  unfold satisfies
  by_cases hskip : (!truthy item.field || looseEqNull item.value) = true
  · rw [if_pos hskip]
  · rw [if_neg hskip]
    rcases h with h | h | h | h | h
    · rw [h] at hskip
      simp [truthy] at hskip
    · rw [h] at hskip
      simp [truthy] at hskip
    · rw [h] at hskip
      simp [looseEqNull] at hskip
    · rw [h] at hskip
      simp [looseEqNull] at hskip
    · simp only [recognisedOperators, List.mem_cons, List.mem_singleton, List.not_mem_nil,
        or_false, not_or] at h
      obtain ⟨h1, h2, h3, h4, h5, h6⟩ := h
      simp [filterCallback, h1, h2, h3, h4, h5, h6]

theorem processedNotes_remove_item (H : Host) (st : State) (pm pm2 : PaginationModel)
    (sm : Option (List SortItem)) (pre post : List FilterItem) (item : FilterItem)
    (h : ∀ n : Note, satisfies H item n = true) :
    processedNotes H st ⟨pm, some ⟨some (pre ++ item :: post)⟩, sm⟩ =
      processedNotes H st ⟨pm2, some ⟨some (pre ++ post)⟩, sm⟩ := by
  simp only [processedNotes, filterStage_eq, filterItems]
  congr 2
  funext n
  rw [satisfiesAll_insert, h n, Bool.and_true]

/-- C11: a filter item with a missing or empty field, with a `null` or absent
value, or with an operator that is not a recognised one is a no-op: whatever
the store, the other items, the sort model and the pagination model, `getMany`
with the item added at any place of `filterModel.items` returns what it returns
without it, the same items and the same `itemCount`. -/
theorem getMany_noOp_item (H : Host) (st : State) (pm : PaginationModel)
    (sm : Option (List SortItem)) (pre post : List FilterItem) (item : FilterItem)
    (h : NoOpItem item) :
    getMany H st ⟨pm, some ⟨some (pre ++ item :: post)⟩, sm⟩ =
        getMany H st ⟨pm, some ⟨some (pre ++ post)⟩, sm⟩ ∧
      (getMany H st ⟨pm, some ⟨some (pre ++ item :: post)⟩, sm⟩).1.items =
        (getMany H st ⟨pm, some ⟨some (pre ++ post)⟩, sm⟩).1.items ∧
      (getMany H st ⟨pm, some ⟨some (pre ++ item :: post)⟩, sm⟩).1.itemCount =
        (getMany H st ⟨pm, some ⟨some (pre ++ post)⟩, sm⟩).1.itemCount := by
  have hp := processedNotes_remove_item H st pm pm sm pre post item (satisfies_of_noOp H item h)
  have hg : getMany H st ⟨pm, some ⟨some (pre ++ item :: post)⟩, sm⟩ =
      getMany H st ⟨pm, some ⟨some (pre ++ post)⟩, sm⟩ := by
    simp only [getMany, hp]
  exact ⟨hg, by rw [hg], by rw [hg]⟩

/-- Over the two default notes, an item with the operator `like`, which is not a
recognised one, placed before `title contains goal` changes nothing. -/
theorem getMany_noOp_item_witness :
    NoOpItem ⟨JSVal.str "title", JSVal.str "x", JSVal.str "like"⟩ ∧
      getMany referenceHost (initialState none)
          ⟨⟨0, 10⟩,
            some ⟨some ([] ++ ⟨JSVal.str "title", JSVal.str "x", JSVal.str "like"⟩ ::
              [⟨JSVal.str "title", JSVal.str "goal", JSVal.str "contains"⟩])⟩, none⟩ =
        getMany referenceHost (initialState none)
          ⟨⟨0, 10⟩,
            some ⟨some ([] ++ [⟨JSVal.str "title", JSVal.str "goal", JSVal.str "contains"⟩])⟩,
            none⟩ :=
  ⟨by decide,
    (getMany_noOp_item referenceHost (initialState none) ⟨0, 10⟩ none []
      [⟨JSVal.str "title", JSVal.str "goal", JSVal.str "contains"⟩]
      ⟨JSVal.str "title", JSVal.str "x", JSVal.str "like"⟩ (by decide)).1⟩

/-! ## getOne, updateOne and deleteOne (claims C12 to C18) -/

theorem updateNotes_snd (H : Host) (noteId : JSVal) (data : Note) :
    ∀ (l : List Note) (updated : Option Note),
      (updateNotes H noteId data l updated).2 =
        match l.reverse.find? (matchesId H noteId) with
        | some n => some (spread n data)
        | none => updated
  | [], _ => rfl
  | n :: rest, updated => by
    have ih1 := updateNotes_snd H noteId data rest (some (spread n data))
    have ih2 := updateNotes_snd H noteId data rest updated
    rw [List.reverse_cons, List.find?_append]
    unfold updateNotes
    by_cases h : strictEq (getProp n "id") (toNumberVal H noteId) = true
    · have hm : matchesId H noteId n = true := h
      simp only [if_pos h]
      rw [ih1]
      cases hr : rest.reverse.find? (matchesId H noteId) with
      | some m => simp
      | none => simp [List.find?, hm]
    · have hm : matchesId H noteId n = false := by
        simpa [matchesId] using h
      simp only [if_neg h]
      rw [ih2]
      cases hr : rest.reverse.find? (matchesId H noteId) with
      | some m => simp
      | none => simp [List.find?, hm]

theorem updateOne_fst (H : Host) (st : State) (noteId : JSVal) (data : Note) :
    (updateOne H st noteId data).1 =
      match st.notesStore.reverse.find? (matchesId H noteId) with
      | some n => Except.ok (spread n data)
      | none => Except.error "Note not found" := by
  unfold updateOne
  simp only [updateNotes_snd]
  cases st.notesStore.reverse.find? (matchesId H noteId) <;> rfl

theorem updateOne_snd_of_none (H : Host) (st : State) (noteId : JSVal) (data : Note)
    (h : ∀ n ∈ st.notesStore, matchesId H noteId n = false) :
    (updateOne H st noteId data).2 = st := by
  have hfind : st.notesStore.reverse.find? (matchesId H noteId) = none := by
    rw [List.find?_eq_none]
    intro x hx
    rw [h x (List.mem_reverse.1 hx)]
    decide
  have hmap : (updateNotes H noteId data st.notesStore none).1 = st.notesStore := by
    rw [updateNotes_fst]
    conv_rhs => rw [← List.map_id st.notesStore]
    apply List.map_congr_left
    intro n hn
    have := h n hn
    unfold matchesId at this
    simp [this]
  unfold updateOne
  simp only [updateNotes_snd, hfind, hmap]

theorem matchesId_num (H : Host) (k : Int) (n : Note) :
    matchesId H (JSVal.num k) n = true ↔ getProp n "id" = JSVal.num k := by
  unfold matchesId toNumberVal
  simp only [toNumber, ofNumber]
  cases getProp n "id" <;> simp [strictEq]

theorem matchesId_num_false (H : Host) (k : Int) (n : Note) :
    matchesId H (JSVal.num k) n = false ↔ getProp n "id" ≠ JSVal.num k := by
  have h := matchesId_num H k n
  constructor
  · intro hf heq
    rw [h.2 heq] at hf
    exact absurd hf (by decide)
  · intro hne
    cases hm : matchesId H (JSVal.num k) n
    · rfl
    · exact absurd (h.1 hm) hne

theorem updateOne_error_iff (H : Host) (st : State) (noteId : JSVal) (data : Note) :
    (updateOne H st noteId data).1 = Except.error "Note not found" ↔
      ∀ n ∈ st.notesStore, matchesId H noteId n = false := by
  rw [updateOne_fst]
  cases hr : st.notesStore.reverse.find? (matchesId H noteId) with
  | some m =>
    simp only [false_iff, reduceCtorEq]
    intro hall
    have hm := List.find?_some hr
    have hmem : m ∈ st.notesStore := List.mem_reverse.1 (List.mem_of_find?_eq_some hr)
    rw [hall m hmem] at hm
    exact absurd hm (by decide)
  | none =>
    simp only [true_iff]
    intro n hn
    rw [List.find?_eq_none] at hr
    simpa using hr n (List.mem_reverse.2 hn)

/-- C15: `updateOne(id, data)` fails with `Note not found` exactly when no note
of the store has the id `Number(id)` (for an integer `id`: exactly when no note
has the id `id`), and it fails in no other way. When it fails, the state after
the call is the state before it: the store holds the same notes in the same
order and `localStorage` is not written. -/
theorem updateOne_not_found (H : Host) (st : State) (noteId : JSVal) (data : Note) :
    ((updateOne H st noteId data).1 = Except.error "Note not found" ↔
        ∀ n ∈ st.notesStore, matchesId H noteId n = false) ∧
      (∀ k : Int, (updateOne H st (JSVal.num k) data).1 = Except.error "Note not found" ↔
        ∀ n ∈ st.notesStore, getProp n "id" ≠ JSVal.num k) ∧
      ((updateOne H st noteId data).1 = Except.error "Note not found" →
        (updateOne H st noteId data).2 = st) ∧
      (∀ e : String, (updateOne H st noteId data).1 = Except.error e → e = "Note not found") := by
  refine ⟨updateOne_error_iff H st noteId data, ?_,
    fun h => updateOne_snd_of_none H st noteId data ((updateOne_error_iff H st noteId data).1 h),
    ?_⟩
  · intro k
    rw [updateOne_error_iff]
    simp only [matchesId_num_false]
  · intro e he
    rw [updateOne_fst] at he
    cases hr : st.notesStore.reverse.find? (matchesId H noteId) with
    | some m =>
      rw [hr] at he
      cases he
    | none =>
      rw [hr] at he
      cases he
      rfl

theorem getOne_fst (H : Host) (st : State) (noteId : JSVal) :
    (getOne H st noteId).1 =
      match st.notesStore.find? (matchesId H noteId) with
      | some n => Except.ok n
      | none => Except.error "Note not found" := by
  unfold getOne
  have : (fun n => strictEq (getProp n "id") (toNumberVal H noteId)) = matchesId H noteId := rfl
  rw [this]
  cases st.notesStore.find? (matchesId H noteId) <;> rfl

theorem getOne_snd (H : Host) (st : State) (noteId : JSVal) : (getOne H st noteId).2 = st := by
  unfold getOne
  split <;> rfl

theorem getOne_error_iff (H : Host) (st : State) (noteId : JSVal) :
    (getOne H st noteId).1 = Except.error "Note not found" ↔
      ∀ n ∈ st.notesStore, matchesId H noteId n = false := by
  rw [getOne_fst]
  cases hr : st.notesStore.find? (matchesId H noteId) with
  | some m =>
    simp only [false_iff, reduceCtorEq]
    intro hall
    have hm := List.find?_some hr
    rw [hall m (List.mem_of_find?_eq_some hr)] at hm
    exact absurd hm (by decide)
  | none =>
    simp only [true_iff]
    intro n hn
    rw [List.find?_eq_none] at hr
    simpa using hr n hn

theorem getOne_first (H : Host) (st : State) (noteId : JSVal) (pre post : List Note) (n : Note)
    (hstore : st.notesStore = pre ++ n :: post) (hn : matchesId H noteId n = true)
    (hpre : ∀ m ∈ pre, matchesId H noteId m = false) :
    (getOne H st noteId).1 = Except.ok n := by
  have hfind : st.notesStore.find? (matchesId H noteId) = some n := by
    rw [List.find?_eq_some]
    exact ⟨hn, pre, post, hstore, fun m hm => by simp [hpre m hm]⟩
  rw [getOne_fst, hfind]

/-- C16: `getOne(id)` leaves the state as it is; it returns the first note of
the store whose id is `Number(id)` when there is one, and fails with
`Note not found` exactly when no note of the store has that id (for an integer
`id`: exactly when no note has the id `id`). -/
theorem getOne_spec (H : Host) (st : State) (noteId : JSVal) :
    (getOne H st noteId).2 = st ∧
      (∀ (pre post : List Note) (n : Note), st.notesStore = pre ++ n :: post →
        matchesId H noteId n = true → (∀ m ∈ pre, matchesId H noteId m = false) →
          (getOne H st noteId).1 = Except.ok n) ∧
      ((∃ n ∈ st.notesStore, matchesId H noteId n = true) →
        ∃ n ∈ st.notesStore, matchesId H noteId n = true ∧
          (getOne H st noteId).1 = Except.ok n) ∧
      ((getOne H st noteId).1 = Except.error "Note not found" ↔
        ∀ n ∈ st.notesStore, matchesId H noteId n = false) ∧
      (∀ k : Int, (getOne H st (JSVal.num k)).1 = Except.error "Note not found" ↔
        ∀ n ∈ st.notesStore, getProp n "id" ≠ JSVal.num k) := by
  refine ⟨getOne_snd H st noteId, getOne_first H st noteId, ?_, getOne_error_iff H st noteId, ?_⟩
  · rintro ⟨n, hn, hmatch⟩
    cases hr : st.notesStore.find? (matchesId H noteId) with
    | some m =>
      exact ⟨m, List.mem_of_find?_eq_some hr, List.find?_some hr, by rw [getOne_fst, hr]⟩
    | none =>
      rw [List.find?_eq_none] at hr
      exact absurd hmatch (hr n hn)
  · intro k
    rw [getOne_error_iff]
    simp only [matchesId_num_false]

theorem deleteOne_notesStore (H : Host) (st : State) (noteId : JSVal) :
    (deleteOne H st noteId).notesStore =
      st.notesStore.filter (fun n => !matchesId H noteId n) := rfl

/-- C17: `deleteOne(id)` returns a state for every state and id: the store
after it is the store without the notes whose id is `Number(id)` (for an
integer `id`: without the notes whose id is `id`), the other notes unchanged
and in their order; when no note has that id the store is the one before the
call, and `deleteOne(id)` run twice leaves the state that one run leaves. -/
theorem deleteOne_spec (H : Host) (st : State) (noteId : JSVal) :
    (deleteOne H st noteId).notesStore =
        st.notesStore.filter (fun n => !matchesId H noteId n) ∧
      (∀ n : Note, n ∈ (deleteOne H st noteId).notesStore ↔
        n ∈ st.notesStore ∧ matchesId H noteId n = false) ∧
      (∀ (k : Int) (n : Note), n ∈ (deleteOne H st (JSVal.num k)).notesStore ↔
        n ∈ st.notesStore ∧ getProp n "id" ≠ JSVal.num k) ∧
      (deleteOne H st noteId).notesStore.Sublist st.notesStore ∧
      ((∀ n ∈ st.notesStore, matchesId H noteId n = false) →
        (deleteOne H st noteId).notesStore = st.notesStore) ∧
      deleteOne H (deleteOne H st noteId) noteId = deleteOne H st noteId := by
  refine ⟨rfl, ?_, ?_, ?_, ?_, ?_⟩
  · intro n
    rw [deleteOne_notesStore, List.mem_filter]
    simp
  · intro k n
    rw [deleteOne_notesStore, List.mem_filter, ← matchesId_num_false H k n]
    simp
  · rw [deleteOne_notesStore]
    exact List.filter_sublist _
  · intro h
    rw [deleteOne_notesStore, List.filter_eq_self]
    intro n hn
    simp [h n hn]
  · have hstore : (deleteOne H (deleteOne H st noteId) noteId).notesStore =
        (deleteOne H st noteId).notesStore := by
      rw [deleteOne_notesStore, deleteOne_notesStore, List.filter_filter]
      congr 1
      funext n
      simp
    unfold deleteOne at hstore ⊢
    simp only [saveNotes] at hstore ⊢
    rw [hstore]

/-- C18: after `deleteOne(id)`, whatever the store and the id, `getOne(id)`
fails with `Note not found`. -/
theorem getOne_after_deleteOne (H : Host) (st : State) (noteId : JSVal) :
    (getOne H (deleteOne H st noteId) noteId).1 = Except.error "Note not found" := by
  have hnone : (deleteOne H st noteId).notesStore.find?
      (fun n => strictEq (getProp n "id") (toNumberVal H noteId)) = none := by
    rw [List.find?_eq_none]
    intro n hn
    rw [deleteOne_notesStore, List.mem_filter] at hn
    have := hn.2
    simpa [matchesId] using this
  unfold getOne
  rw [hnone]

theorem getProp_spread_of_hasKey (key : String) :
    ∀ (src target : Note), WellFormed src → hasKey src key →
      getProp (spread target src) key = getProp src key
  | [], _, _, h => by simp [hasKey] at h
  | (k, v) :: rest, target, hwf, h => by
    have hwf2 : k ∉ rest.map Prod.fst ∧ WellFormed rest := by
      unfold WellFormed at hwf ⊢
      simpa using hwf
    by_cases hk : k = key
    · subst hk
      have hnot : ¬ hasKey rest k := hwf2.1
      have h1 := getProp_spread_of_not_hasKey k rest (setProp target k v) hnot
      unfold spread at h1 ⊢
      rw [List.foldl_cons, h1, getProp_setProp_same]
      simp [getProp]
    · have hrest : hasKey rest key := by
        unfold hasKey at h ⊢
        simp only [List.map_cons, List.mem_cons] at h
        rcases h with h | h
        · exact absurd h.symm hk
        · exact h
      have ih := getProp_spread_of_hasKey key rest (setProp target k v) hwf2.2 hrest
      unfold spread at ih ⊢
      rw [List.foldl_cons, ih]
      simp [getProp, hk]

theorem strictEq_eq {a b : JSVal} (h : strictEq a b = true) : a = b := by
  cases a <;> cases b <;> simp_all [strictEq]

theorem matchesId_spread (H : Host) (noteId : JSVal) (n data : Note) (hdata : ¬ hasKey data "id") :
    matchesId H noteId (spread n data) = matchesId H noteId n := by
  unfold matchesId
  rw [getProp_spread_of_not_hasKey "id" data n hdata]

theorem updateOne_ok (H : Host) (st : State) (noteId : JSVal) (data r : Note)
    (h : (updateOne H st noteId data).1 = Except.ok r) :
    ∃ old ∈ st.notesStore, matchesId H noteId old = true ∧ r = spread old data := by
  rw [updateOne_fst] at h
  cases hr : st.notesStore.reverse.find? (matchesId H noteId) with
  | some m =>
    rw [hr] at h
    cases h
    exact ⟨m, List.mem_reverse.1 (List.mem_of_find?_eq_some hr), List.find?_some hr, rfl⟩
  | none =>
    rw [hr] at h
    cases h

theorem updateOne_of_match (H : Host) (st : State) (noteId : JSVal) (data : Note)
    (h : ∃ n ∈ st.notesStore, matchesId H noteId n = true) :
    ∃ old ∈ st.notesStore, matchesId H noteId old = true ∧
      (updateOne H st noteId data).1 = Except.ok (spread old data) := by
  obtain ⟨n, hn, hmatch⟩ := h
  cases hr : st.notesStore.reverse.find? (matchesId H noteId) with
  | some m =>
    refine ⟨m, List.mem_reverse.1 (List.mem_of_find?_eq_some hr), List.find?_some hr, ?_⟩
    rw [updateOne_fst, hr]
  | none =>
    rw [List.find?_eq_none] at hr
    exact absurd hmatch (hr n (List.mem_reverse.2 hn))

/-- C12, as the code has it: when the ids of the store are integers below
`2 ^ 53` and `data` has no `id` property, after `createOne(data)` has returned
the note `r`, `getOne(r.id)` succeeds and returns `r`, the same id and the same
value for every field, and leaves the state as `createOne` left it. -/
theorem getOne_after_createOne (H : Host) (st : State) (data : Note)
    (hdata : ¬ hasKey data "id") (hint : IntegerIds st.notesStore)
    (hbelow : IdsBelowLimit st.notesStore) :
    getOne H (createOne H st data).2 (getProp (createOne H st data).1 "id") =
      (Except.ok (createOne H st data).1, (createOne H st data).2) := by
  obtain ⟨g, hg, -, hall, -⟩ := nextId_spec H st.notesStore hint hbelow
  have hid : getProp (createOne H st data).1 "id" = JSVal.num (g + 1) := by
    rw [createOne_id_eq H st data hdata, hg]
  have hstore : (createOne H st data).2.notesStore =
      st.notesStore ++ (createOne H st data).1 :: [] := by
    simp [createOne, saveNotes]
  have hfst := getOne_first H (createOne H st data).2 (JSVal.num (g + 1)) st.notesStore []
    (createOne H st data).1 hstore ((matchesId_num H _ _).2 hid) (by
      intro m hm
      rw [matchesId_num_false]
      intro heq
      have := hall m hm (g + 1) heq
      omega)
  rw [hid]
  exact Prod.ext hfst (getOne_snd H _ _)

/-- After a note is created next to the two default notes, `getOne` of its id
returns it. -/
theorem getOne_after_createOne_witness :
    ¬ hasKey [("title", JSVal.str "New note")] "id" ∧
      (getOne referenceHost
        (createOne referenceHost (initialState none) [("title", JSVal.str "New note")]).2
        (getProp (createOne referenceHost (initialState none)
          [("title", JSVal.str "New note")]).1 "id")).1 =
      Except.ok (createOne referenceHost (initialState none)
        [("title", JSVal.str "New note")]).1 :=
  ⟨by decide,
    congrArg Prod.fst (getOne_after_createOne referenceHost (initialState none)
      [("title", JSVal.str "New note")] (by decide) integerIds_defaultNotes
      idsBelowLimit_defaultNotes)⟩

/-- C12 as stated fails for a `data` that has an `id` property. With the id 1,
which the first default note has, `createOne` returns a note `r` with the id 1
and `getOne(r.id)` returns the first default note, not `r`; with the id `a`,
a string, `getOne(r.id)` fails, since `Number(r.id)` is `NaN`. It also fails on
a store whose only note has the id `2 ^ 53`: `createOne` of a title alone
returns a note `r` with the id `2 ^ 53`, and `getOne(r.id)` returns the older
note, which has no title. -/
theorem getOne_after_createOne_counterexample :
    (getOne referenceHost
        (createOne referenceHost (initialState none)
          [("id", JSVal.num 1), ("title", JSVal.str "x")]).2
        (getProp (createOne referenceHost (initialState none)
          [("id", JSVal.num 1), ("title", JSVal.str "x")]).1 "id")).1 =
      Except.ok [("id", JSVal.num 1), ("title", JSVal.str "Grocery List Item"),
        ("text", JSVal.str "Buy more coffee.")] ∧
    (createOne referenceHost (initialState none)
        [("id", JSVal.num 1), ("title", JSVal.str "x")]).1 ≠
      [("id", JSVal.num 1), ("title", JSVal.str "Grocery List Item"),
        ("text", JSVal.str "Buy more coffee.")] ∧
    (getOne referenceHost
        (createOne referenceHost (initialState none) [("id", JSVal.str "a")]).2
        (getProp (createOne referenceHost (initialState none)
          [("id", JSVal.str "a")]).1 "id")).1 =
      Except.error "Note not found" ∧
    (createOne referenceHost ⟨[[("id", JSVal.num 9007199254740992)]], none⟩
        [("title", JSVal.str "x")]).1 =
      [("id", JSVal.num 9007199254740992), ("title", JSVal.str "x")] ∧
    (getOne referenceHost
        (createOne referenceHost ⟨[[("id", JSVal.num 9007199254740992)]], none⟩
          [("title", JSVal.str "x")]).2
        (getProp (createOne referenceHost ⟨[[("id", JSVal.num 9007199254740992)]], none⟩
          [("title", JSVal.str "x")]).1 "id")).1 =
      Except.ok [("id", JSVal.num 9007199254740992)] :=
  ⟨rfl, by decide, rfl, by decide, rfl⟩

theorem getOne_after_update_aux (H : Host) (st : State) (noteId : JSVal) (data old : Note)
    (hdata : ¬ hasKey data "id") (huniq : UniqueIds st.notesStore)
    (hold : old ∈ st.notesStore) (hmatch : matchesId H noteId old = true) :
    (getOne H (updateOne H st noteId data).2 noteId).1 = Except.ok (spread old data) := by
  obtain ⟨pre, post, hsplit⟩ := List.append_of_mem hold
  have hpre : ∀ m ∈ pre, matchesId H noteId m = false := by
    intro m hm
    cases hmm : matchesId H noteId m
    · rfl
    · exfalso
      have h1 : getProp m "id" = getProp old "id" := by
        rw [strictEq_eq hmm, strictEq_eq hmatch]
      unfold UniqueIds ids at huniq
      rw [hsplit, List.map_append, List.map_cons, List.nodup_append] at huniq
      exact huniq.2.2 (List.mem_map_of_mem _ hm) (by rw [h1]; exact List.mem_cons_self _ _)
  have hstore : (updateOne H st noteId data).2.notesStore =
      pre.map (fun n => if strictEq (getProp n "id") (toNumberVal H noteId) then spread n data
        else n) ++ spread old data ::
      post.map (fun n => if strictEq (getProp n "id") (toNumberVal H noteId) then spread n data
        else n) := by
    rw [updateOne_notesStore, hsplit, List.map_append, List.map_cons]
    have : strictEq (getProp old "id") (toNumberVal H noteId) = true := hmatch
    rw [if_pos this]
  refine getOne_first H _ noteId _ _ _ hstore ?_ ?_
  · rw [matchesId_spread H noteId old data hdata]
    exact hmatch
  · intro m hm
    obtain ⟨m0, hm0, rfl⟩ := List.mem_map.1 hm
    have h0 := hpre m0 hm0
    have h1 : strictEq (getProp m0 "id") (toNumberVal H noteId) = false := h0
    simp only [h1]
    exact h0

/-- C13, as the code has it: when the ids of the store are pairwise distinct
and `data` has no `id` property, after `updateOne(id, data)` has returned the
note `r`, `getOne(id)` succeeds and returns `r`, which is a note of the store
with the id `Number(id)` merged with `data`; and `updateOne(id, data)` does
return for every integer `id` that a note of the store has. -/
theorem getOne_after_updateOne (H : Host) (st : State) (noteId : JSVal) (data r : Note)
    (huniq : UniqueIds st.notesStore) (hdata : ¬ hasKey data "id")
    (hr : (updateOne H st noteId data).1 = Except.ok r) :
    (getOne H (updateOne H st noteId data).2 noteId).1 = Except.ok r ∧
      (∃ old ∈ st.notesStore, matchesId H noteId old = true ∧ r = spread old data) ∧
      (∀ (k : Int) (n : Note), n ∈ st.notesStore → getProp n "id" = JSVal.num k →
        (updateOne H st (JSVal.num k) data).1 = Except.ok (spread n data) ∧
          (getOne H (updateOne H st (JSVal.num k) data).2 (JSVal.num k)).1 =
            Except.ok (spread n data)) := by
  obtain ⟨old, hold, hmatch, hrold⟩ := updateOne_ok H st noteId data r hr
  refine ⟨?_, ⟨old, hold, hmatch, hrold⟩, ?_⟩
  · rw [hrold]
    exact getOne_after_update_aux H st noteId data old hdata huniq hold hmatch
  · intro k n hn hk
    have hm : matchesId H (JSVal.num k) n = true := (matchesId_num H k n).2 hk
    have hget := getOne_after_update_aux H st (JSVal.num k) data n hdata huniq hn hm
    obtain ⟨old2, hold2, hmatch2, hres2⟩ := updateOne_of_match H st (JSVal.num k) data ⟨n, hn, hm⟩
    have hget2 := getOne_after_update_aux H st (JSVal.num k) data old2 hdata huniq hold2 hmatch2
    rw [hget] at hget2
    have heq : spread n data = spread old2 data := Except.ok.inj hget2
    rw [heq]
    rw [heq] at hget
    exact ⟨hres2, hget⟩

/-- After the title of the default note 2 is updated, `getOne(2)` returns the
note with the new title. -/
theorem getOne_after_updateOne_witness :
    UniqueIds (initialState none).notesStore ∧ ¬ hasKey [("title", JSVal.str "T")] "id" ∧
      (getOne referenceHost
        (updateOne referenceHost (initialState none) (JSVal.num 2) [("title", JSVal.str "T")]).2
        (JSVal.num 2)).1 =
      Except.ok [("id", JSVal.num 2), ("title", JSVal.str "T"),
        ("text", JSVal.str "Finish reading the book.")] :=
  ⟨by decide, by decide,
    (getOne_after_updateOne referenceHost (initialState none) (JSVal.num 2)
      [("title", JSVal.str "T")]
      [("id", JSVal.num 2), ("title", JSVal.str "T"),
        ("text", JSVal.str "Finish reading the book.")]
      (by decide) (by decide) rfl).1⟩

/-- C13 as stated fails for a `data` that has an `id` property: over the two
default notes `updateOne(1, data)` with the id 5 in `data` returns the first
note with the id 5, and `getOne(1)` then fails, no note having the id 1. -/
theorem getOne_after_updateOne_counterexample :
    UniqueIds (initialState none).notesStore ∧
      (updateOne referenceHost (initialState none) (JSVal.num 1) [("id", JSVal.num 5)]).1 =
        Except.ok [("id", JSVal.num 5), ("title", JSVal.str "Grocery List Item"),
          ("text", JSVal.str "Buy more coffee.")] ∧
      (getOne referenceHost
        (updateOne referenceHost (initialState none) (JSVal.num 1) [("id", JSVal.num 5)]).2
        (JSVal.num 1)).1 = Except.error "Note not found" :=
  ⟨by decide, rfl, rfl⟩

/-- C14: when the store holds a note with the id `Number(id)`,
`updateOne(id, data)` returns such a note merged with `data`: every field
that `data` has holds the value it has in `data`, and every other field holds
its old value. The store afterwards is the store before with every note of that
id replaced by its merge with `data`, the other notes unchanged: the same
length, the same order, the merged note where the old one was; and it is the
store written to `localStorage`. -/
theorem updateOne_merge (H : Host) (st : State) (noteId : JSVal) (data : Note)
    (hdata : WellFormed data)
    (hex : ∃ n ∈ st.notesStore, matchesId H noteId n = true) :
    (∃ old ∈ st.notesStore, matchesId H noteId old = true ∧
      (updateOne H st noteId data).1 = Except.ok (spread old data) ∧
      (∀ key : String, hasKey data key → getProp (spread old data) key = getProp data key) ∧
      (∀ key : String, ¬ hasKey data key → getProp (spread old data) key = getProp old key)) ∧
    (updateOne H st noteId data).2.notesStore =
      st.notesStore.map (fun n => if matchesId H noteId n then spread n data else n) ∧
    (updateOne H st noteId data).2.notesStore.length = st.notesStore.length ∧
    (∀ (i : Nat) (n : Note), st.notesStore[i]? = some n →
      (updateOne H st noteId data).2.notesStore[i]? =
        some (if matchesId H noteId n then spread n data else n)) ∧
    (updateOne H st noteId data).2.localStorage =
      some (updateOne H st noteId data).2.notesStore := by
  have hstore : (updateOne H st noteId data).2.notesStore =
      st.notesStore.map (fun n => if matchesId H noteId n then spread n data else n) :=
    updateOne_notesStore H st noteId data
  obtain ⟨old, hold, hmatch, hres⟩ := updateOne_of_match H st noteId data hex
  refine ⟨⟨old, hold, hmatch, hres, ?_, ?_⟩, hstore, ?_, ?_, ?_⟩
  · intro key hkey
    exact getProp_spread_of_hasKey key data old hdata hkey
  · intro key hkey
    exact getProp_spread_of_not_hasKey key data old hkey
  · rw [hstore, List.length_map]
  · intro i n hi
    rw [hstore, List.getElem?_map, hi]
    rfl
  · have hsome : (updateNotes H noteId data st.notesStore none).2 = some (spread old data) := by
      have h2 := hres
      unfold updateOne at h2
      simp only [] at h2
      cases hu : (updateNotes H noteId data st.notesStore none).2 with
      | none =>
        rw [hu] at h2
        cases h2
      | some u =>
        rw [hu] at h2
        cases h2
        rfl
    unfold updateOne
    simp only [hsome, saveNotes]

/-- Over the two default notes, `updateOne(2, data)` with a new title returns
the note 2 with that title and its old text. -/
theorem updateOne_merge_witness :
    WellFormed [("title", JSVal.str "T")] ∧
      (∃ n ∈ (initialState none).notesStore, matchesId referenceHost (JSVal.num 2) n = true) ∧
      (updateOne referenceHost (initialState none) (JSVal.num 2)
        [("title", JSVal.str "T")]).2.notesStore =
      (initialState none).notesStore.map (fun n =>
        if matchesId referenceHost (JSVal.num 2) n then spread n [("title", JSVal.str "T")]
        else n) :=
  ⟨by decide, by decide,
    (updateOne_merge referenceHost (initialState none) (JSVal.num 2) [("title", JSVal.str "T")]
      (by decide) (by decide)).2.1⟩

/-! ## validate (claim C19) -/

theorem unitsOf_length_of_bmp :
    ∀ cs : List Char, (∀ c ∈ cs, c.toNat < 65536) → (unitsOf cs).length = cs.length
  | [], _ => rfl
  | c :: cs, h => by
    have hc : c.toNat < 65536 := h c (List.mem_cons_self _ _)
    have ih := unitsOf_length_of_bmp cs (fun d hd => h d (List.mem_cons_of_mem _ hd))
    simp [unitsOf, charUnits, hc, ih]

/-- C19, as the code has it: for form values whose title and text are each a
string or absent, `validate` returns at most one issue for the title, with the
path `[title]`, followed by at most one issue for the text, with the path
`[text]`, and no other: the title issue when the title is absent, empty or of a
`length` below 3, the text issue when the text is absent or empty. So the list
is empty exactly when the title is present with a `length` of at least 3 and
the text is present and not empty. The `length` counts UTF-16 code units, which
for a title without supplementary characters is the number of its characters.
For the title `ab` and the text `x` there is exactly one issue, for the title. -/
theorem validate_spec (H : Host) (formValues : Note)
    (htitle : StringOrAbsent (getProp formValues "title"))
    (htext : StringOrAbsent (getProp formValues "text")) :
    validate H formValues =
        (if titleOk (getProp formValues "title") then []
          else [⟨titleMessage (getProp formValues "title"), ["title"]⟩]) ++
        (if textOk (getProp formValues "text") then []
          else [⟨"Text is required", ["text"]⟩]) ∧
      (validate H formValues = [] ↔
        titleOk (getProp formValues "title") = true ∧
          textOk (getProp formValues "text") = true) ∧
      (∀ s : String, (∀ c ∈ s.data, c.toNat < 65536) →
        (titleOk (JSVal.str s) = true ↔ 3 ≤ s.data.length)) ∧
      validate H [("title", JSVal.str "ab"), ("text", JSVal.str "x")] =
        [⟨"Title must be at least 3 characters", ["title"]⟩] := by
  have hmain : validate H formValues =
      (if titleOk (getProp formValues "title") then []
        else [⟨titleMessage (getProp formValues "title"), ["title"]⟩]) ++
      (if textOk (getProp formValues "text") then []
        else [⟨"Text is required", ["text"]⟩]) := by
    unfold validate
    rcases htitle with ht | ⟨s, ht⟩ <;> rcases htext with hx | ⟨t, hx⟩ <;> rw [ht, hx]
    · simp [truthy, titleOk, textOk, titleMessage]
    · by_cases het : t = "" <;> simp [truthy, titleOk, textOk, titleMessage, het]
    · by_cases hes : s = ""
      · simp [truthy, titleOk, textOk, titleMessage, hes]
        decide
      · by_cases hlen : (utf16Units s).length < 3
        · have h3 : ¬ 3 ≤ (utf16Units s).length := by omega
          simp [truthy, titleOk, textOk, titleMessage, hes, lengthOf, jsLt_num, hlen, h3]
        · have h3 : 3 ≤ (utf16Units s).length := by omega
          simp [truthy, titleOk, textOk, titleMessage, hes, lengthOf, jsLt_num, hlen, h3]
    · by_cases het : t = "" <;> by_cases hes : s = ""
      · simp [truthy, titleOk, textOk, titleMessage, hes, het]
        decide
      · by_cases hlen : (utf16Units s).length < 3
        · have h3 : ¬ 3 ≤ (utf16Units s).length := by omega
          simp [truthy, titleOk, textOk, titleMessage, hes, het, lengthOf, jsLt_num, hlen, h3]
        · have h3 : 3 ≤ (utf16Units s).length := by omega
          simp [truthy, titleOk, textOk, titleMessage, hes, het, lengthOf, jsLt_num, hlen, h3]
      · simp [truthy, titleOk, textOk, titleMessage, hes, het]
        decide
      · by_cases hlen : (utf16Units s).length < 3
        · have h3 : ¬ 3 ≤ (utf16Units s).length := by omega
          simp [truthy, titleOk, textOk, titleMessage, hes, het, lengthOf, jsLt_num, hlen, h3]
        · have h3 : 3 ≤ (utf16Units s).length := by omega
          simp [truthy, titleOk, textOk, titleMessage, hes, het, lengthOf, jsLt_num, hlen, h3]
  refine ⟨hmain, ?_, ?_, ?_⟩
  · rw [hmain]
    cases titleOk (getProp formValues "title") <;> cases textOk (getProp formValues "text") <;>
      simp
  · intro s hs
    simp only [titleOk, decide_eq_true_eq]
    unfold utf16Units
    rw [unitsOf_length_of_bmp s.data hs]
  · unfold validate
    simp [getProp, truthy, lengthOf, jsLt_num]
    decide

/-- The form values with the title `ab` and the text `x` are strings, and
`validate` returns for them the issue of a title that is too short. -/
theorem validate_spec_witness :
    StringOrAbsent (getProp [("title", JSVal.str "ab"), ("text", JSVal.str "x")] "title") ∧
      StringOrAbsent (getProp [("title", JSVal.str "ab"), ("text", JSVal.str "x")] "text") ∧
      validate referenceHost [("title", JSVal.str "ab"), ("text", JSVal.str "x")] =
        (if titleOk (getProp [("title", JSVal.str "ab"), ("text", JSVal.str "x")] "title") then []
          else [⟨titleMessage (getProp [("title", JSVal.str "ab"), ("text", JSVal.str "x")]
            "title"), ["title"]⟩]) ++
        (if textOk (getProp [("title", JSVal.str "ab"), ("text", JSVal.str "x")] "text") then []
          else [⟨"Text is required", ["text"]⟩]) :=
  ⟨by decide, by decide,
    (validate_spec referenceHost [("title", JSVal.str "ab"), ("text", JSVal.str "x")]
      (by decide) (by decide)).1⟩

/-- C19 as stated fails when the length is counted in characters: the title
made of the supplementary character U+1F600 and the letter `a` has two
characters and three UTF-16 code units, and with it and the text `x`,
`validate` returns no issue. -/
theorem validate_counterexample :
    "😀a".data.length = 2 ∧
      (utf16Units "😀a").length = 3 ∧
      StringOrAbsent (getProp [("title", JSVal.str "😀a"), ("text", JSVal.str "x")] "title") ∧
      StringOrAbsent (getProp [("title", JSVal.str "😀a"), ("text", JSVal.str "x")] "text") ∧
      validate referenceHost [("title", JSVal.str "😀a"), ("text", JSVal.str "x")] = [] := by
  decide

/-! ## getMany leaves the store as it is (claim C20) -/

theorem deref_append_of_lt (heap : Heap) (a : List Note) (ref : Nat) (h : ref < heap.length) :
    deref (heap ++ [a]) ref = deref heap ref := by
  unfold deref
  rw [List.getElem?_append_left h]

theorem deref_append_length (heap : Heap) (a : List Note) :
    deref (heap ++ [a]) heap.length = a := by
  unfold deref
  simp

theorem deref_set_of_ne (heap : Heap) (a : List Note) (ref ref2 : Nat) (h : ref ≠ ref2) :
    deref (heap.set ref a) ref2 = deref heap ref2 := by
  unfold deref
  rw [List.getElem?_set_ne h]

theorem deref_set_same (heap : Heap) (a : List Note) (ref : Nat) (h : ref < heap.length) :
    deref (heap.set ref a) ref = a := by
  unfold deref
  simp [h]

theorem frameOk_filterStepRef (H : Host) (heap : Heap) (hp : Heap × Nat) (value : List Note)
    (item : FilterItem) (h : FrameOk heap hp value) :
    FrameOk heap (filterStepRef H hp item) (filterStep H value item) := by
  obtain ⟨h1, h2, h3, h4⟩ := h
  unfold filterStepRef filterStep
  split_ifs
  · exact ⟨h1, h2, h3, h4⟩
  · refine ⟨?_, ?_, ?_, ?_⟩
    · simp only [alloc]
      omega
    · simp [alloc]
    · intro ref href
      simp only [alloc]
      rw [deref_append_of_lt _ _ _ (by omega)]
      exact h3 ref href
    · simp only [alloc]
      rw [deref_append_length, h4]

theorem frameOk_foldl (H : Host) (heap : Heap) :
    ∀ (items : List FilterItem) (hp : Heap × Nat) (value : List Note),
      FrameOk heap hp value →
        FrameOk heap (items.foldl (filterStepRef H) hp) (items.foldl (filterStep H) value)
  | [], _, _, h => h
  | item :: rest, hp, value, h => by
    rw [List.foldl_cons, List.foldl_cons]
    exact frameOk_foldl H heap rest _ _ (frameOk_filterStepRef H heap hp value item h)

theorem getManyRef_frame (H : Host) (heap : Heap) (notesStore : Nat) (params : GetManyParams) :
    (∀ ref, ref < heap.length → deref (getManyRef H heap notesStore params).2 ref = deref heap ref) ∧
      (getManyRef H heap notesStore params).1 =
        (getMany H ⟨deref heap notesStore, none⟩ params).1 ∧
      heap.length ≤ (getManyRef H heap notesStore params).2.length := by
  have hcopied : FrameOk heap (alloc heap (deref heap notesStore)) (deref heap notesStore) := by
    refine ⟨le_refl _, by simp [alloc], ?_, ?_⟩
    · intro ref href
      exact deref_append_of_lt _ _ _ href
    · exact deref_append_length _ _
  have hfiltered : FrameOk heap
      (if (filterItems params.filterModel).length ≠ 0 then
        (filterItems params.filterModel).foldl (filterStepRef H)
          (alloc heap (deref heap notesStore))
      else alloc heap (deref heap notesStore))
      (filterStage H (deref heap notesStore) params.filterModel) := by
    unfold filterStage
    split_ifs
    · exact frameOk_foldl H heap _ _ _ hcopied
    · exact hcopied
  generalize hf : (if (filterItems params.filterModel).length ≠ 0 then
        (filterItems params.filterModel).foldl (filterStepRef H)
          (alloc heap (deref heap notesStore))
      else alloc heap (deref heap notesStore)) = filtered at hfiltered
  obtain ⟨h1, h2, h3, h4⟩ := hfiltered
  have hsorted : ∀ sorted : Heap,
      sorted = (match params.sortModel with
        | some (item :: rest) =>
          filtered.1.set filtered.2
            (H.sort (compareNotes H (item :: rest)) (deref filtered.1 filtered.2))
        | _ => filtered.1) →
      sorted.length = filtered.1.length ∧
        (∀ ref, ref < heap.length → deref sorted ref = deref heap ref) ∧
        deref sorted filtered.2 =
          sortStage H params.sortModel (filterStage H (deref heap notesStore) params.filterModel) := by
    intro sorted hs
    unfold sortStage
    split at hs
    · rw [hs]
      refine ⟨by simp, ?_, ?_⟩
      · intro ref href
        rw [deref_set_of_ne _ _ _ _ (by omega)]
        exact h3 ref href
      · rw [deref_set_same _ _ _ h2, h4]
    · rename_i hne
      rw [hs]
      refine ⟨rfl, h3, ?_⟩
      rw [h4]
  obtain ⟨hlen, hframe, hval⟩ := hsorted _ rfl
  unfold getManyRef
  simp only [hf]
  refine ⟨?_, ?_, ?_⟩
  · intro ref href
    simp only [alloc]
    rw [deref_append_of_lt _ _ _ (by omega)]
    exact hframe ref href
  · simp only [alloc, deref_append_length, getMany, processedNotes, hval]
  · simp only [alloc, List.length_append, List.length_singleton]
    omega

/-- C20: `getMany` does not change the store. On states, the state after the
call is the state before it, so a second call with the same query returns the
same items and the same `itemCount`. On array references, where `sort`
rearranges in place the array it is called on: every array of the heap before
the call, the store among them, holds after the call the notes it held, in the
same order, filtering and sorting having acted on arrays made during the call;
the result is the one computed on states, and a second call returns it again. -/
theorem getMany_frame (H : Host) (st : State) (params : GetManyParams) (heap : Heap)
    (notesStore : Nat) (hstore : notesStore < heap.length) :
    (getMany H st params).2 = st ∧
      (getMany H (getMany H st params).2 params).1 = (getMany H st params).1 ∧
      (∀ ref, ref < heap.length →
        deref (getManyRef H heap notesStore params).2 ref = deref heap ref) ∧
      deref (getManyRef H heap notesStore params).2 notesStore = deref heap notesStore ∧
      (getManyRef H heap notesStore params).1 =
        (getMany H ⟨deref heap notesStore, none⟩ params).1 ∧
      (getManyRef H (getManyRef H heap notesStore params).2 notesStore params).1 =
        (getManyRef H heap notesStore params).1 := by
  obtain ⟨hframe, hres, -⟩ := getManyRef_frame H heap notesStore params
  refine ⟨rfl, rfl, hframe, hframe notesStore hstore, hres, ?_⟩
  obtain ⟨-, hres2, -⟩ := getManyRef_frame H (getManyRef H heap notesStore params).2 notesStore
    params
  rw [hres2, hframe notesStore hstore, hres]

/-- On the heap whose one array is the two default notes, sorted by `id`
descending, the store is after the call as it was before. -/
theorem getMany_frame_witness :
    (0 : Nat) < [defaultNotes].length ∧
      deref (getManyRef referenceHost [defaultNotes] 0
        ⟨⟨0, 10⟩, none, some [⟨JSVal.str "id", JSVal.str "desc"⟩]⟩).2 0 =
      deref [defaultNotes] 0 :=
  ⟨by decide,
    (getMany_frame referenceHost (initialState none)
      ⟨⟨0, 10⟩, none, some [⟨JSVal.str "id", JSVal.str "desc"⟩]⟩ [defaultNotes] 0
      (by decide)).2.2.2.1⟩

end App
